import Mathlib

/-!
# Movies service: create-and-enrich workflow, keyset pagination, cursor codec, ratings

A shallow embedding of `internal/store/movies.go`, `internal/api/handlers/handlers.go` and
`internal/api/middleware/auth.go`.

* Go strings and byte slices are lists of byte values (`GoString`).
* `time.Time` is an instant (nanoseconds since 0001-01-01T00:00:00Z) with a zone offset.
* A finite `float64` is the rational number it denotes.
* Go's `int`/`int64` are integers; the one expression of the embedded code that can leave
  the 64-bit range, `filters.Limit+1`, wraps around as it does for a 64-bit `int`.
* The database and the box-office HTTP client are collaborators: handlers are written
  against `StoreOps`, a record of the `MovieStore` methods acting on an explicit store
  state, and take the outcome of the fetch as an argument.  `memStore` is the in-memory
  reading of the SQL statements.
-/

namespace Movies

/-! ## Basic data -/

/-- A Go string or byte slice: the sequence of its bytes (each value below 256). -/
abbrev GoString := List Nat

/-- The bytes of an ASCII literal. -/
def ascii (s : String) : GoString := s.toList.map Char.toNat

/-- A Go error value (only its presence matters to the embedded code). -/
abbrev GoError := String

/-- A `time.Time`: the instant, counted in nanoseconds from 0001-01-01T00:00:00Z (Go's zero
time), and the offset of its location in seconds east of UTC. -/
structure Time where
  nanos : Int
  offset : Int
deriving DecidableEq, Repr

/-- The zero value of `time.Time`. -/
def Time.zero : Time := ⟨0, 0⟩

/-- The `store.BoxOffice` struct (the `boxOffice` field of a movie in a response). -/
structure BoxOffice where
  Worldwide : Int
  OpeningWeekendUSA : Option Int
  Currency : GoString
  Source : GoString
  LastUpdated : Time
deriving DecidableEq, Repr

/-- The `store.Movie` struct; pointer fields are options. -/
structure Movie where
  ID : GoString
  Title : GoString
  ReleaseDate : Time
  Genre : GoString
  Distributor : Option GoString
  Budget : Option Int
  MPARating : Option GoString
  CreatedAt : Time
  UpdatedAt : Time
  BoxOffice : Option BoxOffice
deriving DecidableEq, Repr

/-- The `store.BoxOfficeRow` struct. -/
structure BoxOfficeRow where
  MovieID : GoString
  GrossUSD : Int
  OpeningWeekendUSA : Option Int
  Currency : GoString
  Source : GoString
  LastReported : Time
  FetchedAt : Time
deriving DecidableEq, Repr

/-- The `store.Cursor` struct. -/
structure Cursor where
  CreatedAt : Time
  ID : GoString
deriving DecidableEq, Repr

/-- The `store.ListFilters` struct. -/
structure ListFilters where
  Query : GoString
  Year : Option Int
  Genre : GoString
  Distributor : GoString
  Budget : Option Int
  MPARating : GoString
  Limit : Int
  Cursor : Option Cursor
deriving DecidableEq, Repr

/-- The `boxoffice.Response` struct, with `Revenue` flattened. -/
structure Response where
  Title : GoString
  Distributor : GoString
  ReleaseDate : GoString
  Budget : Int
  Worldwide : Int
  OpeningWeekendUSA : Int
  MPARating : GoString
deriving DecidableEq, Repr

/-- The `handlers.CreateRequest` struct. -/
structure CreateRequest where
  Title : GoString
  Genre : GoString
  ReleaseDate : GoString
  Distributor : Option GoString
  Budget : Option Int
  MPARating : Option GoString
deriving DecidableEq, Repr

/-! ## Calendar (package `time`) -/

/-- Go's `isLeap`. -/
def isLeap (year : Int) : Bool :=
  year % 4 = 0 && (year % 100 ≠ 0 || year % 400 = 0)

/-- Go's `daysBefore` table: days of a non-leap year before month `m` (1 = January). -/
def daysBefore (m : Int) : Int :=
  if m ≤ 1 then 0 else if m = 2 then 31 else if m = 3 then 59 else if m = 4 then 90
  else if m = 5 then 120 else if m = 6 then 151 else if m = 7 then 181 else if m = 8 then 212
  else if m = 9 then 243 else if m = 10 then 273 else if m = 11 then 304 else if m = 12 then 334
  else 365

/-- Go's `daysIn`. -/
def daysIn (m year : Int) : Int :=
  if m = 2 ∧ isLeap year then 29 else daysBefore (m + 1) - daysBefore m

/-- Go's `daysSinceEpoch`, counted from 0001-01-01: days before 1 January of `year`. -/
def daysSinceEpoch (year : Int) : Int :=
  let y := year - 1
  let n400 := y / 400
  let y1 := y - 400 * n400
  let n100 := y1 / 100
  let y2 := y1 - 100 * n100
  let n4 := y2 / 4
  let y3 := y2 - 4 * n4
  146097 * n400 + 36524 * n100 + 1461 * n4 + 365 * y3

/-- The day number (from 0001-01-01) of a civil date, as `time.Date` computes it. -/
def dateToDays (year month day : Int) : Int :=
  daysSinceEpoch year + daysBefore month + (if isLeap year ∧ month ≥ 3 then 1 else 0) + (day - 1)

/-- The year and the day within the year of a day number: the cycle cutting of Go's
`absDate`. -/
def absYear (days : Int) : Int × Int :=
  let n400 := days / 146097
  let d1 := days - 146097 * n400
  let n100a := d1 / 36524
  let n100 := if n100a = 4 then 3 else n100a
  let d2 := d1 - 36524 * n100
  let n4 := d2 / 1461
  let d3 := d2 - 1461 * n4
  let n1a := d3 / 365
  let n1 := if n1a = 4 then 3 else n1a
  (400 * n400 + 100 * n100 + 4 * n4 + n1 + 1, d3 - 365 * n1)

/-- The month of day `day` (0-based) of a non-leap year. -/
def monthOfDay (day : Int) : Int :=
  if day < 31 then 1 else if day < 59 then 2 else if day < 90 then 3 else if day < 120 then 4
  else if day < 151 then 5 else if day < 181 then 6 else if day < 212 then 7
  else if day < 243 then 8 else if day < 273 then 9 else if day < 304 then 10
  else if day < 334 then 11 else 12

/-- Month and day of the month from the day within the year (the second half of `absDate`). -/
def monthDay (leap : Bool) (yday : Int) : Int × Int :=
  if leap ∧ yday = 59 then (2, 29)
  else
    let day := if leap ∧ yday > 59 then yday - 1 else yday
    (monthOfDay day, day - daysBefore (monthOfDay day) + 1)

/-- Go's `absDate`: year, month, day of a day number. -/
def absDate (days : Int) : Int × Int × Int :=
  let yy := absYear days
  (yy.1, monthDay (isLeap yy.1) yy.2)

/-- Nanoseconds per second and seconds per day. -/
def nanosPerSec : Int := 1000000000

/-- Seconds in a day. -/
def secsPerDay : Int := 86400

/-- `time.Date(year, month, day, hour, min, sec, nsec, UTC)` for in-range fields. -/
def Time.date (year month day hour min sec nsec : Int) : Time :=
  ⟨((dateToDays year month day * secsPerDay + hour * 3600 + min * 60 + sec) * nanosPerSec + nsec), 0⟩

/-- `t.Year()`: the year of the instant in the time's own location. -/
def Time.year (t : Time) : Int :=
  (absYear ((t.nanos / nanosPerSec + t.offset) / secsPerDay)).1

/-! ## Decimal text -/

/-- Whether a byte is an ASCII digit. -/
def isDigit (b : Nat) : Bool := decide (48 ≤ b) && decide (b ≤ 57)

/-- The ASCII digit of `n % 10`. -/
def digitChar (n : Nat) : Nat := 48 + n % 10

/-- The value of a string of ASCII digits, read left to right from `acc`;
`none` when a byte is not a digit. -/
def parseDigitsFrom : Nat → GoString → Option Nat
  | acc, [] => some acc
  | acc, b :: rest => if isDigit b then parseDigitsFrom (acc * 10 + (b - 48)) rest else none

/-- The `parseUint` closure of `parseRFC3339`: all bytes are digits and the value lies in
`[lo, hi]`. -/
def parseUint (s : GoString) (lo hi : Int) : Option Int :=
  match parseDigitsFrom 0 s with
  | some x => if lo ≤ (x : Int) ∧ (x : Int) ≤ hi then some (x : Int) else none
  | none => none

/-- `time.Parse("2006-01-02", s)`: exactly `YYYY-MM-DD` with a month in 1..12 and a day
that exists in that month. -/
def parseDateOnly (s : GoString) : Option Time :=
  if s.length = 10 ∧ s.get? 4 = some 45 ∧ s.get? 7 = some 45 then
    match parseUint (s.take 4) 0 9999 with
    | none => none
    | some year =>
      match parseUint ((s.drop 5).take 2) 1 12 with
      | none => none
      | some month =>
        match parseUint ((s.drop 8).take 2) 1 (daysIn month year) with
        | none => none
        | some day => some (Time.date year month day 0 0 0 0)
  else none

/-! ## Base64 (`encoding/base64`, `URLEncoding`) -/

/-- The character of a 6-bit value in the URL-safe alphabet
`A-Z a-z 0-9 - _` (`encodeURL`). -/
def b64Char (v : Nat) : Nat :=
  if v < 26 then 65 + v else if v < 52 then 71 + v else if v < 62 then v - 4
  else if v = 62 then 45 else 95

/-- The 6-bit value of a character of the URL-safe alphabet (`decodeMap`). -/
def b64Value (c : Nat) : Option Nat :=
  if 65 ≤ c ∧ c ≤ 90 then some (c - 65)
  else if 97 ≤ c ∧ c ≤ 122 then some (c - 71)
  else if 48 ≤ c ∧ c ≤ 57 then some (c + 4)
  else if c = 45 then some 62
  else if c = 95 then some 63
  else none

/-- `base64.URLEncoding.EncodeToString`: three bytes become four characters; a last group
of one or two bytes is padded with `=`. -/
def base64Encode : GoString → GoString
  | [] => []
  | [a] => [b64Char (a / 4 % 64), b64Char (a % 4 * 16), 61, 61]
  | [a, b] => [b64Char (a / 4 % 64), b64Char (a % 4 * 16 + b / 16 % 16), b64Char (b % 16 * 4), 61]
  | a :: b :: c :: rest =>
    b64Char (a / 4 % 64) :: b64Char (a % 4 * 16 + b / 16 % 16) ::
      b64Char (b % 16 * 4 + c / 64 % 4) :: b64Char (c % 64) :: base64Encode rest

/-- Dropping leading `\r` and `\n`, as the decoder does around padding. -/
def skipNewlines : GoString → GoString
  | [] => []
  | c :: rest => if c = 10 ∨ c = 13 then skipNewlines rest else c :: rest

/-- `base64.URLEncoding.DecodeString`, one character at a time; `buf` holds the 6-bit
values of the current group.  `\r` and `\n` are skipped, `=` is accepted only as the
padding of the last group, and nothing may follow the padding. -/
def base64DecodeFrom : GoString → List Nat → Option GoString
  | [], buf => if buf = [] then some [] else none
  | c :: rest, buf =>
    match b64Value c with
    | some v =>
      match buf with
      | [v0, v1, v2] =>
        (base64DecodeFrom rest []).map
          ([v0 * 4 + v1 / 16, v1 % 16 * 16 + v2 / 4, v2 % 4 * 64 + v] ++ ·)
      | _ => base64DecodeFrom rest (buf ++ [v])
    | none =>
      if c = 10 ∨ c = 13 then base64DecodeFrom rest buf
      else if c ≠ 61 then none
      else
        match buf with
        | [v0, v1] =>
          match skipNewlines rest with
          | 61 :: rest2 => if skipNewlines rest2 = [] then some [v0 * 4 + v1 / 16] else none
          | _ => none
        | [v0, v1, v2] =>
          if skipNewlines rest = [] then some [v0 * 4 + v1 / 16, v1 % 16 * 16 + v2 / 4]
          else none
        | _ => none

/-- `base64.URLEncoding.DecodeString`. -/
def base64Decode (s : GoString) : Option GoString := base64DecodeFrom s []

/-! ## UTF-8 (`unicode/utf8`) -/

/-- Whether a byte is a continuation byte `10xxxxxx`. -/
def isCont (b : Nat) : Bool := decide (128 ≤ b) && decide (b ≤ 191)

/-- `utf8.DecodeRune` on a non-empty input: the rune and its width, or `none` where Go
returns `(RuneError, 1)` for an invalid or truncated encoding. -/
def decodeRune : GoString → Option (Nat × Nat)
  | [] => none
  | b0 :: rest =>
    if b0 < 128 then some (b0, 1)
    else if 194 ≤ b0 ∧ b0 ≤ 223 then
      match rest with
      | b1 :: _ => if isCont b1 then some (b0 % 32 * 64 + b1 % 64, 2) else none
      | _ => none
    else if 224 ≤ b0 ∧ b0 ≤ 239 then
      match rest with
      | b1 :: b2 :: _ =>
        if (if b0 = 224 then 160 else 128) ≤ b1 ∧ b1 ≤ (if b0 = 237 then 159 else 191) ∧
            isCont b2 then
          some ((b0 % 16 * 64 + b1 % 64) * 64 + b2 % 64, 3)
        else none
      | _ => none
    else if 240 ≤ b0 ∧ b0 ≤ 244 then
      match rest with
      | b1 :: b2 :: b3 :: _ =>
        if (if b0 = 240 then 144 else 128) ≤ b1 ∧ b1 ≤ (if b0 = 244 then 143 else 191) ∧
            isCont b2 ∧ isCont b3 then
          some (((b0 % 8 * 64 + b1 % 64) * 64 + b2 % 64) * 64 + b3 % 64, 4)
        else none
      | _ => none
    else none

/-- `utf8.EncodeRune`/`AppendRune`; surrogates and values above U+10FFFF become U+FFFD. -/
def encodeRune (r : Nat) : GoString :=
  if r < 128 then [r]
  else if r < 2048 then [192 + r / 64, 128 + r % 64]
  else if (55296 ≤ r ∧ r ≤ 57343) ∨ 1114111 < r then [239, 191, 189]
  else if r < 65536 then [224 + r / 4096, 128 + r / 64 % 64, 128 + r % 64]
  else [240 + r / 262144, 128 + r / 4096 % 64, 128 + r / 64 % 64, 128 + r % 64]

/-- `utf8.Valid`, with `fuel` bounding the number of runes. -/
def validUTF8From : Nat → GoString → Bool
  | _, [] => true
  | 0, _ :: _ => false
  | fuel + 1, b :: rest =>
    match decodeRune (b :: rest) with
    | some (_, size) => validUTF8From fuel ((b :: rest).drop size)
    | none => false

/-- `utf8.Valid`: the bytes are a sequence of well-formed UTF-8 encodings. -/
def validUTF8 (s : GoString) : Bool := validUTF8From s.length s

/-! ## JSON strings (`encoding/json`) -/

/-- The lower-case hexadecimal digit of a value below 16. -/
def hexChar (n : Nat) : Nat := if n < 10 then 48 + n else 87 + n

/-- The value of a hexadecimal digit, either case. -/
def hexValue (c : Nat) : Option Nat :=
  if 48 ≤ c ∧ c ≤ 57 then some (c - 48)
  else if 97 ≤ c ∧ c ≤ 102 then some (c - 87)
  else if 65 ≤ c ∧ c ≤ 70 then some (c - 55)
  else none

/-- `htmlSafeSet`: the ASCII bytes that `appendString` copies unescaped when HTML
escaping is on (the default of `json.Marshal`). -/
def htmlSafe (b : Nat) : Bool :=
  decide (32 ≤ b) && decide (b < 128) && decide (b ≠ 34) && decide (b ≠ 92) &&
    decide (b ≠ 60) && decide (b ≠ 62) && decide (b ≠ 38)

/-- The escape `appendString` writes for an ASCII byte outside `htmlSafeSet`. -/
def escapeByte (b : Nat) : GoString :=
  if b = 92 ∨ b = 34 then [92, b]
  else if b = 8 then [92, 98]
  else if b = 12 then [92, 102]
  else if b = 10 then [92, 110]
  else if b = 13 then [92, 114]
  else if b = 9 then [92, 116]
  else [92, 117, 48, 48, hexChar (b / 16), hexChar (b % 16)]

/-- One step of `appendString` at byte `b` followed by `rest`: the text written and the
input left.  Safe ASCII is copied, other ASCII is escaped, an invalid byte becomes the
escape of U+FFFD, U+2028 and U+2029 are escaped, any other well-formed rune is copied. -/
def quoteStep (b : Nat) (rest : GoString) : GoString × GoString :=
  if b < 128 then (if htmlSafe b then [b] else escapeByte b, rest)
  else
    match decodeRune (b :: rest) with
    | none => ([92, 117, 102, 102, 102, 100], rest)
    | some (c, size) =>
      if c = 8232 ∨ c = 8233 then
        ([92, 117, 50, 48, 50, hexChar (c % 16)], (b :: rest).drop size)
      else ((b :: rest).take size, (b :: rest).drop size)

/-- The body of `appendString` (between the quotes); `fuel` bounds the number of steps. -/
def quoteBody : Nat → GoString → GoString
  | _, [] => []
  | 0, _ :: _ => []
  | fuel + 1, b :: rest => (quoteStep b rest).1 ++ quoteBody fuel (quoteStep b rest).2

/-- `appendString`: a Go string as a JSON string literal. -/
def jsonQuote (s : GoString) : GoString := 34 :: quoteBody s.length s ++ [34]

/-- Four hexadecimal digits at the head of the input (`getu4` behind `\u`). -/
def hex4 : GoString → Option Nat
  | h1 :: h2 :: h3 :: h4 :: _ =>
    match hexValue h1, hexValue h2, hexValue h3, hexValue h4 with
    | some a, some b, some c, some d => some (((a * 16 + b) * 16 + c) * 16 + d)
    | _, _, _, _ => none
  | _ => none

/-- One escape of `unquoteBytes`, behind the backslash: the bytes it stands for and the
input left.  A `\u` escape of a surrogate is combined with a following low surrogate, or
replaced by U+FFFD. -/
def unquoteEscape (e : Nat) (rest1 : GoString) : Option (GoString × GoString) :=
  if e = 34 ∨ e = 92 ∨ e = 47 ∨ e = 39 then some ([e], rest1)
  else if e = 98 then some ([8], rest1)
  else if e = 102 then some ([12], rest1)
  else if e = 110 then some ([10], rest1)
  else if e = 114 then some ([13], rest1)
  else if e = 116 then some ([9], rest1)
  else if e = 117 then
    match hex4 rest1 with
    | none => none
    | some rr =>
      if 55296 ≤ rr ∧ rr ≤ 57343 then
        match rest1.drop 4 with
        | 92 :: 117 :: rest2 =>
          match hex4 rest2 with
          | some rr1 =>
            if rr < 56320 ∧ 56320 ≤ rr1 ∧ rr1 ≤ 57343 then
              some (encodeRune ((rr - 55296) * 1024 + (rr1 - 56320) + 65536), rest2.drop 4)
            else some (encodeRune 65533, rest1.drop 4)
          | none => some (encodeRune 65533, rest1.drop 4)
        | _ => some (encodeRune 65533, rest1.drop 4)
      else some (encodeRune rr, rest1.drop 4)
  else none

/-- One step of `unquoteBytes` at byte `c` followed by `rest`: the bytes produced and the
input left.  A quote or control byte is an error; invalid UTF-8 becomes U+FFFD. -/
def unquoteStep (c : Nat) (rest : GoString) : Option (GoString × GoString) :=
  if c = 92 then
    match rest with
    | [] => none
    | e :: rest1 => unquoteEscape e rest1
  else if c = 34 ∨ c < 32 then none
  else if c < 128 then some ([c], rest)
  else
    match decodeRune (c :: rest) with
    | none => some (encodeRune 65533, rest)
    | some (rr, size) => some (encodeRune rr, (c :: rest).drop size)

/-- The body of `unquoteBytes` (the text between the quotes of a JSON string literal);
`fuel` bounds the number of steps. -/
def unquoteBody : Nat → GoString → Option GoString
  | _, [] => some []
  | 0, _ :: _ => none
  | fuel + 1, c :: rest =>
    match unquoteStep c rest with
    | none => none
    | some (chunk, rest1) => (unquoteBody fuel rest1).map (chunk ++ ·)

/-- `unquoteBytes` on the text between the quotes. -/
def jsonUnquote (raw : GoString) : Option GoString := unquoteBody raw.length raw

/-! ## JSON syntax (`encoding/json` scanner) -/

/-- Skipping JSON white space (space, tab, CR, LF). -/
def skipWs : GoString → GoString
  | [] => []
  | c :: rest => if c = 32 ∨ c = 9 ∨ c = 13 ∨ c = 10 then skipWs rest else c :: rest

/-- The scanner inside a string literal, as a state machine over the bytes: state 0 is
`stateInString`, state 1 `stateInStringEsc`, states 5, 4, 3, 2 expect four, three, two, one
more hexadecimal digits of a `\u` escape.  Returns the raw text up to the closing quote
and what follows it; control bytes and malformed escapes are errors. -/
def scanStringFrom : Nat → GoString → Option (GoString × GoString)
  | _, [] => none
  | st, c :: rest =>
    if st = 0 then
      if c = 34 then some ([], rest)
      else if c = 92 then (scanStringFrom 1 rest).map fun r => (c :: r.1, r.2)
      else if c < 32 then none
      else (scanStringFrom 0 rest).map fun r => (c :: r.1, r.2)
    else if st = 1 then
      if c = 98 ∨ c = 102 ∨ c = 110 ∨ c = 114 ∨ c = 116 ∨ c = 92 ∨ c = 47 ∨ c = 34 then
        (scanStringFrom 0 rest).map fun r => (c :: r.1, r.2)
      else if c = 117 then (scanStringFrom 5 rest).map fun r => (c :: r.1, r.2)
      else none
    else if (hexValue c).isSome then
      (scanStringFrom (if st = 2 then 0 else st - 1) rest).map fun r => (c :: r.1, r.2)
    else none

/-- The scanner on a string literal, behind the opening quote. -/
def scanString (s : GoString) : Option (GoString × GoString) := scanStringFrom 0 s

/-- One or more digits, then the rest. -/
def scanDigits (s : GoString) : Option GoString :=
  match s with
  | c :: _ => if isDigit c then some (s.dropWhile isDigit) else none
  | [] => none

/-- The scanner on a number: `-? (0 | [1-9][0-9]*) (. [0-9]+)? ([eE] [+-]? [0-9]+)?`. -/
def scanNumber (s : GoString) : Option GoString :=
  let s1 := match s with
    | 45 :: r => r
    | _ => s
  let intPart : Option GoString := match s1 with
    | 48 :: r => some r
    | c :: r => if 49 ≤ c ∧ c ≤ 57 then some (r.dropWhile isDigit) else none
    | [] => none
  match intPart with
  | none => none
  | some s2 =>
    let fracPart : Option GoString := match s2 with
      | 46 :: r => scanDigits r
      | _ => some s2
    match fracPart with
    | none => none
    | some s3 =>
      match s3 with
      | c :: r =>
        if c = 101 ∨ c = 69 then
          match r with
          | d :: r1 => if d = 43 ∨ d = 45 then scanDigits r1 else scanDigits r
          | [] => none
        else some s3
      | [] => some s3

/-- A field value as the struct decoder sees it: `null`, a string literal (its raw text),
or any other value. -/
inductive JShape where
  | null
  | str (raw : GoString)
  | other
deriving DecidableEq, Repr

/-- A parsed value: like `JShape`, with the members of an object listed (raw key text and
the shape of each value, in order). -/
inductive JVal where
  | null
  | str (raw : GoString)
  | obj (members : List (GoString × JShape))
  | other
deriving DecidableEq, Repr

/-- The shape of a value used as a field value. -/
def JVal.shape : JVal → JShape
  | .null => .null
  | .str raw => .str raw
  | _ => .other

/-- The rest of an array behind an element: `]`, or `,` and another element. -/
def arrayLoop (elem : GoString → Option GoString) : Nat → GoString → Option GoString
  | 0, _ => none
  | _, [] => none
  | fuel + 1, c :: rest =>
    if c = 93 then some rest
    else if c = 44 then
      match elem (skipWs rest) with
      | some r => arrayLoop elem fuel (skipWs r)
      | none => none
    else none

/-- One object member `"key" : value` at the head of the input. -/
def parseMember (value : GoString → Option (JVal × GoString)) (s : GoString) :
    Option ((GoString × JShape) × GoString) :=
  match s with
  | 34 :: r =>
    match scanString r with
    | none => none
    | some (key, r1) =>
      match skipWs r1 with
      | 58 :: r2 =>
        match value (skipWs r2) with
        | some (v, r3) => some ((key, v.shape), r3)
        | none => none
      | _ => none
  | _ => none

/-- The rest of an object behind a member: `}`, or `,` and another member. -/
def memberLoop (value : GoString → Option (JVal × GoString)) :
    Nat → GoString → Option (List (GoString × JShape) × GoString)
  | 0, _ => none
  | _, [] => none
  | fuel + 1, c :: rest =>
    if c = 125 then some ([], rest)
    else if c = 44 then
      match parseMember value (skipWs rest) with
      | some (m, r) =>
        match memberLoop value fuel (skipWs r) with
        | some (ms, r1) => some (m :: ms, r1)
        | none => none
      | none => none
    else none

/-- Whether the input starts with the given bytes; then the rest. -/
def expectBytes (lit : GoString) (s : GoString) : Option GoString :=
  if lit.isPrefixOf s then some (s.drop lit.length) else none

/-- The scanner's `maxNestingDepth`. -/
def maxNestingDepth : Nat := 10000

/-- One JSON value at the head of the input (no leading white space), and the rest;
`depth` counts the arrays and objects the value lies in. -/
def parseValue : Nat → Nat → GoString → Option (JVal × GoString)
  | 0, _, _ => none
  | _, _, [] => none
  | fuel + 1, depth, c :: rest =>
    if c = 34 then (scanString rest).map fun r => (.str r.1, r.2)
    else if c = 123 then
      if depth < maxNestingDepth then
        match skipWs rest with
        | 125 :: r => some (.obj [], r)
        | r =>
          match parseMember (parseValue fuel (depth + 1)) r with
          | some (m, r1) =>
            match memberLoop (parseValue fuel (depth + 1)) fuel (skipWs r1) with
            | some (ms, r2) => some (.obj (m :: ms), r2)
            | none => none
          | none => none
      else none
    else if c = 91 then
      if depth < maxNestingDepth then
        match skipWs rest with
        | 93 :: r => some (.other, r)
        | r =>
          match parseValue fuel (depth + 1) r with
          | some (_, r1) =>
            (arrayLoop (fun s => (parseValue fuel (depth + 1) s).map (·.2)) fuel (skipWs r1)).map
              fun r2 => (.other, r2)
          | none => none
      else none
    else if c = 116 then (expectBytes [114, 117, 101] rest).map fun r => (.other, r)
    else if c = 102 then (expectBytes [97, 108, 115, 101] rest).map fun r => (.other, r)
    else if c = 110 then (expectBytes [117, 108, 108] rest).map fun r => (.null, r)
    else if c = 45 ∨ isDigit c then (scanNumber (c :: rest)).map fun r => (.other, r)
    else none

/-- A whole JSON text: white space, one value, white space, end of input
(`checkValid`). -/
def parseJSON (data : GoString) : Option JVal :=
  match parseValue (data.length + 1) 0 (skipWs data) with
  | some (v, rest) => if skipWs rest = [] then some v else none
  | none => none

/-! ## RFC 3339 timestamps (`time.Time.MarshalJSON` / `UnmarshalJSON`) -/

/-- `appendInt(b, n, width)` for `0 ≤ n < 10^width`: exactly `width` decimal digits. -/
def appendInt : Nat → Nat → GoString
  | 0, _ => []
  | width + 1, n => appendInt width (n / 10) ++ [digitChar n]

/-- Removing trailing `0` characters. -/
def trimZeros : GoString → GoString
  | [] => []
  | d :: rest => if trimZeros rest = [] ∧ d = 48 then [] else d :: trimZeros rest

/-- The fractional second of `RFC3339Nano`: nothing for zero, otherwise `.` and the nine
digits without trailing zeros. -/
def formatFraction (nsec : Nat) : GoString :=
  if nsec = 0 then [] else 46 :: trimZeros (appendInt 9 nsec)

/-- The zone of `RFC3339`: `Z` for offset zero, otherwise sign, hours and minutes of the
offset; the seconds of the offset are dropped. -/
def formatZone (offset : Int) : GoString :=
  if offset = 0 then [90]
  else
    let zone : Nat := offset.natAbs / 60
    (if offset ≤ -60 then 45 else 43) :: (appendInt 2 (zone / 60) ++ 58 :: appendInt 2 (zone % 60))

/-- `t.appendStrictRFC3339`: the time in `RFC3339Nano` form in its own zone; an error when
the year is outside `[0, 9999]` or the zone hour is above 23. -/
def formatRFC3339 (t : Time) : Option GoString :=
  let abs := t.nanos / nanosPerSec + t.offset
  let date := absDate (abs / secsPerDay)
  let secOfDay := abs % secsPerDay
  if date.1 < 0 ∨ 9999 < date.1 then none
  else if t.offset ≠ 0 ∧ 24 ≤ t.offset.natAbs / 60 / 60 then none
  else
    some (appendInt 4 date.1.toNat ++ 45 :: appendInt 2 date.2.1.toNat ++
      45 :: appendInt 2 date.2.2.toNat ++ 84 :: appendInt 2 (secOfDay / 3600).toNat ++
      58 :: appendInt 2 (secOfDay % 3600 / 60).toNat ++ 58 :: appendInt 2 (secOfDay % 60).toNat ++
      formatFraction (t.nanos % nanosPerSec).toNat ++ formatZone t.offset)

/-- The fractional second of `parseRFC3339`: behind `.` and a digit, all digits are
consumed and the first nine count (`parseNanoseconds`).  Returns nanoseconds and rest. -/
def parseFraction (s : GoString) : Nat × GoString :=
  match s with
  | 46 :: d :: rest =>
    if isDigit d then
      let digits := (d :: rest).takeWhile isDigit
      let used := digits.take 9
      ((parseDigitsFrom 0 used).getD 0 * 10 ^ (9 - used.length), (d :: rest).dropWhile isDigit)
    else (0, s)
  | _ => (0, s)

/-- The zone of `parseRFC3339`: `Z`, or sign, two-digit hour below 24, `:`, two-digit
minute below 60.  Returns the offset in seconds. -/
def parseZone (s : GoString) : Option Int :=
  if s = [90] then some 0
  else if s.length = 6 ∧ (s.get? 0 = some 45 ∨ s.get? 0 = some 43) ∧ s.get? 3 = some 58 then
    match parseUint ((s.drop 1).take 2) 0 23, parseUint ((s.drop 4).take 2) 0 59 with
    | some hr, some mm => some (if s.get? 0 = some 45 then -((hr * 60 + mm) * 60)
        else (hr * 60 + mm) * 60)
    | _, _ => none
  else none

/-- `parseRFC3339` (the strict parser that `Time.UnmarshalJSON` tries first): fixed-width
date and time fields with range checks, optional fraction, zone. -/
def parseRFC3339 (s : GoString) : Option Time :=
  if 19 ≤ s.length ∧ s.get? 4 = some 45 ∧ s.get? 7 = some 45 ∧ s.get? 10 = some 84 ∧
      s.get? 13 = some 58 ∧ s.get? 16 = some 58 then
    match parseUint (s.take 4) 0 9999, parseUint ((s.drop 5).take 2) 1 12 with
    | some year, some month =>
      match parseUint ((s.drop 8).take 2) 1 (daysIn month year),
          parseUint ((s.drop 11).take 2) 0 23, parseUint ((s.drop 14).take 2) 0 59,
          parseUint ((s.drop 17).take 2) 0 59 with
      | some day, some hour, some min, some sec =>
        let frac := parseFraction (s.drop 19)
        match parseZone frac.2 with
        | some zoneOffset =>
          some ⟨(Time.date year month day hour min sec frac.1).nanos - zoneOffset * nanosPerSec,
            zoneOffset⟩
        | none => none
      | _, _, _, _ => none
    | _, _ => none
  else none

/-- `getnum(s, fixed)` of package `time`: the number of the one or two leading digits (two
are required when `fixed`), and the rest. -/
def getnum (s : GoString) (fixed : Bool) : Option (Nat × GoString) :=
  match s with
  | [] => none
  | a :: rest =>
    if isDigit a then
      match rest with
      | [] => if fixed then none else some (a - 48, [])
      | b :: rest1 =>
        if isDigit b then some ((a - 48) * 10 + (b - 48), rest1)
        else if fixed then none else some (a - 48, b :: rest1)
    else none

/-- `skip(value, prefix)` of package `time` for a one-byte prefix other than a space. -/
def skipByte (c : Nat) (value : GoString) : Option GoString :=
  match value with
  | b :: rest => if b = c then some rest else none
  | [] => none

/-- The fractional second as `time.Parse` reads it behind the seconds of a layout without
one: like `parseFraction`, with a comma accepted in place of the period. -/
def parseFractionLenient (s : GoString) : Nat × GoString :=
  match s with
  | 44 :: d :: rest => if isDigit d then parseFraction (46 :: d :: rest) else (0, s)
  | _ => parseFraction s

/-- The zone of the layout element `Z07:00` as `time.Parse` reads it: `Z`, or a sign, two
digits of hours (at most 24), `:`, two digits of minutes (at most 60).  Returns the offset
in seconds and the rest. -/
def parseZoneLenient (s : GoString) : Option (Int × GoString) :=
  match s with
  | 90 :: rest => some (0, rest)
  | _ =>
    if s.length < 6 ∨ s.get? 3 ≠ some 58 then none
    else
      match getnum ((s.drop 1).take 2) true, getnum ((s.drop 4).take 2) true with
      | some (hr, _), some (mm, _) =>
        if 24 < hr ∨ 60 < mm then none
        else if s.get? 0 = some 43 then some (((hr * 60 + mm) * 60 : Nat), s.drop 6)
        else if s.get? 0 = some 45 then some (-(((hr * 60 + mm) * 60 : Nat) : Int), s.drop 6)
        else none
      | _, _ => none

/-- `time.Parse(time.RFC3339, value)`, the layout `2006-01-02T15:04:05Z07:00` read element
by element: four digits of year, two of month (1..12) and of day, an hour of one or two
digits (below 24), two digits of minute and of second (below 60), an optional fraction,
the zone, and nothing behind it; the day must exist in the month. -/
def timeParseRFC3339 (value : GoString) : Option Time :=
  if value.length < 4 then none
  else
    match parseDigitsFrom 0 (value.take 4) with
    | none => none
    | some year =>
      match (skipByte 45 (value.drop 4)).bind fun v => getnum v true with
      | none => none
      | some (month, v2) =>
        if month = 0 ∨ 12 < month then none
        else
          match (skipByte 45 v2).bind fun v => getnum v true with
          | none => none
          | some (day, v4) =>
            match (skipByte 84 v4).bind fun v => getnum v false with
            | none => none
            | some (hour, v6) =>
              if 24 ≤ hour then none
              else
                match (skipByte 58 v6).bind fun v => getnum v true with
                | none => none
                | some (min, v8) =>
                  if 60 ≤ min then none
                  else
                    match (skipByte 58 v8).bind fun v => getnum v true with
                    | none => none
                    | some (sec, v10) =>
                      if 60 ≤ sec then none
                      else
                        let frac := parseFractionLenient v10
                        match parseZoneLenient frac.2 with
                        | none => none
                        | some (zoneOffset, rest) =>
                          if rest ≠ [] then none
                          else if day < 1 ∨ daysIn month year < (day : Int) then none
                          else
                            some ⟨(Time.date year month day hour min sec frac.1).nanos -
                              zoneOffset * nanosPerSec, zoneOffset⟩

/-- `parseStrictRFC3339`, what `Time.UnmarshalJSON` applies to the text between the quotes:
the strict parser, and where that fails `time.Parse(RFC3339, ·)`, whose result is returned
as it is (the checks behind it are unreachable). -/
def parseStrictRFC3339 (s : GoString) : Option Time :=
  match parseRFC3339 s with
  | some t => some t
  | none => timeParseRFC3339 s

/-! ## The cursor codec (store/movies.go) -/

/-- `json.Marshal(c)` for a `Cursor`: the object with the timestamp under `c` and the
identifier under `i`; fails when the timestamp cannot be serialised. -/
def jsonMarshalCursor (c : Cursor) : Except GoError GoString :=
  match formatRFC3339 c.CreatedAt with
  | none => .error "Time.MarshalJSON: year or zone hour outside of range"
  | some ts =>
    .ok ([123, 34, 99, 34, 58, 34] ++ ts ++ [34, 44, 34, 105, 34, 58] ++ jsonQuote c.ID ++ [125])

/-- The struct field a JSON key selects: the exact name, else the name up to ASCII case. -/
def cursorField (key : GoString) : Option Nat :=
  if key = [99] ∨ key = [67] then some 0
  else if key = [105] ∨ key = [73] then some 1
  else none

/-- Storing one object member into the cursor: `c` takes `null` (no change) or a string
with an RFC 3339 time, `i` takes `null` or a string; other keys are skipped. -/
def decodeMember (cur : Cursor) (m : GoString × JShape) : Except GoError Cursor :=
  match jsonUnquote m.1 with
  | none => .error "invalid key"
  | some key =>
    match cursorField key with
    | some 0 =>
      match m.2 with
      | .null => .ok cur
      | .str raw =>
        match parseStrictRFC3339 raw with
        | some t => .ok { cur with CreatedAt := t }
        | none => .error "parsing time"
      | .other => .error "Time.UnmarshalJSON: input is not a JSON string"
    | some _ =>
      match m.2 with
      | .null => .ok cur
      | .str raw =>
        match jsonUnquote raw with
        | some s => .ok { cur with ID := s }
        | none => .error "invalid string"
      | .other => .error "json: cannot unmarshal into Go struct field Cursor.i of type string"
    | none => .ok cur

/-- Storing the members in order, each on top of the previous ones. -/
def decodeMembers : Cursor → List (GoString × JShape) → Except GoError Cursor
  | cur, [] => .ok cur
  | cur, m :: rest =>
    match decodeMember cur m with
    | .ok cur1 => decodeMembers cur1 rest
    | .error e => .error e

/-- `json.Unmarshal(data, &c)` into a zero `Cursor`: a syntax error, a value that is
neither an object nor `null`, or a field of the wrong type is an error; missing fields
keep their zero value. -/
def jsonUnmarshalCursor (data : GoString) : Except GoError Cursor :=
  match parseJSON data with
  | none => .error "invalid character"
  | some .null => .ok ⟨Time.zero, []⟩
  | some (.obj members) => decodeMembers ⟨Time.zero, []⟩ members
  | some _ => .error "json: cannot unmarshal into Go value of type store.Cursor"

/-- `EncodeCursor`. -/
def EncodeCursor (c : Cursor) : Except GoError GoString :=
  match jsonMarshalCursor c with
  | .error e => .error e
  | .ok data => .ok (base64Encode data)

/-- `DecodeCursor`: `nil, nil` for the empty string, otherwise the decoded cursor or an
"invalid cursor" error. -/
def DecodeCursor (s : GoString) : Except GoError (Option Cursor) :=
  if s = [] then .ok none
  else
    match base64Decode s with
    | none => .error "invalid cursor"
    | some data =>
      match jsonUnmarshalCursor data with
      | .error _ => .error "invalid cursor"
      | .ok c => .ok (some c)

/-! ## The store as a collaborator -/

/-- One call of a handler into the persistence layer. -/
inductive StoreCall where
  | createMovie (movie : Movie)
  | getByTitle (title : GoString)
  | setBoxOffice (movieID : GoString) (row : BoxOfficeRow)
  | getBoxOffice (movieID : GoString)
  | listMovies (filters : ListFilters)
deriving DecidableEq, Repr

/-- The `MovieStore` methods the handlers use, acting on a store state `σ`.  A write
returns the error (if any) and the state after it; a read returns rows or an error. -/
structure StoreOps (σ : Type) where
  createMovie : σ → Movie → Option GoError × σ
  getByTitle : σ → GoString → Except GoError (Option Movie)
  setBoxOffice : σ → GoString → BoxOfficeRow → Option GoError × σ
  getBoxOffice : σ → GoString → Except GoError (Option BoxOfficeRow)
  listMovies : σ → ListFilters → Except GoError (List Movie × Option Cursor)

/-- The outcome of `boxoffice.Client.GetByTitle`: an error, no data (`nil, nil`), or a
decoded response. -/
abbrev FetchOutcome := Except GoError (Option Response)

/-! ## `MovieStore.List` (store/movies.go) -/

/-- Bytewise lexicographic `<` on strings (the order of `id > ?` and `ORDER BY id` under a
binary collation). -/
def strLt : GoString → GoString → Bool
  | _, [] => false
  | [], _ :: _ => true
  | a :: as, b :: bs => decide (a < b) || (decide (a = b) && strLt as bs)

/-- The keyset clause `created_at > ? OR (created_at = ? AND id > ?)`. -/
def afterCursor (c : Cursor) (m : Movie) : Bool :=
  decide (m.CreatedAt.nanos > c.CreatedAt.nanos) ||
    (decide (m.CreatedAt.nanos = c.CreatedAt.nanos) && strLt c.ID m.ID)

/-- ASCII lower-casing (SQL `LOWER`). -/
def sqlLower (s : GoString) : GoString :=
  s.map fun b => if 65 ≤ b ∧ b ≤ 90 then b + 32 else b

/-- Whether `f` holds of the text or of one of its suffixes: the choices of what a `%`
of a `LIKE` pattern matches. -/
def anySuffix (f : GoString → Bool) : GoString → Bool
  | [] => f []
  | b :: rest => f (b :: rest) || anySuffix f rest

/-- SQL `pattern LIKE text` on bytes under a binary collation, with MySQL's default escape
character: `%` matches any run of bytes, `_` any one byte, a backslash makes the byte
behind it literal, every other byte matches itself.  The whole text must match. -/
def likeMatch : GoString → GoString → Bool
  | [], text => text.isEmpty
  | p :: pattern, text =>
    if p = 37 then anySuffix (likeMatch pattern) text
    else if p = 95 then
      match text with
      | [] => false
      | _ :: rest => likeMatch pattern rest
    else if p = 92 then
      match pattern with
      | [] => decide (text = [92])
      | e :: pattern1 =>
        match text with
        | [] => false
        | b :: rest => decide (b = e) && likeMatch pattern1 rest
    else
      match text with
      | [] => false
      | b :: rest => decide (b = p) && likeMatch pattern rest

/-- The filter clauses that `List` appends to `WHERE 1=1`, one per filter that is set.
A comparison with a NULL column is not true. -/
def filterClauses (f : ListFilters) (m : Movie) : Bool :=
  (f.Query = [] || likeMatch ([37] ++ f.Query ++ [37]) m.Title) &&
  (match f.Year with
    | none => true
    | some y => decide (m.ReleaseDate.year = y)) &&
  (f.Genre = [] || decide (sqlLower m.Genre = sqlLower f.Genre)) &&
  (f.Distributor = [] ||
    (match m.Distributor with
      | none => false
      | some d => decide (sqlLower d = sqlLower f.Distributor))) &&
  (match f.Budget with
    | none => true
    | some b =>
      match m.Budget with
      | none => false
      | some mb => decide (mb ≤ b)) &&
  (f.MPARating = [] || decide (m.MPARating = some f.MPARating))

/-- The whole `WHERE` condition: the keyset clause when a cursor is given, and the filters. -/
def whereClause (f : ListFilters) (m : Movie) : Bool :=
  (match f.Cursor with
    | none => true
    | some c => afterCursor c m) && filterClauses f m

/-- Row order of `ORDER BY created_at, id`. -/
def rowLe (a b : Movie) : Prop :=
  a.CreatedAt.nanos < b.CreatedAt.nanos ∨
    (a.CreatedAt.nanos = b.CreatedAt.nanos ∧ strLt b.ID a.ID = false)

instance : DecidableRel rowLe := fun a b => by unfold rowLe; exact inferInstance

/-- The `SELECT ... WHERE ... ORDER BY created_at, id LIMIT n` over the rows of the table. -/
def selectMovies (table : List Movie) (f : ListFilters) (n : Int) : List Movie :=
  ((table.filter (whereClause f)).insertionSort rowLe).take n.toNat

/-- The `filters.Limit <= 0` default at the head of `List`. -/
def effectiveLimit (limit : Int) : Int := if limit ≤ 0 then 20 else limit

/-- The tail of `List`: with more than `limit` rows, keep the first `limit` and emit the
cursor of the last kept row. -/
def truncatePage (limit : Int) (movies : List Movie) : List Movie × Option Cursor :=
  if (movies.length : Int) > limit then
    match movies.get? (limit - 1).toNat with
    | some last => (movies.take limit.toNat, some ⟨last.CreatedAt, last.ID⟩)
    | none => (movies.take limit.toNat, none)
  else (movies, none)

/-- The value of an integer expression in Go's `int` on a 64-bit platform: wrapped around
into the range from `-2^63` to `2^63 - 1`. -/
def wrapInt (x : Int) : Int :=
  (x + 9223372036854775808) % 18446744073709551616 - 9223372036854775808

/-- `MovieStore.List` over the rows of the table.  The argument of `LIMIT` is
`filters.Limit+1` as Go computes it; the database rejects a negative `LIMIT`, which `List`
returns as its error. -/
def MovieStore.List (table : List Movie) (filters : ListFilters) :
    Except GoError (List Movie × Option Cursor) :=
  let limit := effectiveLimit filters.Limit
  let n := wrapInt (limit + 1)
  if n < 0 then .error "Error 1210: Incorrect arguments to EXECUTE"
  else .ok (truncatePage limit (selectMovies table filters n))

/-- Following the cursors: call `List` from `cursor`, then again with each returned
cursor, and concatenate the pages.  `none` when a call fails or `fuel` calls were not
enough. -/
def listAllPages (table : List Movie) (filters : ListFilters) :
    Nat → Option Cursor → Option (List Movie)
  | 0, _ => none
  | fuel + 1, cursor =>
    match MovieStore.List table { filters with Cursor := cursor } with
    | .error _ => none
    | .ok (page, none) => some page
    | .ok (page, some next) => (listAllPages table filters fuel (some next)).map (page ++ ·)

/-- The sort key of a row. -/
def rowKey (m : Movie) : Int × GoString := (m.CreatedAt.nanos, m.ID)

/-- Strictly earlier in the order of `ORDER BY created_at, id`. -/
def rowLt (a b : Movie) : Prop :=
  a.CreatedAt.nanos < b.CreatedAt.nanos ∨
    (a.CreatedAt.nanos = b.CreatedAt.nanos ∧ strLt a.ID b.ID = true)

/-- The cursor that `List` emits for a row. -/
def cursorOf (m : Movie) : Cursor := ⟨m.CreatedAt, m.ID⟩

/-- All rows of the table that pass the filters, in the order of the query. -/
def matchingSorted (table : List Movie) (f : ListFilters) : List Movie :=
  (table.filter (filterClauses f)).insertionSort rowLe

/-- A row with the given identifier and creation instant, for examples. -/
def sampleRow (id : GoString) (createdAt : Int) : Movie :=
  { ID := id, Title := id, ReleaseDate := Time.zero, Genre := ascii "Drama",
    Distributor := none, Budget := none, MPARating := none, CreatedAt := ⟨createdAt, 0⟩,
    UpdatedAt := ⟨createdAt, 0⟩, BoxOffice := none }

/-! ## In-memory reading of the SQL statements -/

/-- The database state: the rows of `movies` and of `movie_box_office`, and the value of
`CURRENT_TIMESTAMP(6)`. -/
structure MemStore where
  movies : List Movie
  boxOffice : List BoxOfficeRow
  clock : Time
deriving DecidableEq, Repr

/-- Modelled from the spec: the schema of the `movies` table is not among the source files;
the spec makes the identifier the primary key and the title unique, so the `INSERT` of
`MovieStore.Create` fails on a duplicate of either.  The row gets the database clock as
`created_at` and `updated_at`. -/
def MemStore.createMovie (db : MemStore) (movie : Movie) : Option GoError × MemStore :=
  if db.movies.any (fun m => decide (m.ID = movie.ID) || decide (m.Title = movie.Title)) then
    (some "duplicate entry", db)
  else
    (none, { db with movies := db.movies ++
      [{ movie with CreatedAt := db.clock, UpdatedAt := db.clock, BoxOffice := none }] })

/-- `MovieStore.GetByTitle`: the row `WHERE title = ?`, or `nil, nil` when there is none. -/
def MemStore.getByTitle (db : MemStore) (title : GoString) : Except GoError (Option Movie) :=
  .ok (db.movies.find? (fun m => decide (m.Title = title)))

/-- `MovieStore.SetBoxOffice`: `INSERT ... ON DUPLICATE KEY UPDATE` keyed by `movie_id`; the
`movieID` argument is the key and `fetched_at` is set by the database. -/
def MemStore.setBoxOffice (db : MemStore) (movieID : GoString) (bo : BoxOfficeRow) :
    Option GoError × MemStore :=
  let row : BoxOfficeRow := { bo with MovieID := movieID, FetchedAt := db.clock }
  if db.boxOffice.any (fun r => decide (r.MovieID = movieID)) then
    (none, { db with boxOffice :=
      db.boxOffice.map (fun r => if r.MovieID = movieID then row else r) })
  else
    (none, { db with boxOffice := db.boxOffice ++ [row] })

/-- `MovieStore.GetBoxOffice`: the row `WHERE movie_id = ?`, or `nil, nil`. -/
def MemStore.getBoxOffice (db : MemStore) (movieID : GoString) :
    Except GoError (Option BoxOfficeRow) :=
  .ok (db.boxOffice.find? (fun r => decide (r.MovieID = movieID)))

/-- The `MovieStore` over the in-memory database. -/
def memStore : StoreOps MemStore where
  createMovie := MemStore.createMovie
  getByTitle := MemStore.getByTitle
  setBoxOffice := MemStore.setBoxOffice
  getBoxOffice := MemStore.getBoxOffice
  listMovies := fun db f => MovieStore.List db.movies f

/-! ## Handlers (api/handlers/handlers.go) -/

/-- The body a handler writes. -/
inductive Body where
  | error (code : String) (message : String)
  | movie (m : Movie)
  | movieList (items : List Movie) (nextCursor : Option GoString)
deriving DecidableEq, Repr

/-- What a handler call leaves behind: the status and body written, the store state, and
the store calls made, in order. -/
structure Outcome (σ : Type) where
  status : Nat
  body : Body
  store : σ
  calls : List StoreCall

/-- The handlers' `writeError`, with no store access. -/
def writeError {σ : Type} (code message : String) (status : Nat) (st : σ) : Outcome σ :=
  ⟨status, .error code message, st, []⟩

/-- The precedence merge of `enrichBoxOffice`: a field the movie does not have is taken
from the response when the response's value is non-empty (positive for the budget). -/
def mergeFetched (movie : Movie) (r : Response) : Movie :=
  let m1 := if movie.Distributor = none ∧ r.Distributor ≠ [] then
    { movie with Distributor := some r.Distributor } else movie
  let m2 := if m1.Budget = none ∧ r.Budget > 0 then { m1 with Budget := some r.Budget } else m1
  if m2.MPARating = none ∧ r.MPARating ≠ [] then { m2 with MPARating := some r.MPARating } else m2

/-- The `boRow` that `enrichBoxOffice` builds from the response; `now` is
`time.Now().UTC()`. -/
def boxOfficeRowOf (movie : Movie) (r : Response) (now : Time) : BoxOfficeRow :=
  let boRow : BoxOfficeRow :=
    { MovieID := movie.ID, GrossUSD := r.Worldwide, OpeningWeekendUSA := none,
      Currency := ascii "USD", Source := ascii "ExampleBoxOfficeAPI", LastReported := now,
      FetchedAt := Time.zero }
  if r.OpeningWeekendUSA > 0 then { boRow with OpeningWeekendUSA := some r.OpeningWeekendUSA }
  else boRow

/-- `MovieHandler.enrichBoxOffice`: returns the movie as it stands afterwards, the store
state and the store calls made.  `fetched` is what `GetByTitle(ctx, movie.Title)` returned. -/
def MovieHandler.enrichBoxOffice {σ : Type} (S : StoreOps σ) (fetched : FetchOutcome)
    (now : Time) (movie : Movie) (st : σ) : Movie × σ × List StoreCall :=
  match fetched with
  | .error _ => (movie, st, [])
  | .ok none => (movie, st, [])
  | .ok (some boResp) =>
    let boRow := boxOfficeRowOf movie boResp now
    (mergeFetched movie boResp, (S.setBoxOffice st movie.ID boRow).2,
      [StoreCall.setBoxOffice movie.ID boRow])

/-- The `movie.BoxOffice` value that `Create` and `List` build from a reloaded row. -/
def boxOfficeOfRow (bo : BoxOfficeRow) : BoxOffice :=
  { Worldwide := bo.GrossUSD, OpeningWeekendUSA := bo.OpeningWeekendUSA,
    Currency := bo.Currency, Source := bo.Source, LastUpdated := bo.LastReported }

/-- Attaching the reloaded box-office row, when the reload returned one. -/
def attachBoxOffice (movie : Movie) (bo : Except GoError (Option BoxOfficeRow)) : Movie :=
  match bo with
  | .ok (some row) => { movie with BoxOffice := some (boxOfficeOfRow row) }
  | _ => movie

/-- The `store.Movie` that `Create` builds from a validated request. -/
def newMovie (movieID : GoString) (req : CreateRequest) (releaseDate : Time) : Movie :=
  { ID := movieID, Title := req.Title, ReleaseDate := releaseDate, Genre := req.Genre,
    Distributor := req.Distributor, Budget := req.Budget, MPARating := req.MPARating,
    CreatedAt := Time.zero, UpdatedAt := Time.zero, BoxOffice := none }

/-- `MovieHandler.Create`.  `body` is the decoded request (`none` when the JSON decoder
fails), `movieID` the fresh ULID, `fetch` the box-office client, `now` the clock. -/
def MovieHandler.Create {σ : Type} (S : StoreOps σ) (fetch : GoString → FetchOutcome)
    (now : Time) (movieID : GoString) (body : Option CreateRequest) (st : σ) : Outcome σ :=
  match body with
  | none => writeError "BAD_REQUEST" "Invalid request body" 400 st
  | some req =>
    if req.Title = [] ∨ req.Genre = [] ∨ req.ReleaseDate = [] then
      writeError "BAD_REQUEST" "title, genre, and releaseDate are required" 400 st
    else
      match parseDateOnly req.ReleaseDate with
      | none => writeError "BAD_REQUEST" "releaseDate must be in YYYY-MM-DD format" 400 st
      | some releaseDate =>
        let movie := newMovie movieID req releaseDate
        match S.createMovie st movie with
        | (some _, st1) =>
          ⟨500, .error "INTERNAL_ERROR" "Failed to create movie", st1, [.createMovie movie]⟩
        | (none, st1) =>
          let enriched := MovieHandler.enrichBoxOffice S (fetch movie.Title) now movie st1
          let bo := S.getBoxOffice enriched.2.1 movieID
          ⟨201, .movie (attachBoxOffice enriched.1 bo), enriched.2.1,
            [.createMovie movie] ++ enriched.2.2 ++ [.getBoxOffice movieID]⟩

/-- `strconv.Atoi` and `strconv.ParseInt(s, 10, 64)`: an optional sign and one or more
decimal digits, with a value in the range of a 64-bit integer. -/
def atoi (s : GoString) : Option Int :=
  let neg := s.head? = some 45
  let ds := if s.head? = some 43 ∨ s.head? = some 45 then s.tail else s
  if ds = [] then none
  else
    match parseDigitsFrom 0 ds with
    | none => none
    | some v =>
      let x : Int := if neg then -(v : Int) else (v : Int)
      if -9223372036854775808 ≤ x ∧ x ≤ 9223372036854775807 then some x else none

/-- The query parameters of `GET /movies` as `q.Get` returns them (empty when absent). -/
structure ListQuery where
  q : GoString
  year : GoString
  genre : GoString
  distributor : GoString
  budget : GoString
  mpaRating : GoString
  limit : GoString
  cursor : GoString
deriving DecidableEq, Repr

/-- The per-row reload of box-office data in `MovieHandler.List`. -/
def attachAll {σ : Type} (S : StoreOps σ) (st : σ) (movies : List Movie) : List Movie :=
  movies.map fun m => attachBoxOffice m (S.getBoxOffice st m.ID)

/-- The tail of `MovieHandler.List`, behind the parsing of the parameters: the store
query, the per-row reload and the response. -/
def listWith {σ : Type} (S : StoreOps σ) (filters : ListFilters) (st : σ) : Outcome σ :=
  match S.listMovies st filters with
  | .error _ =>
    ⟨500, .error "INTERNAL_ERROR" "Failed to list movies", st, [.listMovies filters]⟩
  | .ok (movies, nextCursor) =>
    ⟨200,
      .movieList (attachAll S st movies)
        (nextCursor.map fun c =>
          match EncodeCursor c with
          | .ok encoded => encoded
          | .error _ => []),
      st, .listMovies filters :: movies.map fun m => .getBoxOffice m.ID⟩

/-- `MovieHandler.List`: year, budget, limit and cursor are parsed in this order, each
failure answered 400 at once; then the store is queried. -/
def MovieHandler.List {σ : Type} (S : StoreOps σ) (q : ListQuery) (st : σ) : Outcome σ :=
  match (if q.year = [] then some none else (atoi q.year).map some) with
  | none => writeError "BAD_REQUEST" "Invalid year parameter" 400 st
  | some year =>
    match (if q.budget = [] then some none else (atoi q.budget).map some) with
    | none => writeError "BAD_REQUEST" "Invalid budget parameter" 400 st
    | some budget =>
      match (if q.limit = [] then some 20
          else (atoi q.limit).bind fun l => if l < 1 then none else some l) with
      | none => writeError "BAD_REQUEST" "Invalid limit parameter" 400 st
      | some limit =>
        match (if q.cursor = [] then Except.ok none else DecodeCursor q.cursor) with
        | .error _ => writeError "BAD_REQUEST" "Invalid cursor parameter" 400 st
        | .ok cursor =>
          listWith S
            { Query := q.q, Year := year, Genre := q.genre, Distributor := q.distributor,
              Budget := budget, MPARating := q.mpaRating, Limit := limit, Cursor := cursor } st

/-! ## Example data -/

/-- The request of the spec's scenario: "Nova", Drama, 2024-03-01, no distributor. -/
def novaRequest : CreateRequest :=
  { Title := ascii "Nova", Genre := ascii "Drama", ReleaseDate := ascii "2024-03-01",
    Distributor := none, Budget := none, MPARating := none }

/-- The fetch result of the spec's scenario: distributor "Acme", worldwide revenue 1,000,000. -/
def novaResponse : Response :=
  { Title := ascii "Nova", Distributor := ascii "Acme", ReleaseDate := ascii "2024-03-01",
    Budget := 0, Worldwide := 1000000, OpeningWeekendUSA := 0, MPARating := [] }

/-- An empty database. -/
def emptyDB : MemStore := { movies := [], boxOffice := [], clock := ⟨1000, 0⟩ }

/-- The identifier given to the new movie in the examples. -/
def novaID : GoString := ascii "01HZX5J8Q0NOVA"

/-- The `movies` row of the scenario as the `INSERT` of `Create` writes it. -/
def novaStoredRow : Movie :=
  { newMovie novaID novaRequest (Time.date 2024 3 1 0 0 0 0) with
    CreatedAt := emptyDB.clock, UpdatedAt := emptyDB.clock }

/-! ## Ratings (api/handlers/handlers.go, store/movies.go) -/

/-- The `store.Rating` struct; `Value` is its field `Rating`.  A finite `float64` is modelled
by the rational number it denotes; the comparison `==` on such values is equality of those
numbers. -/
structure Rating where
  MovieID : GoString
  RaterID : GoString
  Value : ℚ
  UpdatedAt : Time
deriving DecidableEq, Repr

/-- The `handlers.SubmitRequest` struct. -/
structure SubmitRequest where
  Rating : ℚ
deriving DecidableEq, Repr

/-- The `validRatings` slice of `isValidRating`. -/
def validRatings : List ℚ := [0.5, 1.0, 1.5, 2.0, 2.5, 3.0, 3.5, 4.0, 4.5, 5.0]

/-- The loop of `isValidRating` over the remaining table entries. -/
def ratingIn (r : ℚ) : List ℚ → Bool
  | [] => false
  | v :: rest => if r = v then true else ratingIn r rest

/-- `isValidRating`. -/
def isValidRating (r : ℚ) : Bool := ratingIn r validRatings

/-- One call of the rating handler into the persistence layer. -/
inductive RatingCall where
  | getByTitle (title : GoString)
  | existsRating (movieID raterID : GoString)
  | upsert (rating : Rating)
deriving DecidableEq, Repr

/-- The `RatingStore` methods that `SubmitRating` uses, acting on a store state `σ`. -/
structure RatingStoreOps (σ : Type) where
  existsRating : σ → GoString → GoString → Except GoError Bool
  upsert : σ → Rating → Option GoError × σ

/-- The body the rating handler writes. -/
inductive RatingBody where
  | error (code : String) (message : String)
  | submitted (movieTitle raterId : GoString) (rating : ℚ)
deriving DecidableEq, Repr

/-- What a call of the rating handler leaves behind: the status and body written, the store
state, and the store calls made, in order. -/
structure RatingOutcome (σ : Type) where
  status : Nat
  body : RatingBody
  store : σ
  calls : List RatingCall

/-- `RatingHandler.SubmitRating`.  `title` is the `{title}` path parameter, `raterID` what
`middleware.GetRaterID` returns, `body` the decoded request (`none` when the JSON decoder
fails). -/
def RatingHandler.SubmitRating {σ : Type} (M : StoreOps σ) (R : RatingStoreOps σ)
    (title raterID : GoString) (body : Option SubmitRequest) (st : σ) : RatingOutcome σ :=
  if title = [] then ⟨400, .error "BAD_REQUEST" "Missing title parameter", st, []⟩
  else
    match body with
    | none => ⟨400, .error "BAD_REQUEST" "Invalid request body", st, []⟩
    | some req =>
      if !isValidRating req.Rating then
        ⟨422, .error "BAD_REQUEST" "rating must be in [0.5, 1.0, ..., 5.0]", st, []⟩
      else
        match M.getByTitle st title with
        | .error _ =>
          ⟨500, .error "INTERNAL_ERROR" "Failed to get movie", st, [.getByTitle title]⟩
        | .ok none => ⟨404, .error "NOT_FOUND" "Movie not found", st, [.getByTitle title]⟩
        | .ok (some movie) =>
          match R.existsRating st movie.ID raterID with
          | .error _ =>
            ⟨500, .error "INTERNAL_ERROR" "Failed to check rating", st,
              [.getByTitle title, .existsRating movie.ID raterID]⟩
          | .ok found =>
            let rating : Rating :=
              { MovieID := movie.ID, RaterID := raterID, Value := req.Rating,
                UpdatedAt := Time.zero }
            match R.upsert st rating with
            | (some _, st1) =>
              ⟨500, .error "INTERNAL_ERROR" "Failed to submit rating", st1,
                [.getByTitle title, .existsRating movie.ID raterID, .upsert rating]⟩
            | (none, st1) =>
              ⟨if found then 200 else 201, .submitted title raterID req.Rating, st1,
                [.getByTitle title, .existsRating movie.ID raterID, .upsert rating]⟩

/-- The database with the `movie_ratings` table next to the other tables. -/
structure RatingDB where
  base : MemStore
  ratings : List Rating
deriving DecidableEq, Repr

/-- Whether a row of `movie_ratings` has the given movie and rater. -/
def Rating.hasKey (movieID raterID : GoString) (r : Rating) : Bool :=
  decide (r.MovieID = movieID) && decide (r.RaterID = raterID)

/-- `RatingStore.Exists`: `COUNT(*) > 0` over the rows of the movie and rater. -/
def RatingDB.existsRating (db : RatingDB) (movieID raterID : GoString) : Except GoError Bool :=
  .ok (decide ((db.ratings.filter (Rating.hasKey movieID raterID)).length > 0))

/-- Modelled from the spec: the schema of the `movie_ratings` table is not among the source
files; the spec gives it the composite key (movie identifier, rater identifier), so the
`INSERT ... ON DUPLICATE KEY UPDATE` of `RatingStore.Upsert` overwrites the value and the
update time of the row with that key, and inserts a row when there is none. -/
def RatingDB.upsert (db : RatingDB) (rating : Rating) : Option GoError × RatingDB :=
  if db.ratings.any (Rating.hasKey rating.MovieID rating.RaterID) then
    (none, { db with ratings := db.ratings.map fun r =>
      if Rating.hasKey rating.MovieID rating.RaterID r then
        { r with Value := rating.Value, UpdatedAt := db.base.clock }
      else r })
  else
    (none, { db with ratings := db.ratings ++ [{ rating with UpdatedAt := db.base.clock }] })

/-- The `MovieStore` over the database with ratings. -/
def ratingMovieStore : StoreOps RatingDB where
  createMovie := fun db m =>
    ((db.base.createMovie m).1, { db with base := (db.base.createMovie m).2 })
  getByTitle := fun db title => db.base.getByTitle title
  setBoxOffice := fun db id bo =>
    ((db.base.setBoxOffice id bo).1, { db with base := (db.base.setBoxOffice id bo).2 })
  getBoxOffice := fun db id => db.base.getBoxOffice id
  listMovies := fun db f => MovieStore.List db.base.movies f

/-- The `RatingStore` over the database with ratings. -/
def memRatingStore : RatingStoreOps RatingDB where
  existsRating := RatingDB.existsRating
  upsert := RatingDB.upsert

/-! ## Middleware (api/middleware/auth.go) -/

/-- `strings.Index(s, sep)` for a one-byte separator, as the cut it is used for: the text
before the first occurrence and the text behind it. -/
def cutAt (sep : Nat) : GoString → Option (GoString × GoString)
  | [] => none
  | c :: rest =>
    if c = sep then some ([], rest) else (cutAt sep rest).map fun p => (c :: p.1, p.2)

/-- The loop of `genSplit`: at most `k` cuts, then the remainder. -/
def splitLoop (sep : Nat) : Nat → GoString → List GoString
  | 0, s => [s]
  | k + 1, s =>
    match cutAt sep s with
    | none => [s]
    | some (a, rest) => a :: splitLoop sep k rest

/-- `strings.SplitN(s, sep, n)` for a one-byte separator and `n ≥ 0`. -/
def splitN (s : GoString) (sep : Nat) (n : Nat) : List GoString :=
  if n = 0 then [] else splitLoop sep (min n (s.length + 1) - 1) s

/-- What a middleware does with a request: it answers itself, or it calls the next
handler. -/
inductive Handled where
  | answered (status : Nat) (code : String) (message : String)
  | next
deriving DecidableEq, Repr

/-- `r.Header.Get`: the value of the header, the empty string when it is missing. -/
def headerGet (value : Option GoString) : GoString := value.getD []

/-- `BearerAuth(token)` on a request whose `Authorization` header is `header`. -/
def BearerAuth (token : GoString) (header : Option GoString) : Handled :=
  let auth := headerGet header
  if auth = [] then .answered 401 "UNAUTHORIZED" "Missing Authorization header"
  else
    let parts := splitN auth 32 2
    if parts.length ≠ 2 ∨ parts.get? 0 ≠ some (ascii "Bearer") then
      .answered 401 "UNAUTHORIZED" "Invalid Authorization format"
    else if parts.get? 1 ≠ some token then .answered 401 "UNAUTHORIZED" "Invalid token"
    else .next

/-- A database with the movie "Nova" and one rating by another rater. -/
def novaRatingDB : RatingDB :=
  ⟨{ emptyDB with movies := [novaStoredRow] }, [⟨novaID, ascii "u2", 3, Time.zero⟩]⟩

/-! # Theorems -/

/-! ## Page truncation -/

/-- C3: page truncation in `MovieStore.List`.  For a limit `L ≥ 1` and a query result of
at most `L + 1` rows: with more than `L` rows the page is the first `L` rows and the next
cursor is `(created_at, id)` of the `L`-th row, which is the last row of the page; with at
most `L` rows the result is returned whole and there is no next cursor. -/
theorem truncatePage_spec (L : Int) (movies : List Movie) (hL : 1 ≤ L)
    (hn : (movies.length : Int) ≤ L + 1) :
    ((movies.length : Int) > L →
      ∃ last, movies.get? (L.toNat - 1) = some last ∧
        (movies.take L.toNat).getLast? = some last ∧
        (movies.take L.toNat).length = L.toNat ∧
        truncatePage L movies = (movies.take L.toNat, some ⟨last.CreatedAt, last.ID⟩)) ∧
    ((movies.length : Int) ≤ L → truncatePage L movies = (movies, none)) := by
  constructor
  · intro hgt
    have hlen : L.toNat - 1 < movies.length := by omega
    have hidx : (L - 1).toNat = L.toNat - 1 := by omega
    refine ⟨movies.get ⟨L.toNat - 1, hlen⟩, List.get?_eq_get hlen, ?_, ?_, ?_⟩
    · rw [List.getLast?_eq_getElem?, List.length_take]
      have hmin : min L.toNat movies.length = L.toNat := by omega
      rw [hmin, List.getElem?_take_of_lt (by omega)]
      simp [List.getElem?_eq_getElem hlen]
    · rw [List.length_take]; omega
    · simp only [truncatePage, if_pos hgt, hidx, List.get?_eq_get hlen]
  · intro hle
    have : ¬ (movies.length : Int) > L := by omega
    simp only [truncatePage, if_neg this]

/-- Witness for C3: limit 2 and a query result of three rows; the page is the first two
rows and the cursor is that of the second row. -/
theorem truncatePage_spec_witness :
    truncatePage 2 [sampleRow [65] 1, sampleRow [66] 2, sampleRow [67] 3] =
      ([sampleRow [65] 1, sampleRow [66] 2], some ⟨⟨2, 0⟩, [66]⟩) := by
  obtain ⟨last, h1, -, -, h4⟩ :=
    (truncatePage_spec 2 [sampleRow [65] 1, sampleRow [66] 2, sampleRow [67] 3]
      (by decide) (by decide)).1 (by decide)
  have h2 : last = sampleRow [66] 2 := by
    have : (2 : Int).toNat - 1 = 1 := by decide
    rw [this] at h1
    simpa using h1.symm
  rw [h4, h2]
  rfl

/-! ## Enrichment -/

/-- C4: enrichment precedence.  After `enrichBoxOffice` with a successful fetch, each of
distributor, budget and MPA rating keeps the value the user supplied, whatever was
fetched; a field the user left unset is afterwards unset or equal to the fetched value,
and it is set only when the fetched value is non-empty (non-zero for the budget). -/
theorem enrichBoxOffice_precedence {σ : Type} (S : StoreOps σ) (now : Time) (movie : Movie)
    (boResp : Response) (st : σ) :
    (∀ d, movie.Distributor = some d →
      (MovieHandler.enrichBoxOffice S (.ok (some boResp)) now movie st).1.Distributor = some d) ∧
    (∀ b, movie.Budget = some b →
      (MovieHandler.enrichBoxOffice S (.ok (some boResp)) now movie st).1.Budget = some b) ∧
    (∀ r, movie.MPARating = some r →
      (MovieHandler.enrichBoxOffice S (.ok (some boResp)) now movie st).1.MPARating = some r) ∧
    (movie.Distributor = none →
      ((MovieHandler.enrichBoxOffice S (.ok (some boResp)) now movie st).1.Distributor = none ∨
        (MovieHandler.enrichBoxOffice S (.ok (some boResp)) now movie st).1.Distributor =
          some boResp.Distributor) ∧
      ((MovieHandler.enrichBoxOffice S (.ok (some boResp)) now movie st).1.Distributor ≠ none →
        boResp.Distributor ≠ [])) ∧
    (movie.Budget = none →
      ((MovieHandler.enrichBoxOffice S (.ok (some boResp)) now movie st).1.Budget = none ∨
        (MovieHandler.enrichBoxOffice S (.ok (some boResp)) now movie st).1.Budget =
          some boResp.Budget) ∧
      ((MovieHandler.enrichBoxOffice S (.ok (some boResp)) now movie st).1.Budget ≠ none →
        boResp.Budget ≠ 0)) ∧
    (movie.MPARating = none →
      ((MovieHandler.enrichBoxOffice S (.ok (some boResp)) now movie st).1.MPARating = none ∨
        (MovieHandler.enrichBoxOffice S (.ok (some boResp)) now movie st).1.MPARating =
          some boResp.MPARating) ∧
      ((MovieHandler.enrichBoxOffice S (.ok (some boResp)) now movie st).1.MPARating ≠ none →
        boResp.MPARating ≠ [])) := by
  simp only [MovieHandler.enrichBoxOffice, mergeFetched]
  refine ⟨?_, ?_, ?_, ?_, ?_, ?_⟩
  · intro d hd; split_ifs <;> simp_all
  · intro b hb; split_ifs <;> simp_all
  · intro r hr; split_ifs <;> simp_all
  · intro hd; split_ifs <;> simp_all
  · intro hb; split_ifs <;> simp_all <;> omega
  · intro hr; split_ifs <;> simp_all

/-- With a failed or empty fetch `enrichBoxOffice` returns its arguments untouched. -/
theorem enrichBoxOffice_skipped {σ : Type} (S : StoreOps σ) (now : Time) (movie : Movie)
    (st : σ) (fetched : FetchOutcome) (hf : fetched = .ok none ∨ ∃ e, fetched = .error e) :
    MovieHandler.enrichBoxOffice S fetched now movie st = (movie, st, []) := by
  rcases hf with h | ⟨e, h⟩ <;> subst h <;> rfl

/-- What `Create` does with a request that passes validation. -/
theorem create_valid {σ : Type} (S : StoreOps σ) (fetch : GoString → FetchOutcome) (now : Time)
    (movieID : GoString) (req : CreateRequest) (releaseDate : Time) (st : σ)
    (hreq : req.Title ≠ [] ∧ req.Genre ≠ [] ∧ req.ReleaseDate ≠ [])
    (hdate : parseDateOnly req.ReleaseDate = some releaseDate) :
    MovieHandler.Create S fetch now movieID (some req) st =
      match S.createMovie st (newMovie movieID req releaseDate) with
      | (some _, st1) =>
        ⟨500, .error "INTERNAL_ERROR" "Failed to create movie", st1,
          [.createMovie (newMovie movieID req releaseDate)]⟩
      | (none, st1) =>
        ⟨201, .movie (attachBoxOffice
            (MovieHandler.enrichBoxOffice S (fetch req.Title) now
              (newMovie movieID req releaseDate) st1).1
            (S.getBoxOffice (MovieHandler.enrichBoxOffice S (fetch req.Title) now
              (newMovie movieID req releaseDate) st1).2.1 movieID)),
          (MovieHandler.enrichBoxOffice S (fetch req.Title) now
              (newMovie movieID req releaseDate) st1).2.1,
          [.createMovie (newMovie movieID req releaseDate)] ++
            (MovieHandler.enrichBoxOffice S (fetch req.Title) now
              (newMovie movieID req releaseDate) st1).2.2 ++ [.getBoxOffice movieID]⟩ := by
  have h : ¬ (req.Title = [] ∨ req.Genre = [] ∨ req.ReleaseDate = []) := by
    rintro (h | h | h)
    · exact hreq.1 h
    · exact hreq.2.1 h
    · exact hreq.2.2 h
  simp only [MovieHandler.Create, if_neg h, hdate]
  rfl

/-- C6: creation is independent of the enrichment outcome.  For a request that passes
validation, whatever the store operations and the fetch return, `Create` answers 201
exactly when the initial insert succeeds and 500 exactly when it fails. -/
theorem create_status_iff_insert {σ : Type} (S : StoreOps σ) (fetch : GoString → FetchOutcome)
    (now : Time) (movieID : GoString) (req : CreateRequest) (releaseDate : Time) (st : σ)
    (hreq : req.Title ≠ [] ∧ req.Genre ≠ [] ∧ req.ReleaseDate ≠ [])
    (hdate : parseDateOnly req.ReleaseDate = some releaseDate) :
    ((MovieHandler.Create S fetch now movieID (some req) st).status = 201 ↔
      (S.createMovie st (newMovie movieID req releaseDate)).1 = none) ∧
    ((MovieHandler.Create S fetch now movieID (some req) st).status = 500 ↔
      (S.createMovie st (newMovie movieID req releaseDate)).1 ≠ none) ∧
    ((MovieHandler.Create S fetch now movieID (some req) st).status = 201 ∨
      (MovieHandler.Create S fetch now movieID (some req) st).status = 500) := by
  rw [create_valid S fetch now movieID req releaseDate st hreq hdate]
  rcases h : S.createMovie st (newMovie movieID req releaseDate) with ⟨e, st1⟩
  cases e <;> simp

/-- Witness for C6: the "Nova" request against the empty in-memory store, with a fetch
that fails. -/
theorem create_status_iff_insert_witness :
    (MovieHandler.Create memStore (fun _ => .error "timeout") Time.zero novaID
      (some novaRequest) emptyDB).status = 201 :=
  (create_status_iff_insert memStore (fun _ => .error "timeout") Time.zero novaID novaRequest
    (Time.date 2024 3 1 0 0 0 0) emptyDB (by decide) (by decide)).1.2 (by decide)

/-- C7: a failed or empty fetch leaves everything as the user created it.  When the
fetch returns an error or no data, `enrichBoxOffice` returns the movie unchanged, leaves
the store state as it was and makes no store call; and then, for a valid request whose
insert succeeded and for whose identifier the store holds no box-office row, `Create`
answers 201 with the movie exactly as built from the request, without a `boxOffice`. -/
theorem enrich_skipped_unchanged {σ : Type} (S : StoreOps σ) (fetch : GoString → FetchOutcome)
    (now : Time) (movieID : GoString) (req : CreateRequest) (releaseDate : Time) (st st1 : σ)
    (movie : Movie) (fetched : FetchOutcome)
    (hf : fetched = .ok none ∨ ∃ e, fetched = .error e) :
    MovieHandler.enrichBoxOffice S fetched now movie st = (movie, st, []) ∧
    (req.Title ≠ [] ∧ req.Genre ≠ [] ∧ req.ReleaseDate ≠ [] →
      parseDateOnly req.ReleaseDate = some releaseDate →
      fetch req.Title = fetched →
      S.createMovie st (newMovie movieID req releaseDate) = (none, st1) →
      S.getBoxOffice st1 movieID = .ok none →
      (MovieHandler.Create S fetch now movieID (some req) st).status = 201 ∧
      (MovieHandler.Create S fetch now movieID (some req) st).body =
        .movie (newMovie movieID req releaseDate) ∧
      (newMovie movieID req releaseDate).BoxOffice = none ∧
      (MovieHandler.Create S fetch now movieID (some req) st).store = st1 ∧
      (MovieHandler.Create S fetch now movieID (some req) st).calls =
        [.createMovie (newMovie movieID req releaseDate), .getBoxOffice movieID]) := by
  refine ⟨enrichBoxOffice_skipped S now movie st fetched hf, ?_⟩
  intro hreq hdate hfetch hins hbo
  rw [create_valid S fetch now movieID req releaseDate st hreq hdate, hins, hfetch]
  simp [enrichBoxOffice_skipped S now _ st1 fetched hf, hbo, attachBoxOffice, newMovie]

/-- Witness for C7: the "Nova" request against the empty store, the fetch timing out. -/
theorem enrich_skipped_unchanged_witness :
    (MovieHandler.Create memStore (fun _ => .error "timeout") Time.zero novaID
      (some novaRequest) emptyDB).body =
        .movie (newMovie novaID novaRequest (Time.date 2024 3 1 0 0 0 0)) :=
  ((enrich_skipped_unchanged memStore (fun _ => .error "timeout") Time.zero novaID novaRequest
    (Time.date 2024 3 1 0 0 0 0) emptyDB
    (memStore.createMovie emptyDB (newMovie novaID novaRequest (Time.date 2024 3 1 0 0 0 0))).2
    (newMovie novaID novaRequest (Time.date 2024 3 1 0 0 0 0)) (.error "timeout")
    (Or.inr ⟨"timeout", rfl⟩)).2 (by decide) (by decide) rfl (by decide) rfl).2.1

/-! ## The stored result of an enriched create -/

/-- A row appended to a table without a row of that title is the one found by title. -/
theorem find_title_append (rows : List Movie) (row : Movie)
    (h : ∀ m ∈ rows, m.Title ≠ row.Title) :
    (rows ++ [row]).find? (fun m => decide (m.Title = row.Title)) = some row := by
  induction rows with
  | nil => simp
  | cons a rest ih =>
    have ha : a.Title ≠ row.Title := h a (List.mem_cons_self _ _)
    simp only [List.cons_append, List.find?_cons, ha, decide_False]
    exact ih (fun m hm => h m (List.mem_cons_of_mem _ hm))

/-- Replacing the rows of a key puts the new row first among those found for the key. -/
theorem find_boxOffice_map (rows : List BoxOfficeRow) (movieID : GoString) (row : BoxOfficeRow)
    (hrow : row.MovieID = movieID)
    (hany : rows.any (fun r => decide (r.MovieID = movieID)) = true) :
    (rows.map (fun r => if r.MovieID = movieID then row else r)).find?
      (fun r => decide (r.MovieID = movieID)) = some row := by
  induction rows with
  | nil => simp at hany
  | cons a rest ih =>
    by_cases ha : a.MovieID = movieID
    · simp [List.find?_cons, ha, hrow]
    · have hrest : rest.any (fun r => decide (r.MovieID = movieID)) = true := by
        simpa [List.any_cons, ha] using hany
      simp only [List.map_cons, ha, if_false, List.find?_cons, decide_False]
      exact ih hrest

/-- A row appended to a table without a row of that key is the one found for the key. -/
theorem find_boxOffice_append (rows : List BoxOfficeRow) (movieID : GoString)
    (row : BoxOfficeRow) (hrow : row.MovieID = movieID)
    (hnone : rows.any (fun r => decide (r.MovieID = movieID)) ≠ true) :
    (rows ++ [row]).find? (fun r => decide (r.MovieID = movieID)) = some row := by
  induction rows with
  | nil => simp [hrow]
  | cons a rest ih =>
    have ha : a.MovieID ≠ movieID := by
      intro heq; exact hnone (by simp [List.any_cons, heq])
    have hrest : rest.any (fun r => decide (r.MovieID = movieID)) ≠ true := by
      intro h; exact hnone (by simp [List.any_cons, h])
    simp only [List.cons_append, List.find?_cons, ha, decide_False]
    exact ih hrest

/-- After `SetBoxOffice` the row found for the key carries the values just written. -/
theorem getBoxOffice_setBoxOffice (db : MemStore) (movieID : GoString) (bo : BoxOfficeRow) :
    MemStore.getBoxOffice (MemStore.setBoxOffice db movieID bo).2 movieID =
      .ok (some { bo with MovieID := movieID, FetchedAt := db.clock }) := by
  unfold MemStore.getBoxOffice MemStore.setBoxOffice
  by_cases hany : db.boxOffice.any (fun r => decide (r.MovieID = movieID)) = true
  · rw [if_pos hany]
    exact congrArg Except.ok (find_boxOffice_map db.boxOffice movieID
      { bo with MovieID := movieID, FetchedAt := db.clock } rfl hany)
  · rw [if_neg hany]
    exact congrArg Except.ok (find_boxOffice_append db.boxOffice movieID
      { bo with MovieID := movieID, FetchedAt := db.clock } rfl hany)

/-- Counterexample to C5 as stated: in the spec's scenario ("Nova", fetched distributor
"Acme", worldwide revenue 1,000,000, empty store) `Create` answers 201 and a box-office row
with gross 1,000,000 is stored, but the movie row that `GetByTitle` returns is the row as
inserted, whose distributor is unset: the merged fields are never written back. -/
theorem create_enriched_counterexample :
    (MovieHandler.Create memStore (fun _ => .ok (some novaResponse)) Time.zero novaID
      (some novaRequest) emptyDB).status = 201 ∧
    memStore.getByTitle
      (MovieHandler.Create memStore (fun _ => .ok (some novaResponse)) Time.zero novaID
        (some novaRequest) emptyDB).store (ascii "Nova") = .ok (some novaStoredRow) ∧
    novaStoredRow.Distributor = none ∧ novaStoredRow.Distributor ≠ some (ascii "Acme") :=
  ⟨by decide, rfl, rfl, by decide⟩

/-- The insert succeeds on a table that has no row with the new identifier or title. -/
theorem createMovie_fresh (db : MemStore) (movie : Movie)
    (hfresh : ∀ m ∈ db.movies, m.ID ≠ movie.ID ∧ m.Title ≠ movie.Title) :
    MemStore.createMovie db movie =
      (none, { db with movies := db.movies ++
        [{ movie with CreatedAt := db.clock, UpdatedAt := db.clock, BoxOffice := none }] }) := by
  unfold MemStore.createMovie
  have hany : ¬ db.movies.any
      (fun m => decide (m.ID = movie.ID) || decide (m.Title = movie.Title)) = true := by
    intro h
    obtain ⟨m, hm, hp⟩ := List.any_eq_true.mp h
    have := hfresh m hm
    simp [this.1, this.2] at hp
  rw [if_neg hany]

/-- C5 as amended: for a valid create request without a distributor, on an in-memory store
that has no movie with the new identifier or title, when the fetch succeeds with a
non-empty distributor `D` and worldwide revenue `W`: `Create` answers 201, the movie in the
response has distributor `D`, the movie row held in the store (what `GetByTitle` returns
for the title) is the row as inserted, with the distributor unset, and the store holds a
box-office row for the movie with gross `W`. -/
theorem create_enriched_stored (db : MemStore) (fetch : GoString → FetchOutcome) (now : Time)
    (movieID : GoString) (req : CreateRequest) (releaseDate : Time) (boResp : Response)
    (hreq : req.Title ≠ [] ∧ req.Genre ≠ [] ∧ req.ReleaseDate ≠ [])
    (hdate : parseDateOnly req.ReleaseDate = some releaseDate)
    (hnone : req.Distributor = none)
    (hfetch : fetch req.Title = .ok (some boResp)) (hD : boResp.Distributor ≠ [])
    (hfresh : ∀ m ∈ db.movies, m.ID ≠ movieID ∧ m.Title ≠ req.Title) :
    (MovieHandler.Create memStore fetch now movieID (some req) db).status = 201 ∧
    (∃ m, (MovieHandler.Create memStore fetch now movieID (some req) db).body = .movie m ∧
      m.Distributor = some boResp.Distributor) ∧
    (∃ row, memStore.getByTitle
        (MovieHandler.Create memStore fetch now movieID (some req) db).store req.Title =
          .ok (some row) ∧
      row.ID = movieID ∧ row.Distributor = none) ∧
    (∃ bo, memStore.getBoxOffice
        (MovieHandler.Create memStore fetch now movieID (some req) db).store movieID =
          .ok (some bo) ∧
      bo.MovieID = movieID ∧ bo.GrossUSD = boResp.Worldwide) := by
  have hins := createMovie_fresh db (newMovie movieID req releaseDate) hfresh
  rw [create_valid memStore fetch now movieID req releaseDate db hreq hdate]
  have hins' : memStore.createMovie db (newMovie movieID req releaseDate) = _ := hins
  rw [hins', hfetch]
  simp only [MovieHandler.enrichBoxOffice]
  refine ⟨trivial, ⟨_, rfl, ?_⟩, ?_, ?_⟩
  · have hm : (mergeFetched (newMovie movieID req releaseDate) boResp).Distributor =
        some boResp.Distributor := by
      simp only [mergeFetched, newMovie, hnone]
      split_ifs <;> simp_all
    cases hbo : memStore.getBoxOffice (memStore.setBoxOffice
        { db with movies := db.movies ++ [{ newMovie movieID req releaseDate with
              CreatedAt := db.clock, UpdatedAt := db.clock, BoxOffice := none }] }
        (newMovie movieID req releaseDate).ID
        (boxOfficeRowOf (newMovie movieID req releaseDate) boResp now)).2 movieID with
    | error e => simpa [attachBoxOffice] using hm
    | ok o => cases o <;> simpa [attachBoxOffice] using hm
  · refine ⟨{ newMovie movieID req releaseDate with
        CreatedAt := db.clock, UpdatedAt := db.clock, BoxOffice := none }, ?_, rfl, hnone⟩
    have hset : (memStore.setBoxOffice
        { db with movies := db.movies ++ [{ newMovie movieID req releaseDate with
              CreatedAt := db.clock, UpdatedAt := db.clock, BoxOffice := none }] }
        (newMovie movieID req releaseDate).ID
        (boxOfficeRowOf (newMovie movieID req releaseDate) boResp now)).2.movies =
        db.movies ++ [{ newMovie movieID req releaseDate with
              CreatedAt := db.clock, UpdatedAt := db.clock, BoxOffice := none }] := by
      simp only [memStore, MemStore.setBoxOffice]
      split_ifs <;> rfl
    show Except.ok (List.find? _ _) = _
    rw [hset]
    exact congrArg Except.ok (find_title_append db.movies
      { newMovie movieID req releaseDate with
        CreatedAt := db.clock, UpdatedAt := db.clock, BoxOffice := none }
      (fun m hm => (hfresh m hm).2))
  · refine ⟨_, getBoxOffice_setBoxOffice _ movieID _, rfl, ?_⟩
    simp only [boxOfficeRowOf]
    split_ifs <;> rfl

/-- Witness for the amended C5: the spec's scenario, "Nova" with fetched distributor "Acme"
and worldwide revenue 1,000,000, on the empty store. -/
theorem create_enriched_stored_witness :
    (∃ m, (MovieHandler.Create memStore (fun _ => .ok (some novaResponse)) Time.zero novaID
        (some novaRequest) emptyDB).body = .movie m ∧ m.Distributor = some (ascii "Acme")) ∧
    (∃ bo, memStore.getBoxOffice
        (MovieHandler.Create memStore (fun _ => .ok (some novaResponse)) Time.zero novaID
          (some novaRequest) emptyDB).store novaID = .ok (some bo) ∧
      bo.MovieID = novaID ∧ bo.GrossUSD = 1000000) :=
  have h := create_enriched_stored emptyDB (fun _ => .ok (some novaResponse)) Time.zero novaID
    novaRequest (Time.date 2024 3 1 0 0 0 0) novaResponse (by decide) (by decide) rfl rfl
    (by decide) (by intro m hm; cases hm)
  ⟨h.2.1, h.2.2.2⟩

/-! ## Keyset pagination -/

theorem strLt_irrefl (a : GoString) : strLt a a = false := by
  induction a with
  | nil => rfl
  | cons x xs ih => simp [strLt, ih]

theorem strLt_trans : ∀ (a b c : GoString), strLt a b = true → strLt b c = true →
    strLt a c = true
  | a, [], _, h, _ => by cases a <;> simp [strLt] at h
  | _, _ :: _, [], _, h => by simp [strLt] at h
  | [], _ :: _, _ :: _, _, _ => by simp [strLt]
  | x :: xs, y :: ys, z :: zs, h1, h2 => by
    simp only [strLt, Bool.or_eq_true, Bool.and_eq_true, decide_eq_true_eq] at h1 h2 ⊢
    rcases h1 with h1 | ⟨h1, h1'⟩ <;> rcases h2 with h2 | ⟨h2, h2'⟩
    · left; omega
    · left; omega
    · left; omega
    · right; exact ⟨by omega, strLt_trans xs ys zs h1' h2'⟩

theorem strLt_connex : ∀ (a b : GoString), strLt a b = false → strLt b a = false → a = b
  | [], [], _, _ => rfl
  | [], _ :: _, h, _ => by simp [strLt] at h
  | _ :: _, [], _, h => by simp [strLt] at h
  | x :: xs, y :: ys, h1, h2 => by
    simp only [strLt, Bool.or_eq_false_iff, Bool.and_eq_false_iff, decide_eq_false_iff_not] at h1 h2
    have hxy : x = y := by omega
    subst hxy
    have h1' : strLt xs ys = false := by rcases h1.2 with h | h; exact absurd rfl h; exact h
    have h2' : strLt ys xs = false := by rcases h2.2 with h | h; exact absurd rfl h; exact h
    rw [strLt_connex xs ys h1' h2']

theorem strLt_asymm (a b : GoString) (h : strLt a b = true) : strLt b a = false := by
  by_contra hc
  have hba : strLt b a = true := by simpa using hc
  have := strLt_trans a b a h hba
  rw [strLt_irrefl] at this
  exact Bool.false_ne_true this

theorem afterCursor_iff (x m : Movie) : afterCursor (cursorOf x) m = true ↔ rowLt x m := by
  simp only [afterCursor, cursorOf, rowLt, Bool.or_eq_true, Bool.and_eq_true, decide_eq_true_eq]
  constructor
  · rintro (h | ⟨h, h'⟩)
    · left; omega
    · right; exact ⟨h.symm, h'⟩
  · rintro (h | ⟨h, h'⟩)
    · left; omega
    · right; exact ⟨h.symm, h'⟩

theorem rowLt_irrefl (a : Movie) : ¬ rowLt a a := by
  simp [rowLt, strLt_irrefl]

theorem rowLt_trans {a b c : Movie} (h1 : rowLt a b) (h2 : rowLt b c) : rowLt a c := by
  unfold rowLt at *
  rcases h1 with h1 | ⟨h1, h1'⟩ <;> rcases h2 with h2 | ⟨h2, h2'⟩
  · left; omega
  · left; omega
  · left; omega
  · right; exact ⟨by omega, strLt_trans _ _ _ h1' h2'⟩

theorem rowLt_asymm {a b : Movie} (h1 : rowLt a b) : ¬ rowLt b a :=
  fun h2 => rowLt_irrefl a (rowLt_trans h1 h2)

theorem rowLe_iff_not_lt (a b : Movie) : rowLe a b ↔ ¬ rowLt b a := by
  unfold rowLe rowLt
  constructor
  · rintro (h | ⟨h, h'⟩) (g | ⟨g, g'⟩)
    · omega
    · omega
    · omega
    · rw [h'] at g'; exact Bool.false_ne_true g'
  · intro h
    simp only [not_or, not_and, not_lt] at h
    rcases lt_or_eq_of_le h.1 with hlt | heq
    · left; exact hlt
    · right; refine ⟨heq, ?_⟩
      have := h.2 heq.symm
      simpa using this

theorem rowLt_of_le_of_key_ne {a b : Movie} (h : rowLe a b) (hk : rowKey a ≠ rowKey b) :
    rowLt a b := by
  unfold rowLe at h
  unfold rowLt
  rcases h with h | ⟨h, h'⟩
  · left; exact h
  · right; refine ⟨h, ?_⟩
    by_contra hc
    have hc' : strLt a.ID b.ID = false := by simpa using hc
    exact hk (by simp [rowKey, h, strLt_connex _ _ hc' h'])

instance : IsTotal Movie rowLe where
  total a b := by
    rw [rowLe_iff_not_lt, rowLe_iff_not_lt]
    by_contra h
    simp only [not_or, not_not] at h
    exact rowLt_asymm h.1 h.2

instance : IsTrans Movie rowLe where
  trans a b c h1 h2 := by
    rw [rowLe_iff_not_lt] at *
    intro h
    -- c < a, a ≤ b, b ≤ c
    unfold rowLt at *
    simp only [not_or, not_and, not_lt] at h1 h2
    rcases h with h | ⟨h, h'⟩
    · omega
    · have e1 : a.CreatedAt.nanos = b.CreatedAt.nanos := by omega
      have e2 : b.CreatedAt.nanos = c.CreatedAt.nanos := by omega
      have g1 := h1.2 e1.symm
      have g2 := h2.2 e2.symm
      -- strLt c a, ¬ strLt b a, ¬ strLt c b
      have g1' : strLt b.ID a.ID = false := by simpa using g1
      have g2' : strLt c.ID b.ID = false := by simpa using g2
      by_cases hab : strLt a.ID b.ID = true
      · have := strLt_trans _ _ _ h' hab
        rw [g2'] at this; exact Bool.false_ne_true this
      · have hab' : strLt a.ID b.ID = false := by simpa using hab
        have := strLt_connex _ _ hab' g1'
        rw [this] at h'
        rw [g2'] at h'; exact Bool.false_ne_true h'

instance : IsAntisymm Movie rowLt where
  antisymm _ _ h1 h2 := absurd h2 (rowLt_asymm h1)

/-- Sorting rows with pairwise distinct keys gives a strictly increasing list. -/
theorem sorted_strict (l : List Movie) (hk : (l.map rowKey).Nodup) :
    (l.insertionSort rowLe).Pairwise rowLt := by
  have hs : (l.insertionSort rowLe).Pairwise rowLe := List.sorted_insertionSort rowLe l
  have hp : ((l.insertionSort rowLe).map rowKey).Nodup :=
    ((List.perm_insertionSort rowLe l).map rowKey).nodup_iff.mpr hk
  have hp' : (l.insertionSort rowLe).Pairwise (fun a b => rowKey a ≠ rowKey b) :=
    List.pairwise_map.mp hp
  exact (hs.and hp').imp (fun h => rowLt_of_le_of_key_ne h.1 h.2)

theorem filter_keys_nodup (l : List Movie) (p : Movie → Bool) (hk : (l.map rowKey).Nodup) :
    ((l.filter p).map rowKey).Nodup :=
  hk.sublist ((List.filter_sublist l).map rowKey)

/-- Sorting commutes with a further filter when the keys are pairwise distinct. -/
theorem sort_filter_comm (l : List Movie) (p g : Movie → Bool) (hk : (l.map rowKey).Nodup) :
    (l.filter (fun m => g m && p m)).insertionSort rowLe =
      ((l.filter p).insertionSort rowLe).filter g := by
  apply List.eq_of_perm_of_sorted (r := rowLt)
  · have h1 : (l.filter (fun m => g m && p m)) = (l.filter p).filter g := by
      rw [List.filter_filter]
    rw [h1]
    exact (List.perm_insertionSort rowLe _).trans
      ((List.perm_insertionSort rowLe _).symm.filter g)
  · exact sorted_strict _ (filter_keys_nodup l _ hk)
  · exact (sorted_strict _ (filter_keys_nodup l _ hk)).sublist (List.filter_sublist _)

/-- In a strictly increasing list, the rows after the cursor of the `i`-th row are the rows
behind it. -/
theorem filter_after_eq_drop : ∀ (R : List Movie) (i : Nat) (x : Movie),
    R.Pairwise rowLt → R.get? i = some x →
    R.filter (afterCursor (cursorOf x)) = R.drop (i + 1)
  | [], i, x, _, h => by simp at h
  | a :: rest, 0, x, hp, h => by
    have hx : a = x := by simpa using h
    subst hx
    rw [List.pairwise_cons] at hp
    have h1 : afterCursor (cursorOf a) a = false := by
      have := (afterCursor_iff a a).not.mpr (rowLt_irrefl a)
      simpa using this
    rw [List.filter_cons, h1]
    simp only [Bool.false_eq_true, if_false, List.drop_succ_cons, List.drop_zero]
    exact List.filter_eq_self.mpr (fun b hb => (afterCursor_iff a b).mpr (hp.1 b hb))
  | a :: rest, i + 1, x, hp, h => by
    rw [List.pairwise_cons] at hp
    have hx : rest.get? i = some x := by simpa using h
    have hmem : x ∈ rest := List.get?_mem hx
    have h1 : afterCursor (cursorOf x) a = false := by
      have := (afterCursor_iff x a).not.mpr (rowLt_asymm (hp.1 x hmem))
      simpa using this
    rw [List.filter_cons, h1]
    simp only [Bool.false_eq_true, if_false, List.drop_succ_cons]
    exact filter_after_eq_drop rest i x hp.2 hx

/-- A cursor is the cursor of some row. -/
theorem cursor_eq_cursorOf (c : Cursor) :
    c = cursorOf { sampleRow c.ID 0 with CreatedAt := c.CreatedAt } := rfl

theorem afterCursor_trans (c : Cursor) (x m : Movie) (h1 : afterCursor c x = true)
    (h2 : rowLt x m) : afterCursor c m = true := by
  rw [cursor_eq_cursorOf c] at h1 ⊢
  exact (afterCursor_iff _ _).mpr (rowLt_trans ((afterCursor_iff _ _).mp h1) h2)

/-- The rows the query of `List` selects, before `LIMIT`: the matching rows behind the
cursor, in order. -/
theorem sorted_query_eq (table : List Movie) (f : ListFilters) (cur : Option Cursor)
    (hk : (table.map rowKey).Nodup) :
    (table.filter (whereClause { f with Cursor := cur })).insertionSort rowLe =
      match cur with
      | none => matchingSorted table f
      | some c => (matchingSorted table f).filter (afterCursor c) := by
  cases cur with
  | none =>
    simp only [matchingSorted]
    congr 1
  | some c =>
    simp only [matchingSorted]
    exact sort_filter_comm table (filterClauses f) (afterCursor c) hk

theorem truncatePage_short (L : Int) (movies : List Movie) (h : (movies.length : Int) ≤ L) :
    truncatePage L movies = (movies, none) := by
  have : ¬ (movies.length : Int) > L := by omega
  simp only [truncatePage, if_neg this]

theorem truncatePage_long (L : Int) (movies : List Movie) (x : Movie) (hL : 1 ≤ L)
    (h : (movies.length : Int) > L) (hx : movies.get? (L.toNat - 1) = some x) :
    truncatePage L movies = (movies.take L.toNat, some (cursorOf x)) := by
  have hidx : (L - 1).toNat = L.toNat - 1 := by omega
  simp only [truncatePage, if_pos h, hidx, hx, cursorOf]

/-- Values within the 64-bit range are not changed by the wrap-around. -/
theorem wrapInt_of_range (x : Int) (h1 : -9223372036854775808 ≤ x)
    (h2 : x ≤ 9223372036854775807) : wrapInt x = x := by
  unfold wrapInt
  omega

/-- The limit that `List` works with is at least 1. -/
theorem effectiveLimit_pos (limit : Int) : 1 ≤ effectiveLimit limit := by
  unfold effectiveLimit
  split_ifs <;> omega

/-- `List` with a limit below the largest `int`: the query and the truncation. -/
theorem list_eq (table : List Movie) (f : ListFilters)
    (h : effectiveLimit f.Limit < 9223372036854775807) :
    MovieStore.List table f =
      .ok (truncatePage (effectiveLimit f.Limit)
        (selectMovies table f (effectiveLimit f.Limit + 1))) := by
  have hpos := effectiveLimit_pos f.Limit
  unfold MovieStore.List
  simp only [wrapInt_of_range (effectiveLimit f.Limit + 1) (by omega) (by omega)]
  rw [if_neg (by omega)]

/-- `List` with the largest `int` as limit: `Limit+1` wraps to a negative number and the
query fails. -/
theorem list_overflow (table : List Movie) (f : ListFilters)
    (h : f.Limit = 9223372036854775807) :
    MovieStore.List table f = .error "Error 1210: Incorrect arguments to EXECUTE" := by
  unfold MovieStore.List
  rw [h]
  rfl

/-- One call of `List` on the rows `R` that the query selects before `LIMIT`. -/
theorem list_call (table : List Movie) (f : ListFilters) (cur : Option Cursor) (R : List Movie)
    (hR : (table.filter (whereClause { f with Cursor := cur })).insertionSort rowLe = R)
    (hL : 1 ≤ f.Limit) (hmax : f.Limit < 9223372036854775807) :
    (R.length ≤ f.Limit.toNat →
      MovieStore.List table { f with Cursor := cur } = .ok (R, none)) ∧
    (∀ x, f.Limit.toNat < R.length → R.get? (f.Limit.toNat - 1) = some x →
      MovieStore.List table { f with Cursor := cur } =
        .ok (R.take f.Limit.toNat, some (cursorOf x))) := by
  have heff : effectiveLimit f.Limit = f.Limit := by
    unfold effectiveLimit; rw [if_neg (by omega)]
  have hsel : selectMovies table { f with Cursor := cur } (f.Limit + 1) =
      R.take (f.Limit.toNat + 1) := by
    unfold selectMovies
    rw [hR]
    congr 1
    omega
  have hlist : MovieStore.List table { f with Cursor := cur } =
      .ok (truncatePage f.Limit (R.take (f.Limit.toNat + 1))) := by
    rw [list_eq table { f with Cursor := cur } (by show effectiveLimit f.Limit < _; omega)]
    show Except.ok (truncatePage (effectiveLimit f.Limit)
      (selectMovies table _ (effectiveLimit f.Limit + 1))) = _
    rw [heff, hsel]
  rw [hlist]
  constructor
  · intro hlen
    rw [List.take_of_length_le (by omega)]
    exact congrArg Except.ok (truncatePage_short _ _ (by omega))
  · intro x hlen hx
    have hlen' : ((R.take (f.Limit.toNat + 1)).length : Int) > f.Limit := by
      rw [List.length_take]; omega
    have hx' : (R.take (f.Limit.toNat + 1)).get? (f.Limit.toNat - 1) = some x := by
      rw [List.get?_eq_getElem?, List.getElem?_take_of_lt (by omega), ← List.get?_eq_getElem?]
      exact hx
    rw [truncatePage_long _ _ x hL hlen' hx', List.take_take]
    congr 3
    omega

/-- Following the cursors from `cur` yields exactly the matching rows behind `cur`. -/
theorem listAllPages_from (table : List Movie) (f : ListFilters) (hL : 1 ≤ f.Limit)
    (hmax : f.Limit < 9223372036854775807) (hk : (table.map rowKey).Nodup) :
    ∀ (fuel : Nat) (cur : Option Cursor) (R : List Movie),
      (match cur with
        | none => matchingSorted table f
        | some c => (matchingSorted table f).filter (afterCursor c)) = R →
      R.length < fuel → listAllPages table f fuel cur = some R
  | 0, _, _, _, h => by omega
  | fuel + 1, cur, R, hR, hfuel => by
    have hq := sorted_query_eq table f cur hk
    rw [hR] at hq
    have hcall := list_call table f cur R hq hL hmax
    have hstrictS : (matchingSorted table f).Pairwise rowLt :=
      sorted_strict _ (filter_keys_nodup table _ hk)
    have hstrictR : R.Pairwise rowLt := by
      rw [← hR]
      cases cur with
      | none => exact hstrictS
      | some c => exact hstrictS.sublist (List.filter_sublist _)
    unfold listAllPages
    by_cases hlen : R.length ≤ f.Limit.toNat
    · rw [hcall.1 hlen]
    · have hlt : f.Limit.toNat - 1 < R.length := by omega
      obtain ⟨x, hx⟩ : ∃ x, R.get? (f.Limit.toNat - 1) = some x :=
        ⟨_, List.get?_eq_get hlt⟩
      have hxmem : x ∈ R := List.get?_mem hx
      rw [hcall.2 _ (by omega) hx]
      simp only
      have hdrop : R.filter (afterCursor (cursorOf x)) = R.drop f.Limit.toNat := by
        rw [filter_after_eq_drop R _ _ hstrictR hx]
        congr 1
        omega
      have hnext : (matchingSorted table f).filter (afterCursor (cursorOf x)) =
          R.drop f.Limit.toNat := by
        rw [← hdrop]
        subst hR
        cases cur with
        | none => rfl
        | some c =>
          simp only at hxmem ⊢
          rw [List.filter_filter]
          apply List.filter_congr
          intro m _
          have hcx : afterCursor c x = true := (List.mem_filter.mp hxmem).2
          by_cases ha : afterCursor (cursorOf x) m = true
          · rw [ha, afterCursor_trans c _ m hcx ((afterCursor_iff _ _).mp ha)]
            rfl
          · have ha' : afterCursor (cursorOf x) m = false := by simpa using ha
            rw [ha']
            rfl
      have hlen' : (R.drop f.Limit.toNat).length < fuel := by
        rw [List.length_drop]; omega
      rw [listAllPages_from table f hL hmax hk fuel (some (cursorOf x))
        (R.drop f.Limit.toNat) hnext hlen']
      simp only [Option.map_some', List.take_append_drop]

/-- A single call of `List` without a cursor and with a limit that covers all matching
rows returns them all, in order, and no cursor. -/
theorem list_single_call (table : List Movie) (f : ListFilters) (N : Int)
    (hk : (table.map rowKey).Nodup)
    (hN : ((table.filter (filterClauses f)).length : Int) ≤ N)
    (hmax : N < 9223372036854775807) :
    MovieStore.List table { f with Limit := N, Cursor := none } =
      .ok (matchingSorted table f, none) := by
  have hq := sorted_query_eq table { f with Limit := N } none hk
  have hms : matchingSorted table { f with Limit := N } = matchingSorted table f := rfl
  simp only [hms] at hq
  have hlen : (matchingSorted table f).length = (table.filter (filterClauses f)).length :=
    List.length_insertionSort _ _
  by_cases hpos : 1 ≤ N
  · exact (list_call table { f with Limit := N } none _ hq hpos hmax).1 (by
      show (matchingSorted table f).length ≤ N.toNat
      omega)
  · have hnil : matchingSorted table f = [] := by
      apply List.eq_nil_of_length_eq_zero
      omega
    have heff : effectiveLimit N = 20 := by
      unfold effectiveLimit; rw [if_pos (by omega)]
    rw [list_eq table { f with Limit := N, Cursor := none }
      (by show effectiveLimit N < _; omega)]
    show Except.ok (truncatePage (effectiveLimit N)
      (selectMovies table _ (effectiveLimit N + 1))) = _
    have hsel : selectMovies table { f with Limit := N, Cursor := none } (effectiveLimit N + 1)
        = [] := by
      unfold selectMovies
      rw [show (table.filter (whereClause { f with Limit := N, Cursor := none })).insertionSort
        rowLe = matchingSorted table f from hq, hnil]
      exact List.take_nil
    rw [hsel, hnil, heff]
    rfl

/-- Pagination completeness and no duplication below the largest `int`.  On a table whose
rows have pairwise distinct `(created_at, id)`, for any filters and any page size `k` with
`1 ≤ k < 2^63 - 1`: starting without a cursor and calling `List` again with each returned
cursor stops (any fuel above the number of rows is enough), and the concatenation of the
pages is, in order, the result of one `List` call with the same filters, no cursor and a
limit `N < 2^63 - 1` that is at least the number of matching rows.  That result has no
next cursor, repeats no row, and holds exactly the rows of the table that pass the
filters. -/
theorem pagination_complete (table : List Movie) (f : ListFilters) (k N : Int) (fuel : Nat)
    (hkeys : (table.map rowKey).Nodup) (hk : 1 ≤ k) (hkmax : k < 9223372036854775807)
    (hN : ((table.filter (filterClauses f)).length : Int) ≤ N)
    (hNmax : N < 9223372036854775807) (hfuel : table.length < fuel) :
    ∃ rows, MovieStore.List table { f with Limit := N, Cursor := none } = .ok (rows, none) ∧
      listAllPages table { f with Limit := k } fuel none = some rows ∧
      rows.Nodup ∧ rows.Pairwise rowLt ∧
      (∀ m, m ∈ rows ↔ m ∈ table ∧ filterClauses f m = true) := by
  have hstrict : (matchingSorted table f).Pairwise rowLt :=
    sorted_strict _ (filter_keys_nodup table _ hkeys)
  have hlen : (matchingSorted table f).length < fuel := by
    have h1 : (matchingSorted table f).length = (table.filter (filterClauses f)).length :=
      List.length_insertionSort _ _
    have h2 := List.length_filter_le (filterClauses f) table
    omega
  refine ⟨matchingSorted table f, list_single_call table f N hkeys hN hNmax, ?_, ?_, hstrict, ?_⟩
  · exact listAllPages_from table { f with Limit := k } hk hkmax hkeys fuel none
      (matchingSorted table f) rfl hlen
  · exact hstrict.imp (fun {a b} h (heq : a = b) => rowLt_irrefl a (by rw [← heq] at h; exact h))
  · intro m
    simp only [matchingSorted]
    rw [List.mem_insertionSort, List.mem_filter]

/-- Three rows, two of them created at the same instant, page size 1: the pages are the
rows in the order of `(created_at, id)`. -/
theorem pagination_complete_witness :
    ∃ rows, MovieStore.List [sampleRow [66] 5, sampleRow [65] 5, sampleRow [67] 2]
        { Query := [], Year := none, Genre := [], Distributor := [], Budget := none,
          MPARating := [], Limit := 3, Cursor := none } = .ok (rows, none) ∧
      listAllPages [sampleRow [66] 5, sampleRow [65] 5, sampleRow [67] 2]
        { Query := [], Year := none, Genre := [], Distributor := [], Budget := none,
          MPARating := [], Limit := 1, Cursor := none } 4 none = some rows :=
  have h := pagination_complete [sampleRow [66] 5, sampleRow [65] 5, sampleRow [67] 2]
    { Query := [], Year := none, Genre := [], Distributor := [], Budget := none,
      MPARating := [], Limit := 0, Cursor := none } 1 3 4
    (by decide) (by decide) (by decide) (by decide) (by decide) (by decide)
  h.imp fun _ hr => ⟨hr.1, hr.2.1⟩

/-- Every 6-bit value is encoded by a character of the URL-safe alphabet that decodes
back to it. -/
theorem b64Value_b64Char : ∀ v, v < 64 → b64Value (b64Char v) = some v := by decide

/-- The characters of the URL-safe alphabet are none of `&` `=` `?` `#` `+` `/`. -/
theorem b64Value_not_separator (ch : Nat) (h : (b64Value ch).isSome = true) :
    ch ≠ 38 ∧ ch ≠ 61 ∧ ch ≠ 63 ∧ ch ≠ 35 ∧ ch ≠ 43 ∧ ch ≠ 47 := by
  unfold b64Value at h
  split_ifs at h <;> first | omega | simp at h

/-- The output of the encoder: characters of the alphabet, then at most two `=`. -/
theorem base64Encode_shape : ∀ data : GoString, ∃ body pad, base64Encode data = body ++ pad ∧
    (∀ ch ∈ body, (b64Value ch).isSome = true) ∧ (pad = [] ∨ pad = [61] ∨ pad = [61, 61])
  | [] => ⟨[], [], rfl, by simp, Or.inl rfl⟩
  | [a] => by
    refine ⟨[b64Char (a / 4 % 64), b64Char (a % 4 * 16)], [61, 61], rfl, ?_, Or.inr (Or.inr rfl)⟩
    intro ch hch
    simp only [List.mem_cons, List.mem_singleton, List.not_mem_nil, or_false] at hch
    rcases hch with h | h <;> subst h <;> rw [b64Value_b64Char _ (by omega)] <;> rfl
  | [a, b] => by
    refine ⟨[b64Char (a / 4 % 64), b64Char (a % 4 * 16 + b / 16 % 16), b64Char (b % 16 * 4)],
      [61], rfl, ?_, Or.inr (Or.inl rfl)⟩
    intro ch hch
    simp only [List.mem_cons, List.mem_singleton, List.not_mem_nil, or_false] at hch
    rcases hch with h | h | h <;> subst h <;> rw [b64Value_b64Char _ (by omega)] <;> rfl
  | a :: b :: c :: rest => by
    obtain ⟨body, pad, h1, h2, h3⟩ := base64Encode_shape rest
    refine ⟨b64Char (a / 4 % 64) :: b64Char (a % 4 * 16 + b / 16 % 16) ::
      b64Char (b % 16 * 4 + c / 64 % 4) :: b64Char (c % 64) :: body, pad, ?_, ?_, h3⟩
    · simp only [base64Encode, h1, List.cons_append]
    · intro ch hch
      simp only [List.mem_cons] at hch
      rcases hch with h | h | h | h | h
      · subst h; rw [b64Value_b64Char _ (by omega)]; rfl
      · subst h; rw [b64Value_b64Char _ (by omega)]; rfl
      · subst h; rw [b64Value_b64Char _ (by omega)]; rfl
      · subst h; rw [b64Value_b64Char _ (by omega)]; rfl
      · exact h2 ch h

/-- Counterexample to C10 as stated: the token of the cursor with the zero time and the
identifier "AB" ends in `==`, so it contains the character `=`. -/
theorem encodeCursor_padding_counterexample :
    EncodeCursor ⟨Time.zero, ascii "AB"⟩ =
      .ok (ascii "eyJjIjoiMDAwMS0wMS0wMVQwMDowMDowMFoiLCJpIjoiQUIifQ==") ∧
    61 ∈ ascii "eyJjIjoiMDAwMS0wMS0wMVQwMDowMDowMFoiLCJpIjoiQUIifQ==" :=
  ⟨rfl, by decide⟩

/-- C10 as amended: every string that `EncodeCursor` returns consists of characters of
the alphabet `A-Z a-z 0-9 - _` followed by at most two padding characters `=`; it
contains none of `&`, `?`, `#`, `+`, `/`. -/
theorem encodeCursor_url_safe (c : Cursor) (s : GoString) (h : EncodeCursor c = .ok s) :
    (∃ body pad, s = body ++ pad ∧ (∀ ch ∈ body, (b64Value ch).isSome = true) ∧
      (pad = [] ∨ pad = [61] ∨ pad = [61, 61])) ∧
    ∀ ch ∈ s, ch ≠ 38 ∧ ch ≠ 63 ∧ ch ≠ 35 ∧ ch ≠ 43 ∧ ch ≠ 47 := by
  unfold EncodeCursor at h
  cases hm : jsonMarshalCursor c with
  | error e => rw [hm] at h; cases h
  | ok data =>
    rw [hm] at h
    have hs : s = base64Encode data := by cases h; rfl
    obtain ⟨body, pad, h1, h2, h3⟩ := base64Encode_shape data
    rw [← hs] at h1
    refine ⟨⟨body, pad, h1, h2, h3⟩, ?_⟩
    intro ch hch
    rw [h1, List.mem_append] at hch
    rcases hch with hb | hp
    · have := b64Value_not_separator ch (h2 ch hb)
      exact ⟨this.1, this.2.2.1, this.2.2.2.1, this.2.2.2.2.1, this.2.2.2.2.2⟩
    · rcases h3 with h3 | h3 | h3 <;> subst h3 <;> simp at hp <;> omega

/-- Witness for the amended C10: the cursor with the zero time and the identifier "AB". -/
theorem encodeCursor_url_safe_witness :
    EncodeCursor ⟨Time.zero, ascii "AB"⟩ =
      .ok (ascii "eyJjIjoiMDAwMS0wMS0wMVQwMDowMDowMFoiLCJpIjoiQUIifQ==") ∧
    ∀ ch ∈ ascii "eyJjIjoiMDAwMS0wMS0wMVQwMDowMDowMFoiLCJpIjoiQUIifQ==",
      ch ≠ 38 ∧ ch ≠ 63 ∧ ch ≠ 35 ∧ ch ≠ 43 ∧ ch ≠ 47 :=
  ⟨rfl, (encodeCursor_url_safe ⟨Time.zero, ascii "AB"⟩ _ rfl).2⟩

/-! ## Decoding tokens -/

theorem cursorField_cases (key : GoString) :
    cursorField key = none ∨ cursorField key = some 0 ∨ cursorField key = some 1 := by
  unfold cursorField; split_ifs <;> simp

/-- What a member that is stored without error does to the cursor. -/
theorem decodeMember_ok (cur c : Cursor) (m : GoString × JShape)
    (h : decodeMember cur m = .ok c) :
    ∃ key, jsonUnquote m.1 = some key ∧
      ((cursorField key = some 0 ∧ c.ID = cur.ID) ∨
       (cursorField key = some 1 ∧ c.CreatedAt = cur.CreatedAt) ∨
       (cursorField key = none ∧ c = cur)) := by
  unfold decodeMember at h
  cases hk : jsonUnquote m.1 with
  | none => simp only [hk] at h; cases h
  | some key =>
    simp only [hk] at h
    refine ⟨key, rfl, ?_⟩
    rcases cursorField_cases key with hcf | hcf | hcf
    · simp only [hcf] at h
      right; right; exact ⟨hcf, by cases h; rfl⟩
    · simp only [hcf] at h
      left
      refine ⟨hcf, ?_⟩
      cases hs : m.2 with
      | null => simp only [hs] at h; cases h; rfl
      | str raw =>
        simp only [hs] at h
        cases hu : parseStrictRFC3339 raw with
        | none => simp only [hu] at h; cases h
        | some v => simp only [hu] at h; cases h; rfl
      | other => simp only [hs] at h; cases h
    · simp only [hcf] at h
      right; left
      refine ⟨hcf, ?_⟩
      cases hs : m.2 with
      | null => simp only [hs] at h; cases h; rfl
      | str raw =>
        simp only [hs] at h
        cases hu : jsonUnquote raw with
        | none => simp only [hu] at h; cases h
        | some v => simp only [hu] at h; cases h; rfl
      | other => simp only [hs] at h; cases h

/-- Members that do not select the timestamp field leave it as it was. -/
theorem decodeMembers_time : ∀ (members : List (GoString × JShape)) (cur c : Cursor),
    decodeMembers cur members = .ok c →
    (∀ m ∈ members, ∀ key, jsonUnquote m.1 = some key → cursorField key ≠ some 0) →
    c.CreatedAt = cur.CreatedAt
  | [], cur, c, h, _ => by cases h; rfl
  | m :: rest, cur, c, h, hno => by
    unfold decodeMembers at h
    cases hm : decodeMember cur m with
    | error e => simp only [hm] at h; cases h
    | ok cur1 =>
      simp only [hm] at h
      have ih := decodeMembers_time rest cur1 c h
        (fun m' hm' => hno m' (List.mem_cons_of_mem _ hm'))
      rw [ih]
      obtain ⟨key, hk, hc⟩ := decodeMember_ok cur cur1 m hm
      have hf := hno m (List.mem_cons_self _ _) key hk
      rcases hc with ⟨h0, _⟩ | ⟨_, h1⟩ | ⟨_, h2⟩
      · exact absurd h0 hf
      · exact h1
      · rw [h2]

/-- Members that do not select the identifier field leave it as it was. -/
theorem decodeMembers_id : ∀ (members : List (GoString × JShape)) (cur c : Cursor),
    decodeMembers cur members = .ok c →
    (∀ m ∈ members, ∀ key, jsonUnquote m.1 = some key → cursorField key ≠ some 1) →
    c.ID = cur.ID
  | [], cur, c, h, _ => by cases h; rfl
  | m :: rest, cur, c, h, hno => by
    unfold decodeMembers at h
    cases hm : decodeMember cur m with
    | error e => simp only [hm] at h; cases h
    | ok cur1 =>
      simp only [hm] at h
      have ih := decodeMembers_id rest cur1 c h
        (fun m' hm' => hno m' (List.mem_cons_of_mem _ hm'))
      rw [ih]
      obtain ⟨key, hk, hc⟩ := decodeMember_ok cur cur1 m hm
      have hf := hno m (List.mem_cons_self _ _) key hk
      rcases hc with ⟨_, h0⟩ | ⟨h1, _⟩ | ⟨_, h2⟩
      · exact h0
      · exact absurd h1 hf
      · rw [h2]

/-- Counterexample to C8 as stated: `e30=` is the base64url text of the JSON object `{}`,
which has neither field, and `DecodeCursor` returns a cursor (zero time, empty id), not
an error. -/
theorem decodeCursor_empty_object_counterexample :
    base64Decode (ascii "e30=") = some (ascii "\x7b\x7d") ∧
    DecodeCursor (ascii "e30=") = .ok (some ⟨Time.zero, []⟩) :=
  ⟨rfl, rfl⟩

/-- C8 as amended: a missing field is not an error.  For every non-empty token that is
base64url text of a JSON object whose members are stored without a type or parse error,
`DecodeCursor` returns a cursor; when no member selects the timestamp field the cursor has
the zero time, and when no member selects the identifier field it has the empty id. -/
theorem decodeCursor_missing_fields (token data : GoString)
    (members : List (GoString × JShape)) (c : Cursor) (hne : token ≠ [])
    (hb64 : base64Decode token = some data) (hjson : parseJSON data = some (.obj members))
    (hdec : decodeMembers ⟨Time.zero, []⟩ members = .ok c) :
    DecodeCursor token = .ok (some c) ∧
    ((∀ m ∈ members, ∀ key, jsonUnquote m.1 = some key → cursorField key ≠ some 0) →
      c.CreatedAt = Time.zero) ∧
    ((∀ m ∈ members, ∀ key, jsonUnquote m.1 = some key → cursorField key ≠ some 1) →
      c.ID = []) := by
  refine ⟨?_, decodeMembers_time members _ c hdec, decodeMembers_id members _ c hdec⟩
  simp only [DecodeCursor, if_neg hne, hb64, jsonUnmarshalCursor, hjson, hdec]

/-- Witness for the amended C8: the token of the object with only the identifier `"A"`;
the decoded cursor has that identifier and the zero time. -/
theorem decodeCursor_missing_fields_witness :
    DecodeCursor (base64Encode (ascii "\x7b\"i\":\"A\"\x7d")) = .ok (some ⟨Time.zero, [65]⟩) :=
  (decodeCursor_missing_fields (base64Encode (ascii "\x7b\"i\":\"A\"\x7d"))
    (ascii "\x7b\"i\":\"A\"\x7d") [([105], .str [65])] ⟨Time.zero, [65]⟩
    (by decide) rfl rfl rfl).1

/-! ## The cursor round trip -/

/-! ### Base64 -/

theorem b64Value_pad : b64Value 61 = none := by decide

/-- Four characters of a full group decode to its three bytes. -/
theorem base64DecodeFrom_group (v0 v1 v2 v3 : Nat) (rest : GoString)
    (h0 : v0 < 64) (h1 : v1 < 64) (h2 : v2 < 64) (h3 : v3 < 64) :
    base64DecodeFrom (b64Char v0 :: b64Char v1 :: b64Char v2 :: b64Char v3 :: rest) [] =
      (base64DecodeFrom rest []).map
        ([v0 * 4 + v1 / 16, v1 % 16 * 16 + v2 / 4, v2 % 4 * 64 + v3] ++ ·) := by
  simp only [base64DecodeFrom, b64Value_b64Char _ h0, b64Value_b64Char _ h1,
    b64Value_b64Char _ h2, b64Value_b64Char _ h3, List.nil_append, List.singleton_append,
    List.cons_append]

/-- Decoding undoes encoding on byte strings. -/
theorem base64_roundtrip : ∀ data : GoString, (∀ b ∈ data, b < 256) →
    base64Decode (base64Encode data) = some data
  | [], _ => rfl
  | [a], h => by
    have ha : a < 256 := h a (by simp)
    simp only [base64Decode, base64Encode, base64DecodeFrom,
      b64Value_b64Char _ (show a / 4 % 64 < 64 by omega),
      b64Value_b64Char _ (show a % 4 * 16 < 64 by omega), b64Value_pad, List.nil_append,
      List.singleton_append, skipNewlines]
    simp [skipNewlines]
    omega
  | [a, b], h => by
    have ha : a < 256 := h a (by simp)
    have hb : b < 256 := h b (by simp)
    simp only [base64Decode, base64Encode, base64DecodeFrom,
      b64Value_b64Char _ (show a / 4 % 64 < 64 by omega),
      b64Value_b64Char _ (show a % 4 * 16 + b / 16 % 16 < 64 by omega),
      b64Value_b64Char _ (show b % 16 * 4 < 64 by omega), b64Value_pad, List.nil_append,
      List.singleton_append, List.cons_append, skipNewlines]
    simp [skipNewlines]
    omega
  | a :: b :: c :: rest, h => by
    have ha : a < 256 := h a (by simp)
    have hb : b < 256 := h b (by simp)
    have hc : c < 256 := h c (by simp)
    have ih := base64_roundtrip rest (fun x hx => h x (by simp [hx]))
    unfold base64Decode at ih ⊢
    rw [base64Encode, base64DecodeFrom_group _ _ _ _ _ (by omega) (by omega) (by omega)
      (by omega), ih]
    simp only [Option.map_some', List.cons_append, List.nil_append, Option.some.injEq,
      List.cons.injEq, and_true]
    omega

/-! ### Decimal fields -/

theorem isDigit_digitChar (n : Nat) : isDigit (digitChar n) = true := by
  simp [isDigit, digitChar]; omega

theorem digitChar_sub (n : Nat) : digitChar n - 48 = n % 10 := by
  simp [digitChar]

theorem parseDigitsFrom_append : ∀ (l1 l2 : GoString) (acc : Nat),
    parseDigitsFrom acc (l1 ++ l2) = (parseDigitsFrom acc l1).bind (fun v => parseDigitsFrom v l2)
  | [], l2, acc => by simp [parseDigitsFrom]
  | b :: rest, l2, acc => by
    simp only [List.cons_append, parseDigitsFrom]
    split_ifs
    · exact parseDigitsFrom_append rest l2 _
    · rfl

theorem parseDigitsFrom_appendInt : ∀ (w n acc : Nat),
    parseDigitsFrom acc (appendInt w n) = some (acc * 10 ^ w + n % 10 ^ w)
  | 0, n, acc => by simp [appendInt, parseDigitsFrom, Nat.mod_one]
  | w + 1, n, acc => by
    rw [appendInt, parseDigitsFrom_append, parseDigitsFrom_appendInt w (n / 10) acc]
    simp only [Option.some_bind, parseDigitsFrom, isDigit_digitChar, if_true, digitChar_sub]
    congr 1
    have h := Nat.mod_mul (x := n) (a := 10) (b := 10 ^ w)
    rw [pow_succ, mul_comm (10 ^ w) 10, h]
    ring

theorem length_appendInt : ∀ (w n : Nat), (appendInt w n).length = w
  | 0, _ => rfl
  | w + 1, n => by rw [appendInt, List.length_append, length_appendInt w]; rfl

theorem isDigit_of_mem_appendInt : ∀ (w n : Nat) (c : Nat), c ∈ appendInt w n → isDigit c = true
  | 0, _, c, h => by simp [appendInt] at h
  | w + 1, n, c, h => by
    rw [appendInt, List.mem_append] at h
    rcases h with h | h
    · exact isDigit_of_mem_appendInt w _ c h
    · rw [List.mem_singleton] at h; subst h; exact isDigit_digitChar n

theorem parseUint_pad2 (n : Nat) (lo hi : Int) (h : n < 100) (hlo : lo ≤ (n : Int))
    (hhi : (n : Int) ≤ hi) :
    parseUint [digitChar (n / 10), digitChar n] lo hi = some (n : Int) := by
  have h1 : [digitChar (n / 10), digitChar n] = appendInt 2 n := by
    simp [appendInt]
  rw [h1, parseUint, parseDigitsFrom_appendInt]
  have h2 : 0 * 10 ^ 2 + n % 10 ^ 2 = n := by omega
  simp only [h2]
  rw [if_pos ⟨hlo, hhi⟩]

theorem parseUint_pad4 (n : Nat) (lo hi : Int) (h : n < 10000) (hlo : lo ≤ (n : Int))
    (hhi : (n : Int) ≤ hi) :
    parseUint [digitChar (n / 10 / 10 / 10), digitChar (n / 10 / 10), digitChar (n / 10),
      digitChar n] lo hi = some (n : Int) := by
  have h1 : [digitChar (n / 10 / 10 / 10), digitChar (n / 10 / 10), digitChar (n / 10),
      digitChar n] = appendInt 4 n := by
    simp [appendInt]
  rw [h1, parseUint, parseDigitsFrom_appendInt]
  have h2 : 0 * 10 ^ 4 + n % 10 ^ 4 = n := by omega
  simp only [h2]
  rw [if_pos ⟨hlo, hhi⟩]

theorem trimZeros_spec : ∀ l : GoString, ∃ j, l = trimZeros l ++ List.replicate j 48
  | [] => ⟨0, rfl⟩
  | d :: rest => by
    obtain ⟨j, hj⟩ := trimZeros_spec rest
    unfold trimZeros
    by_cases h : trimZeros rest = [] ∧ d = 48
    · rw [if_pos h]
      refine ⟨j + 1, ?_⟩
      rw [h.1] at hj
      rw [hj, h.2]
      simp [List.replicate_succ]
    · rw [if_neg h]
      exact ⟨j, by rw [List.cons_append, ← hj]⟩

theorem parseDigitsFrom_zeros : ∀ (j acc : Nat),
    parseDigitsFrom acc (List.replicate j 48) = some (acc * 10 ^ j)
  | 0, acc => by simp [parseDigitsFrom]
  | j + 1, acc => by
    rw [List.replicate_succ, parseDigitsFrom]
    have : isDigit 48 = true := by decide
    rw [if_pos this, parseDigitsFrom_zeros j]
    congr 1
    rw [pow_succ]
    ring

theorem trimZeros_sublist (l : GoString) : ∀ c ∈ trimZeros l, c ∈ l := by
  obtain ⟨j, hj⟩ := trimZeros_spec l
  intro c hc
  rw [hj]
  exact List.mem_append_left _ hc

theorem trimZeros_length (l : GoString) : (trimZeros l).length ≤ l.length := by
  obtain ⟨j, hj⟩ := trimZeros_spec l
  have := congrArg List.length hj
  rw [List.length_append] at this
  omega

/-- The value of the trimmed digits, scaled back, is the value of all nine digits. -/
theorem trimZeros_value (n : Nat) (h : n < 1000000000) :
    ∃ v, parseDigitsFrom 0 (trimZeros (appendInt 9 n)) = some v ∧
      v * 10 ^ (9 - (trimZeros (appendInt 9 n)).length) = n := by
  obtain ⟨j, hj⟩ := trimZeros_spec (appendInt 9 n)
  have hlen := congrArg List.length hj
  rw [List.length_append, length_appendInt, List.length_replicate] at hlen
  have hv := parseDigitsFrom_appendInt 9 n 0
  rw [hj, parseDigitsFrom_append] at hv
  cases hp : parseDigitsFrom 0 (trimZeros (appendInt 9 n)) with
  | none => rw [hp] at hv; simp at hv
  | some v =>
    rw [hp, Option.some_bind, parseDigitsFrom_zeros] at hv
    refine ⟨v, rfl, ?_⟩
    have h9 : 9 - (trimZeros (appendInt 9 n)).length = j := by omega
    rw [h9]
    have : v * 10 ^ j = 0 * 10 ^ 9 + n % 10 ^ 9 := Option.some.inj hv
    omega

theorem takeWhile_digits (ds tail : GoString) (c : Nat) (hds : ∀ x ∈ ds, isDigit x = true)
    (hc : isDigit c = false) :
    (ds ++ c :: tail).takeWhile isDigit = ds ∧ (ds ++ c :: tail).dropWhile isDigit = c :: tail := by
  induction ds with
  | nil => simp [List.takeWhile, List.dropWhile, hc]
  | cons d rest ih =>
    have hd : isDigit d = true := hds d (List.mem_cons_self _ _)
    have := ih (fun x hx => hds x (List.mem_cons_of_mem _ hx))
    simp [List.takeWhile, List.dropWhile, hd, this.1, this.2]

/-- Reading back the fractional second in front of a zone. -/
theorem parseFraction_formatFraction (n : Nat) (c : Nat) (tail : GoString)
    (h : n < 1000000000) (hc : isDigit c = false) (hc' : c ≠ 46) :
    parseFraction (formatFraction n ++ c :: tail) = (n, c :: tail) := by
  unfold formatFraction
  by_cases h0 : n = 0
  · rw [if_pos h0, List.nil_append, parseFraction]
    · rw [h0]
    · intro d rest heq; injection heq with h1 _; exact hc' h1
  · rw [if_neg h0]
    obtain ⟨v, hv, hval⟩ := trimZeros_value n h
    have hds : ∀ x ∈ trimZeros (appendInt 9 n), isDigit x = true :=
      fun x hx => isDigit_of_mem_appendInt 9 n x (trimZeros_sublist _ x hx)
    have hlen : (trimZeros (appendInt 9 n)).length ≤ 9 := by
      have := trimZeros_length (appendInt 9 n)
      rw [length_appendInt] at this
      exact this
    cases ht : trimZeros (appendInt 9 n) with
    | nil =>
      rw [ht] at hv hval
      simp only [parseDigitsFrom, Option.some.injEq] at hv
      subst hv
      rw [Nat.zero_mul] at hval
      exact absurd hval.symm h0
    | cons d rest =>
      rw [ht] at hds hlen hv hval
      have hd : isDigit d = true := hds d (List.mem_cons_self _ _)
      have htw := takeWhile_digits (d :: rest) tail c hds hc
      simp only [List.cons_append] at htw ⊢
      simp only [parseFraction, hd, if_true, htw.1, htw.2, List.take_of_length_le hlen, hv,
        Option.getD_some, hval]

/-! ### Calendar -/

theorem absYear_core (z n400 n100a n100 n4 n1a n1 : Int) (h1 : n400 = z / 146097)
    (h2 : n100a = (z - 146097 * n400) / 36524) (h3 : n100 = if n100a = 4 then 3 else n100a)
    (h4 : n4 = (z - 146097 * n400 - 36524 * n100) / 1461)
    (h5 : n1a = (z - 146097 * n400 - 36524 * n100 - 1461 * n4) / 365)
    (h6 : n1 = if n1a = 4 then 3 else n1a) :
    daysSinceEpoch (400 * n400 + 100 * n100 + 4 * n4 + n1 + 1) +
      (z - 146097 * n400 - 36524 * n100 - 1461 * n4 - 365 * n1) = z ∧
    0 ≤ (z - 146097 * n400 - 36524 * n100 - 1461 * n4 - 365 * n1) ∧
    (z - 146097 * n400 - 36524 * n100 - 1461 * n4 - 365 * n1) <
      365 + (if isLeap (400 * n400 + 100 * n100 + 4 * n4 + n1 + 1) then 1 else 0) := by
  have a1 : 0 ≤ n100a ∧ n100a ≤ 4 := by omega
  have a2 : 0 ≤ n100 ∧ n100 ≤ 3 ∧ 0 ≤ z - 146097 * n400 - 36524 * n100 ∧
      z - 146097 * n400 - 36524 * n100 ≤ 36524 ∧
      (z - 146097 * n400 - 36524 * n100 = 36524 → n100 = 3) := by
    split_ifs at h3 <;> omega
  have a3 : 0 ≤ n4 ∧ n4 ≤ 24 ∧
      (n4 = 24 → z - 146097 * n400 - 36524 * n100 - 1461 * n4 ≤ 1460) := by omega
  have a4 : 0 ≤ n1a ∧ n1a ≤ 4 := by omega
  have a5 : 0 ≤ n1 ∧ n1 ≤ 3 ∧ 0 ≤ z - 146097 * n400 - 36524 * n100 - 1461 * n4 - 365 * n1 ∧
      z - 146097 * n400 - 36524 * n100 - 1461 * n4 - 365 * n1 ≤ 365 ∧
      (z - 146097 * n400 - 36524 * n100 - 1461 * n4 - 365 * n1 = 365 → n1 = 3) := by
    split_ifs at h6 <;> omega
  simp only [daysSinceEpoch, isLeap, Bool.and_eq_true, Bool.or_eq_true, decide_eq_true_eq,
    ne_eq, Bool.decide_eq_true]
  have e1 : (400 * n400 + 100 * n100 + 4 * n4 + n1 + 1 - 1) / 400 = n400 := by omega
  have e2 : (400 * n400 + 100 * n100 + 4 * n4 + n1 + 1 - 1 - 400 * n400) / 100 = n100 := by
    omega
  have e3 : (400 * n400 + 100 * n100 + 4 * n4 + n1 + 1 - 1 - 400 * n400 - 100 * n100) / 4 =
      n4 := by
    omega
  rw [e1, e2, e3]
  refine ⟨by omega, by omega, ?_⟩
  split_ifs with hl
  · omega
  · simp only [not_and_or, not_or, Decidable.not_not] at hl
    omega

/-- The year and day of the year that `absYear` finds are those of the day number. -/
theorem absYear_spec (z : Int) :
    daysSinceEpoch (absYear z).1 + (absYear z).2 = z ∧ 0 ≤ (absYear z).2 ∧
    (absYear z).2 < 365 + (if isLeap (absYear z).1 then 1 else 0) :=
  absYear_core z _ _ _ _ _ _ rfl rfl rfl rfl rfl rfl

theorem monthOfDay_facts (day : Int) (h0 : 0 ≤ day) (h1 : day < 365) :
    ∃ m a b, monthOfDay day = m ∧ daysBefore m = a ∧ daysBefore (m + 1) = b ∧
      1 ≤ m ∧ m ≤ 12 ∧ a ≤ day ∧ day < b ∧ (m ≤ 2 ↔ day < 59) ∧ (m = 2 → b - a = 28) ∧
      b - a ≤ 31 := by
  unfold monthOfDay
  by_cases c1 : day < 31
  · rw [if_pos c1]; exact ⟨1, 0, 31, rfl, rfl, rfl, by omega⟩
  rw [if_neg c1]
  by_cases c2 : day < 59
  · rw [if_pos c2]; exact ⟨2, 31, 59, rfl, rfl, rfl, by omega⟩
  rw [if_neg c2]
  by_cases c3 : day < 90
  · rw [if_pos c3]; exact ⟨3, 59, 90, rfl, rfl, rfl, by omega⟩
  rw [if_neg c3]
  by_cases c4 : day < 120
  · rw [if_pos c4]; exact ⟨4, 90, 120, rfl, rfl, rfl, by omega⟩
  rw [if_neg c4]
  by_cases c5 : day < 151
  · rw [if_pos c5]; exact ⟨5, 120, 151, rfl, rfl, rfl, by omega⟩
  rw [if_neg c5]
  by_cases c6 : day < 181
  · rw [if_pos c6]; exact ⟨6, 151, 181, rfl, rfl, rfl, by omega⟩
  rw [if_neg c6]
  by_cases c7 : day < 212
  · rw [if_pos c7]; exact ⟨7, 181, 212, rfl, rfl, rfl, by omega⟩
  rw [if_neg c7]
  by_cases c8 : day < 243
  · rw [if_pos c8]; exact ⟨8, 212, 243, rfl, rfl, rfl, by omega⟩
  rw [if_neg c8]
  by_cases c9 : day < 273
  · rw [if_pos c9]; exact ⟨9, 243, 273, rfl, rfl, rfl, by omega⟩
  rw [if_neg c9]
  by_cases c10 : day < 304
  · rw [if_pos c10]; exact ⟨10, 273, 304, rfl, rfl, rfl, by omega⟩
  rw [if_neg c10]
  by_cases c11 : day < 334
  · rw [if_pos c11]; exact ⟨11, 304, 334, rfl, rfl, rfl, by omega⟩
  rw [if_neg c11]
  exact ⟨12, 334, 365, rfl, rfl, rfl, by omega⟩

theorem monthDay_core (p : Prop) [Decidable p] (yday day : Int) (h0 : 0 ≤ yday)
    (h1 : yday < 365 + (if p then 1 else 0)) (h59 : ¬ (p ∧ yday = 59))
    (hd : day = if p ∧ yday > 59 then yday - 1 else yday) :
    daysBefore (monthOfDay day) + (if p ∧ monthOfDay day ≥ 3 then 1 else 0)
      + ((day - daysBefore (monthOfDay day) + 1) - 1) = yday ∧
    1 ≤ monthOfDay day ∧ monthOfDay day ≤ 12 ∧ 1 ≤ day - daysBefore (monthOfDay day) + 1 ∧
    day - daysBefore (monthOfDay day) + 1 ≤ (if monthOfDay day = 2 ∧ p then 29
        else daysBefore (monthOfDay day + 1) - daysBefore (monthOfDay day)) := by
  have hday : 0 ≤ day ∧ day < 365 := by
    by_cases hp : p
    · rw [if_pos hp] at h1
      by_cases hq : yday > 59
      · rw [if_pos ⟨hp, hq⟩] at hd; omega
      · rw [if_neg (fun h => hq h.2)] at hd
        have : yday ≠ 59 := fun h => h59 ⟨hp, h⟩
        omega
    · rw [if_neg hp] at h1
      rw [if_neg (fun h => hp h.1)] at hd; omega
  obtain ⟨m, a, b, hm, ha, hb, f1, f2, f3, f4, f5, f6, f7⟩ := monthOfDay_facts day hday.1 hday.2
  rw [hm, ha, hb]
  by_cases hp : p
  · rw [if_pos hp] at h1
    have h59' : yday ≠ 59 := fun h => h59 ⟨hp, h⟩
    by_cases hq : yday > 59
    · rw [if_pos ⟨hp, hq⟩] at hd
      have hm3 : m ≥ 3 := by omega
      rw [if_pos ⟨hp, hm3⟩, if_neg (fun h => by omega)]
      omega
    · rw [if_neg (fun h => hq h.2)] at hd
      have hm3 : ¬ m ≥ 3 := by omega
      rw [if_neg (fun h => hm3 h.2)]
      by_cases hm2 : m = 2
      · rw [if_pos ⟨hm2, hp⟩]; omega
      · rw [if_neg (fun h => hm2 h.1)]; omega
  · rw [if_neg hp] at h1
    rw [if_neg (fun h => hp h.1)] at hd
    rw [if_neg (fun h => hp h.1), if_neg (fun h => hp h.2)]
    omega

theorem monthDay_spec (y yday : Int) (h0 : 0 ≤ yday)
    (h1 : yday < 365 + (if isLeap y = true then 1 else 0)) :
    daysBefore (monthDay (isLeap y) yday).1 +
        (if isLeap y = true ∧ (monthDay (isLeap y) yday).1 ≥ 3 then 1 else 0) +
        ((monthDay (isLeap y) yday).2 - 1) = yday ∧
    1 ≤ (monthDay (isLeap y) yday).1 ∧ (monthDay (isLeap y) yday).1 ≤ 12 ∧
    1 ≤ (monthDay (isLeap y) yday).2 ∧
    (monthDay (isLeap y) yday).2 ≤ daysIn (monthDay (isLeap y) yday).1 y := by
  unfold monthDay daysIn
  by_cases h59 : isLeap y = true ∧ yday = 59
  · rw [if_pos h59]
    have hl := h59.1
    have e2 : daysBefore 2 = 31 := rfl
    simp only [hl, true_and, and_true, if_true, e2]
    norm_num
    omega
  · rw [if_neg h59]
    exact monthDay_core (isLeap y = true) yday _ h0 h1 h59 rfl

/-- The civil date that `absDate` finds is a real date, and `dateToDays` maps it back to
the day number. -/
theorem absDate_spec (z : Int) :
    dateToDays (absDate z).1 (absDate z).2.1 (absDate z).2.2 = z ∧
    1 ≤ (absDate z).2.1 ∧ (absDate z).2.1 ≤ 12 ∧ 1 ≤ (absDate z).2.2 ∧
    (absDate z).2.2 ≤ daysIn (absDate z).2.1 (absDate z).1 := by
  have hy := absYear_spec z
  have hm := monthDay_spec (absYear z).1 (absYear z).2 hy.2.1 hy.2.2
  simp only [absDate, dateToDays]
  refine ⟨by omega, hm.2.1, hm.2.2.1, hm.2.2.2.1, hm.2.2.2.2⟩

/-! ### RFC 3339 -/

theorem formatZone_head (off : Int) :
    ∃ c tail, formatZone off = c :: tail ∧ isDigit c = false ∧ c ≠ 46 := by
  unfold formatZone
  by_cases h0 : off = 0
  · rw [if_pos h0]; exact ⟨90, [], rfl, by decide, by decide⟩
  · rw [if_neg h0]
    by_cases hneg : off ≤ -60
    · simp only [hneg, if_true]; exact ⟨45, _, rfl, by decide, by decide⟩
    · simp only [hneg, if_false]; exact ⟨43, _, rfl, by decide, by decide⟩

/-- Reading back the zone, for an offset of whole minutes below 24 hours. -/
theorem parseZone_formatZone (off : Int) (hmin : off % 60 = 0)
    (hhr : ¬ (off ≠ 0 ∧ 24 ≤ off.natAbs / 60 / 60)) :
    parseZone (formatZone off) = some off := by
  unfold formatZone
  by_cases h0 : off = 0
  · rw [if_pos h0, h0]; rfl
  · rw [if_neg h0]
    have hz : off.natAbs / 60 / 60 < 24 := by
      by_contra hc; exact hhr ⟨h0, by omega⟩
    have hn : (off.natAbs : Int) = if off < 0 then -off else off := by
      split_ifs <;> omega
    generalize off.natAbs = n at hz hn ⊢
    have e1 := parseUint_pad2 (n / 60 / 60) 0 23 (by omega) (by omega) (by omega)
    have e2 := parseUint_pad2 (n / 60 % 60) 0 59 (by omega) (by omega) (by omega)
    by_cases hneg : off ≤ -60
    · simp only [hneg, if_true, appendInt, List.nil_append, List.singleton_append,
        List.cons_append]
      simp [parseZone, e1, e2]
      split_ifs at hn <;> omega
    · simp only [hneg, if_false, appendInt, List.nil_append, List.singleton_append,
        List.cons_append]
      simp [parseZone, e1, e2]
      split_ifs at hn <;> omega

/-- Parsing the nineteen fixed characters of date and time. -/
theorem parseRFC3339_fields (Y M D hh mi ss : Nat) (rest : GoString)
    (hY : Y < 10000) (hM : 1 ≤ M ∧ M ≤ 12) (hD : 1 ≤ D ∧ (D : Int) ≤ daysIn M Y) (hD' : D < 100)
    (hh' : hh < 24) (hmi : mi < 60) (hss : ss < 60) :
    parseRFC3339 (digitChar (Y / 10 / 10 / 10) :: digitChar (Y / 10 / 10) ::
      digitChar (Y / 10) :: digitChar Y :: 45 :: digitChar (M / 10) :: digitChar M :: 45 ::
      digitChar (D / 10) :: digitChar D :: 84 :: digitChar (hh / 10) :: digitChar hh :: 58 ::
      digitChar (mi / 10) :: digitChar mi :: 58 :: digitChar (ss / 10) :: digitChar ss ::
      rest) =
    match parseZone (parseFraction rest).2 with
    | some zoneOffset =>
      some ⟨(Time.date Y M D hh mi ss (parseFraction rest).1).nanos - zoneOffset * nanosPerSec,
        zoneOffset⟩
    | none => none := by
  have eY := parseUint_pad4 Y 0 9999 hY (by omega) (by omega)
  have eM := parseUint_pad2 M 1 12 (by omega) (by omega) (by omega)
  have eD := parseUint_pad2 D 1 (daysIn M Y) hD' (by omega) hD.2
  have eh := parseUint_pad2 hh 0 23 (by omega) (by omega) (by omega)
  have em := parseUint_pad2 mi 0 59 (by omega) (by omega) (by omega)
  have es := parseUint_pad2 ss 0 59 (by omega) (by omega) (by omega)
  unfold parseRFC3339
  simp [eY, eM, eD, eh, em, es]

/-- A byte that the JSON scanner passes through inside a string literal. -/
theorem plain_of_time_char (c : Nat)
    (h : isDigit c = true ∨ c = 45 ∨ c = 84 ∨ c = 58 ∨ c = 46 ∨ c = 90 ∨ c = 43) :
    c ≠ 34 ∧ c ≠ 92 ∧ 32 ≤ c ∧ c < 128 := by
  simp only [isDigit, Bool.and_eq_true, decide_eq_true_eq] at h
  omega

theorem formatFraction_chars (n : Nat) (c : Nat) (h : c ∈ formatFraction n) :
    isDigit c = true ∨ c = 46 := by
  unfold formatFraction at h
  split_ifs at h
  · simp at h
  · rw [List.mem_cons] at h
    rcases h with h | h
    · exact Or.inr h
    · exact Or.inl (isDigit_of_mem_appendInt 9 n c (trimZeros_sublist _ c h))

theorem formatZone_chars (off : Int) (c : Nat) (h : c ∈ formatZone off) :
    isDigit c = true ∨ c = 45 ∨ c = 58 ∨ c = 90 ∨ c = 43 := by
  unfold formatZone at h
  by_cases h0 : off = 0
  · rw [if_pos h0, List.mem_singleton] at h
    right; right; right; left; exact h
  · rw [if_neg h0] at h
    simp only [List.mem_cons, List.mem_append] at h
    rcases h with h | h | h | h
    · by_cases hneg : off ≤ -60
      · rw [if_pos hneg] at h; right; left; exact h
      · rw [if_neg hneg] at h; right; right; right; right; exact h
    · left; exact isDigit_of_mem_appendInt _ _ c h
    · right; right; left; exact h
    · left; exact isDigit_of_mem_appendInt _ _ c h

theorem daysIn_le (m y : Int) (h1 : 1 ≤ m) (h2 : m ≤ 12) : daysIn m y ≤ 31 := by
  unfold daysIn
  split_ifs
  · omega
  · have hm : m = 1 ∨ m = 2 ∨ m = 3 ∨ m = 4 ∨ m = 5 ∨ m = 6 ∨ m = 7 ∨ m = 8 ∨ m = 9 ∨
        m = 10 ∨ m = 11 ∨ m = 12 := by omega
    rcases hm with h | h | h | h | h | h | h | h | h | h | h | h <;> subst h <;> decide

/-- The text of a timestamp is ASCII without quote, backslash or control character. -/
theorem formatRFC3339_plain (t : Time) (ts : GoString) (h : formatRFC3339 t = some ts) :
    ∀ c ∈ ts, c ≠ 34 ∧ c ≠ 92 ∧ 32 ≤ c ∧ c < 128 := by
  unfold formatRFC3339 at h
  simp only at h
  split_ifs at h
  injection h with h
  subst h
  intro c hc
  apply plain_of_time_char
  simp only [List.mem_append, List.mem_cons, or_assoc] at hc
  rcases hc with hc | hc | hc | hc | hc | hc | hc | hc | hc | hc | hc | hc | hc
  · exact Or.inl (isDigit_of_mem_appendInt _ _ c hc)
  · exact Or.inr (Or.inl hc)
  · exact Or.inl (isDigit_of_mem_appendInt _ _ c hc)
  · exact Or.inr (Or.inl hc)
  · exact Or.inl (isDigit_of_mem_appendInt _ _ c hc)
  · exact Or.inr (Or.inr (Or.inl hc))
  · exact Or.inl (isDigit_of_mem_appendInt _ _ c hc)
  · exact Or.inr (Or.inr (Or.inr (Or.inl hc)))
  · exact Or.inl (isDigit_of_mem_appendInt _ _ c hc)
  · exact Or.inr (Or.inr (Or.inr (Or.inl hc)))
  · exact Or.inl (isDigit_of_mem_appendInt _ _ c hc)
  · rcases formatFraction_chars _ c hc with h | h
    · exact Or.inl h
    · exact Or.inr (Or.inr (Or.inr (Or.inr (Or.inl h))))
  · rcases formatZone_chars _ c hc with h | h | h | h | h
    · exact Or.inl h
    · exact Or.inr (Or.inl h)
    · exact Or.inr (Or.inr (Or.inr (Or.inl h)))
    · exact Or.inr (Or.inr (Or.inr (Or.inr (Or.inr (Or.inl h)))))
    · exact Or.inr (Or.inr (Or.inr (Or.inr (Or.inr (Or.inr h)))))

/-- A timestamp whose local year is within 0..9999 and whose zone is below 24 hours can
be serialised. -/
theorem formatRFC3339_isSome (t : Time) (hy : 0 ≤ t.year ∧ t.year ≤ 9999)
    (hz : -86400 < t.offset ∧ t.offset < 86400) : ∃ ts, formatRFC3339 t = some ts := by
  unfold formatRFC3339
  simp only
  have hyear : (absDate ((t.nanos / nanosPerSec + t.offset) / secsPerDay)).1 = t.year := rfl
  rw [hyear]
  rw [if_neg (by omega), if_neg (by omega)]
  exact ⟨_, rfl⟩

/-- Parsing undoes formatting when the zone offset is a whole number of minutes. -/
theorem parseRFC3339_formatRFC3339 (t : Time) (ts : GoString) (h : formatRFC3339 t = some ts)
    (hoff : t.offset % 60 = 0) : parseRFC3339 ts = some t := by
  obtain ⟨n, off⟩ := t
  change off % 60 = 0 at hoff
  unfold formatRFC3339 at h
  simp only at h
  split_ifs at h with h1 h2
  injection h with h
  subst h
  have hs := absDate_spec ((n / nanosPerSec + off) / secsPerDay)
  generalize hdate : absDate ((n / nanosPerSec + off) / secsPerDay) = date at hs h1 ⊢
  obtain ⟨hdays, hm1, hm2, hd1, hd2⟩ := hs
  have hd3 : date.2.2 ≤ 31 := le_trans hd2 (daysIn_le _ _ hm1 hm2)
  have hY : ((date.1.toNat : Nat) : Int) = date.1 := by omega
  have hM : ((date.2.1.toNat : Nat) : Int) = date.2.1 := by omega
  have hD : ((date.2.2.toNat : Nat) : Int) = date.2.2 := by omega
  obtain ⟨c, tail, hzc, hdig, h46⟩ := formatZone_head off
  have hns : (n % nanosPerSec).toNat < 1000000000 := by
    unfold nanosPerSec; omega
  simp only [appendInt, List.nil_append, List.singleton_append, List.cons_append,
    List.append_assoc]
  rw [parseRFC3339_fields date.1.toNat date.2.1.toNat date.2.2.toNat _ _ _ _ (by omega)
    (by omega) ⟨by omega, by rw [hD, hM, hY]; exact hd2⟩ (by omega)
    (by unfold secsPerDay; omega) (by unfold secsPerDay; omega) (by unfold secsPerDay; omega)]
  rw [hzc, parseFraction_formatFraction _ c tail hns hdig h46, ← hzc]
  simp only
  rw [parseZone_formatZone off hoff h2]
  simp only [Time.date, hY, hM, hD, hdays]
  unfold nanosPerSec secsPerDay at *
  rw [Option.some.injEq, Time.mk.injEq]
  refine ⟨?_, rfl⟩
  omega

/-! ### UTF-8 and JSON strings -/

theorem hexValue_hexChar : ∀ k, k < 16 → hexValue (hexChar k) = some k := by decide

/-- The shapes of a well-formed encoding at the head of the input. -/
theorem decodeRune_cases (s : GoString) (c size : Nat) (h : decodeRune s = some (c, size)) :
    (∃ b0 rest, s = b0 :: rest ∧ b0 < 128 ∧ c = b0 ∧ size = 1) ∨
    (∃ b0 b1 rest, s = b0 :: b1 :: rest ∧ 194 ≤ b0 ∧ b0 ≤ 223 ∧ 128 ≤ b1 ∧ b1 ≤ 191 ∧
      c = b0 % 32 * 64 + b1 % 64 ∧ size = 2) ∨
    (∃ b0 b1 b2 rest, s = b0 :: b1 :: b2 :: rest ∧ 224 ≤ b0 ∧ b0 ≤ 239 ∧
      (if b0 = 224 then 160 else 128) ≤ b1 ∧ b1 ≤ (if b0 = 237 then 159 else 191) ∧
      128 ≤ b2 ∧ b2 ≤ 191 ∧ c = (b0 % 16 * 64 + b1 % 64) * 64 + b2 % 64 ∧ size = 3) ∨
    (∃ b0 b1 b2 b3 rest, s = b0 :: b1 :: b2 :: b3 :: rest ∧ 240 ≤ b0 ∧ b0 ≤ 244 ∧
      (if b0 = 240 then 144 else 128) ≤ b1 ∧ b1 ≤ (if b0 = 244 then 143 else 191) ∧
      128 ≤ b2 ∧ b2 ≤ 191 ∧ 128 ≤ b3 ∧ b3 ≤ 191 ∧
      c = ((b0 % 8 * 64 + b1 % 64) * 64 + b2 % 64) * 64 + b3 % 64 ∧ size = 4) := by
  cases s with
  | nil => simp [decodeRune] at h
  | cons b0 rest =>
    simp only [decodeRune] at h
    by_cases c1 : b0 < 128
    · rw [if_pos c1] at h
      injection h with h; injection h with h1 h2
      exact Or.inl ⟨b0, rest, rfl, c1, h1.symm, h2.symm⟩
    rw [if_neg c1] at h
    by_cases c2 : 194 ≤ b0 ∧ b0 ≤ 223
    · rw [if_pos c2] at h
      cases rest with
      | nil => simp at h
      | cons b1 r1 =>
        by_cases hc : isCont b1 = true
        · simp only [if_pos hc, Option.some.injEq, Prod.mk.injEq] at h
          simp only [isCont, Bool.and_eq_true, decide_eq_true_eq] at hc
          exact Or.inr (Or.inl ⟨b0, b1, r1, rfl, c2.1, c2.2, hc.1, hc.2, h.1.symm, h.2.symm⟩)
        · simp [hc] at h
    rw [if_neg c2] at h
    by_cases c3 : 224 ≤ b0 ∧ b0 ≤ 239
    · rw [if_pos c3] at h
      cases rest with
      | nil => simp at h
      | cons b1 r1 =>
        cases r1 with
        | nil => simp at h
        | cons b2 r2 =>
          by_cases hc : (if b0 = 224 then 160 else 128) ≤ b1 ∧
              b1 ≤ (if b0 = 237 then 159 else 191) ∧ isCont b2 = true
          · simp only [if_pos hc, Option.some.injEq, Prod.mk.injEq] at h
            simp only [isCont, Bool.and_eq_true, decide_eq_true_eq] at hc
            exact Or.inr (Or.inr (Or.inl ⟨b0, b1, b2, r2, rfl, c3.1, c3.2, hc.1, hc.2.1,
              hc.2.2.1, hc.2.2.2, h.1.symm, h.2.symm⟩))
          · simp only [if_neg hc] at h; cases h
    rw [if_neg c3] at h
    by_cases c4 : 240 ≤ b0 ∧ b0 ≤ 244
    · rw [if_pos c4] at h
      cases rest with
      | nil => simp at h
      | cons b1 r1 =>
        cases r1 with
        | nil => simp at h
        | cons b2 r2 =>
          cases r2 with
          | nil => simp at h
          | cons b3 r3 =>
            by_cases hc : (if b0 = 240 then 144 else 128) ≤ b1 ∧
                b1 ≤ (if b0 = 244 then 143 else 191) ∧ isCont b2 = true ∧ isCont b3 = true
            · simp only [if_pos hc, Option.some.injEq, Prod.mk.injEq] at h
              simp only [isCont, Bool.and_eq_true, decide_eq_true_eq] at hc
              exact Or.inr (Or.inr (Or.inr ⟨b0, b1, b2, b3, r3, rfl, c4.1, c4.2, hc.1, hc.2.1,
                hc.2.2.1.1, hc.2.2.1.2, hc.2.2.2.1, hc.2.2.2.2, h.1.symm, h.2.symm⟩))
            · simp only [if_neg hc] at h; cases h
    rw [if_neg c4] at h
    cases h

/-- A well-formed encoding: its width, its bytes re-encoded, and its independence of
what follows. -/
theorem decodeRune_spec (s : GoString) (c size : Nat) (h : decodeRune s = some (c, size)) :
    1 ≤ size ∧ size ≤ s.length ∧ encodeRune c = s.take size ∧
    (∀ tail, decodeRune (s.take size ++ tail) = some (c, size)) ∧
    (∀ b0 rest, s = b0 :: rest → 128 ≤ b0 → 128 ≤ c ∧ ∀ x ∈ s.take size, 128 ≤ x) := by
  rcases decodeRune_cases s c size h with ⟨b0, rest, hs, h1, hc, hsz⟩ |
    ⟨b0, b1, rest, hs, h1, h2, h3, h4, hc, hsz⟩ |
    ⟨b0, b1, b2, rest, hs, h1, h2, h3, h4, h5, h6, hc, hsz⟩ |
    ⟨b0, b1, b2, b3, rest, hs, h1, h2, h3, h4, h5, h6, h7, h8, hc, hsz⟩
  · subst hs hc hsz
    refine ⟨le_refl _, by simp, by simp [encodeRune, h1], ?_, ?_⟩
    · intro tail; simp [decodeRune, h1]
    · intro b0' rest' he hb; injection he with he1 _; omega
  · subst hs hsz
    refine ⟨by omega, by simp, ?_, ?_, ?_⟩
    · subst hc
      have e1 : ¬ (b0 % 32 * 64 + b1 % 64 < 128) := by omega
      have e2 : b0 % 32 * 64 + b1 % 64 < 2048 := by omega
      simp only [encodeRune, if_neg e1, if_pos e2, List.take_succ_cons, List.take_zero]
      congr 1
      · omega
      · congr 1; omega
    · intro tail
      have c1 : ¬ b0 < 128 := by omega
      simp [decodeRune, c1, h1, h2, isCont, h3, h4, hc]
    · intro b0' rest' he hb
      subst hc
      refine ⟨by omega, ?_⟩
      intro x hx
      simp at hx
      omega
  · subst hs hsz
    have c1 : ¬ b0 < 128 := by omega
    have c2 : ¬ (194 ≤ b0 ∧ b0 ≤ 223) := by omega
    have f3 : 128 ≤ b1 ∧ (b0 ≠ 224 ∨ 160 ≤ b1) := by split_ifs at h3 <;> omega
    have f4 : b1 ≤ 191 ∧ (b0 ≠ 237 ∨ b1 ≤ 159) := by split_ifs at h4 <;> omega
    refine ⟨by omega, by simp, ?_, ?_, ?_⟩
    · subst hc
      have e1 : ¬ ((b0 % 16 * 64 + b1 % 64) * 64 + b2 % 64 < 128) := by omega
      have e2 : ¬ ((b0 % 16 * 64 + b1 % 64) * 64 + b2 % 64 < 2048) := by omega
      have e3 : ¬ ((55296 ≤ (b0 % 16 * 64 + b1 % 64) * 64 + b2 % 64 ∧
          (b0 % 16 * 64 + b1 % 64) * 64 + b2 % 64 ≤ 57343) ∨
          1114111 < (b0 % 16 * 64 + b1 % 64) * 64 + b2 % 64) := by omega
      have e4 : (b0 % 16 * 64 + b1 % 64) * 64 + b2 % 64 < 65536 := by omega
      simp only [encodeRune, if_neg e1, if_neg e2, if_neg e3, if_pos e4, List.take_succ_cons,
        List.take_zero]
      congr 1
      · omega
      · congr 1
        · omega
        · congr 1; omega
    · intro tail
      simp [decodeRune, c1, c2, h1, h2, isCont, h3, h4, h5, h6, hc]
    · intro b0' rest' he hb
      subst hc
      refine ⟨by omega, ?_⟩
      intro x hx
      simp at hx
      omega
  · subst hs hsz
    have c1 : ¬ b0 < 128 := by omega
    have c2 : ¬ (194 ≤ b0 ∧ b0 ≤ 223) := by omega
    have c3 : ¬ (224 ≤ b0 ∧ b0 ≤ 239) := by omega
    have f3 : 128 ≤ b1 ∧ (b0 ≠ 240 ∨ 144 ≤ b1) := by split_ifs at h3 <;> omega
    have f4 : b1 ≤ 191 ∧ (b0 ≠ 244 ∨ b1 ≤ 143) := by split_ifs at h4 <;> omega
    refine ⟨by omega, by simp, ?_, ?_, ?_⟩
    · subst hc
      have e1 : ¬ (((b0 % 8 * 64 + b1 % 64) * 64 + b2 % 64) * 64 + b3 % 64 < 128) := by omega
      have e2 : ¬ (((b0 % 8 * 64 + b1 % 64) * 64 + b2 % 64) * 64 + b3 % 64 < 2048) := by omega
      have e3 : ¬ ((55296 ≤ ((b0 % 8 * 64 + b1 % 64) * 64 + b2 % 64) * 64 + b3 % 64 ∧
          ((b0 % 8 * 64 + b1 % 64) * 64 + b2 % 64) * 64 + b3 % 64 ≤ 57343) ∨
          1114111 < ((b0 % 8 * 64 + b1 % 64) * 64 + b2 % 64) * 64 + b3 % 64) := by omega
      have e4 : ¬ (((b0 % 8 * 64 + b1 % 64) * 64 + b2 % 64) * 64 + b3 % 64 < 65536) := by omega
      simp only [encodeRune, if_neg e1, if_neg e2, if_neg e3, if_neg e4, List.take_succ_cons,
        List.take_zero]
      congr 1
      · omega
      · congr 1
        · omega
        · congr 1
          · omega
          · congr 1; omega
    · intro tail
      simp [decodeRune, c1, c2, c3, h1, h2, isCont, h3, h4, h5, h6, h7, h8, hc]
    · intro b0' rest' he hb
      subst hc
      refine ⟨by omega, ?_⟩
      intro x hx
      simp at hx
      omega

theorem encodeRune_ascii (b : Nat) (h : b < 128) : encodeRune b = [b] := by
  simp [encodeRune, h]

theorem hex4_00 (b : Nat) (tail : GoString) (h : b < 128) :
    hex4 (48 :: 48 :: hexChar (b / 16) :: hexChar (b % 16) :: tail) = some b := by
  have e1 := hexValue_hexChar (b / 16) (by omega)
  have e2 := hexValue_hexChar (b % 16) (by omega)
  have e0 : hexValue 48 = some 0 := by decide
  simp only [hex4, e0, e1, e2]
  congr 1
  omega

/-- Reading back an escaped ASCII byte. -/
theorem unquoteStep_escapeByte (b : Nat) (tail : GoString) (hb : b < 128)
    (hs : htmlSafe b = false) :
    ∃ e rest1, escapeByte b ++ tail = 92 :: e :: rest1 ∧
      unquoteEscape e rest1 = some ([b], tail) := by
  unfold escapeByte
  by_cases c1 : b = 92 ∨ b = 34
  · rw [if_pos c1]
    rcases c1 with c1 | c1 <;> subst c1 <;> exact ⟨_, _, rfl, rfl⟩
  rw [if_neg c1]
  by_cases c2 : b = 8
  · rw [if_pos c2]; subst c2; exact ⟨_, _, rfl, rfl⟩
  rw [if_neg c2]
  by_cases c3 : b = 12
  · rw [if_pos c3]; subst c3; exact ⟨_, _, rfl, rfl⟩
  rw [if_neg c3]
  by_cases c4 : b = 10
  · rw [if_pos c4]; subst c4; exact ⟨_, _, rfl, rfl⟩
  rw [if_neg c4]
  by_cases c5 : b = 13
  · rw [if_pos c5]; subst c5; exact ⟨_, _, rfl, rfl⟩
  rw [if_neg c5]
  by_cases c6 : b = 9
  · rw [if_pos c6]; subst c6; exact ⟨_, _, rfl, rfl⟩
  rw [if_neg c6]
  refine ⟨117, 48 :: 48 :: hexChar (b / 16) :: hexChar (b % 16) :: tail, rfl, ?_⟩
  have hsur : ¬ (55296 ≤ b ∧ b ≤ 57343) := by omega
  unfold unquoteEscape
  rw [if_neg (by decide), if_neg (by decide), if_neg (by decide), if_neg (by decide),
    if_neg (by decide), if_neg (by decide), if_pos rfl, hex4_00 b _ hb]
  simp only [if_neg hsur, encodeRune_ascii b hb, List.drop_succ_cons, List.drop_zero]

/-- One step of `unquoteBytes` reads back what one step of `appendString` wrote, when the
head of the input is a well-formed encoding. -/
theorem unquoteStep_quoteStep (b : Nat) (rest tail : GoString) (c size : Nat)
    (hd : decodeRune (b :: rest) = some (c, size)) :
    ∃ q0 qrest, (quoteStep b rest).1 ++ tail = q0 :: qrest ∧
      unquoteStep q0 qrest = some ((b :: rest).take size, tail) ∧
      (quoteStep b rest).2 = (b :: rest).drop size := by
  obtain ⟨h1, h2, h3, h4, h5⟩ := decodeRune_spec _ c size hd
  unfold quoteStep
  by_cases hb : b < 128
  · have hsize : size = 1 := by
      simp [decodeRune, hb] at hd; exact hd.2.symm
    subst hsize
    rw [if_pos hb]
    by_cases hs : htmlSafe b = true
    · rw [if_pos hs]
      refine ⟨b, tail, rfl, ?_, rfl⟩
      simp only [htmlSafe, Bool.and_eq_true, decide_eq_true_eq] at hs
      unfold unquoteStep
      rw [if_neg (by omega), if_neg (by omega), if_pos hb]
      rfl
    · rw [if_neg hs]
      have hs' : htmlSafe b = false := by simpa using hs
      obtain ⟨e, rest1, he, hu⟩ := unquoteStep_escapeByte b tail hb hs'
      refine ⟨92, e :: rest1, he, ?_, rfl⟩
      unfold unquoteStep
      rw [if_pos rfl]
      exact hu
  · have hb' : 128 ≤ b := by omega
    rw [if_neg hb]
    simp only [hd]
    by_cases hc : c = 8232 ∨ c = 8233
    · rw [if_pos hc]
      refine ⟨92, _, rfl, ?_, rfl⟩
      rw [← h3]
      rcases hc with hc | hc <;> subst hc <;> rfl
    · rw [if_neg hc]
      have htake : (b :: rest).take size = b :: rest.take (size - 1) := by
        obtain ⟨k, hk⟩ : ∃ k, size = k + 1 := ⟨size - 1, by omega⟩
        subst hk
        simp
      have hlen : ((b :: rest).take size).length = size := by
        rw [List.length_take]; omega
      have hdrop : ((b :: rest).take size ++ tail).drop size = tail := by
        rw [List.drop_append_of_le_length (by omega), List.drop_of_length_le (by omega)]
        rfl
      have hdec := h4 tail
      refine ⟨b, rest.take (size - 1) ++ tail, by rw [htake]; rfl, ?_, rfl⟩
      rw [htake, List.cons_append] at hdec hdrop
      unfold unquoteStep
      rw [if_neg (by omega), if_neg (by omega), if_neg hb]
      simp only [hdec, hdrop, h3]

theorem escapeByte_length (b : Nat) : 1 ≤ (escapeByte b).length := by
  unfold escapeByte; split_ifs <;> simp

/-- Every step of `appendString` writes something. -/
theorem quoteStep_length (b : Nat) (rest : GoString) : 1 ≤ (quoteStep b rest).1.length := by
  unfold quoteStep
  by_cases hb : b < 128
  · rw [if_pos hb]
    by_cases hs : htmlSafe b = true
    · rw [if_pos hs]; simp
    · rw [if_neg hs]; exact escapeByte_length b
  · rw [if_neg hb]
    cases hd : decodeRune (b :: rest) with
    | none => simp
    | some cs =>
      obtain ⟨c, size⟩ := cs
      obtain ⟨h1, h2, -⟩ := decodeRune_spec _ c size hd
      simp only
      by_cases hc : c = 8232 ∨ c = 8233
      · rw [if_pos hc]; simp
      · rw [if_neg hc, List.length_take]
        exact le_min h1 (le_trans h1 h2)

/-- `unquoteBytes` undoes `appendString` on well-formed UTF-8. -/
theorem unquote_quoteBody : ∀ (fuel : Nat) (s : GoString) (fuel2 : Nat),
    validUTF8From fuel s = true → (quoteBody fuel s).length ≤ fuel2 →
    unquoteBody fuel2 (quoteBody fuel s) = some s
  | fuel, [], fuel2, _, _ => by
    cases fuel <;> cases fuel2 <;> rfl
  | 0, b :: rest, _, hv, _ => by simp [validUTF8From] at hv
  | fuel + 1, b :: rest, fuel2, hv, hlen => by
    rw [validUTF8From] at hv
    cases hd : decodeRune (b :: rest) with
    | none => simp [hd] at hv
    | some cs =>
      obtain ⟨c, size⟩ := cs
      simp only [hd] at hv
      obtain ⟨q0, qrest, hq, hu, hr⟩ :=
        unquoteStep_quoteStep b rest (quoteBody fuel (quoteStep b rest).2) c size hd
      rw [quoteBody] at hlen ⊢
      rw [hq] at hlen ⊢
      obtain ⟨f2, rfl⟩ : ∃ f2, fuel2 = f2 + 1 :=
        ⟨fuel2 - 1, by rw [List.length_cons] at hlen; omega⟩
      have hlen2 : (quoteBody fuel (quoteStep b rest).2).length ≤ f2 := by
        have h0 := congrArg List.length hq
        rw [List.length_append, List.length_cons] at h0
        rw [List.length_cons] at hlen
        have h1 := quoteStep_length b rest
        omega
      rw [unquoteBody, hu]
      simp only
      rw [unquote_quoteBody fuel _ f2 (by rw [hr]; exact hv) hlen2, hr]
      simp only [Option.map_some', List.take_append_drop]

/-- `unquoteBytes` on the output of `appendString` returns the string, for well-formed
UTF-8. -/
theorem jsonUnquote_quoteBody (s : GoString) (h : validUTF8 s = true) :
    jsonUnquote (quoteBody s.length s) = some s :=
  unquote_quoteBody s.length s _ h (le_refl _)

/-! ### The scanner on the output of `appendString` -/

theorem scan_plain (c : Nat) (more : GoString) (h1 : c ≠ 34) (h2 : c ≠ 92) (h3 : 32 ≤ c) :
    scanStringFrom 0 (c :: more) = (scanStringFrom 0 more).map fun r => (c :: r.1, r.2) := by
  rw [scanStringFrom, if_pos rfl, if_neg h1, if_neg h2, if_neg (by omega)]

theorem scan_plain_append : ∀ (text more : GoString), (∀ c ∈ text, c ≠ 34 ∧ c ≠ 92 ∧ 32 ≤ c) →
    scanStringFrom 0 (text ++ more) = (scanStringFrom 0 more).map fun r => (text ++ r.1, r.2)
  | [], more, _ => by simp
  | c :: text, more, h => by
    have hc := h c (List.mem_cons_self _ _)
    rw [List.cons_append, scan_plain c _ hc.1 hc.2.1 hc.2.2,
      scan_plain_append text more (fun x hx => h x (List.mem_cons_of_mem _ hx))]
    cases scanStringFrom 0 more <;> rfl

theorem scan_escape2 (e : Nat) (more : GoString)
    (he : e = 98 ∨ e = 102 ∨ e = 110 ∨ e = 114 ∨ e = 116 ∨ e = 92 ∨ e = 47 ∨ e = 34) :
    scanStringFrom 0 (92 :: e :: more) =
      (scanStringFrom 0 more).map fun r => ([92, e] ++ r.1, r.2) := by
  rw [scanStringFrom, if_pos rfl, if_neg (by decide), if_pos rfl, scanStringFrom,
    if_neg (by decide), if_pos rfl, if_pos he]
  cases scanStringFrom 0 more <;> rfl

theorem scan_escapeU (h1 h2 h3 h4 : Nat) (more : GoString) (e1 : (hexValue h1).isSome = true)
    (e2 : (hexValue h2).isSome = true) (e3 : (hexValue h3).isSome = true)
    (e4 : (hexValue h4).isSome = true) :
    scanStringFrom 0 (92 :: 117 :: h1 :: h2 :: h3 :: h4 :: more) =
      (scanStringFrom 0 more).map fun r => ([92, 117, h1, h2, h3, h4] ++ r.1, r.2) := by
  rw [scanStringFrom, if_pos rfl, if_neg (by decide), if_pos rfl, scanStringFrom,
    if_neg (by decide), if_pos rfl, if_neg (by decide), if_pos rfl, scanStringFrom,
    if_neg (by decide), if_neg (by decide), if_pos e1, if_neg (by decide), scanStringFrom,
    if_neg (by decide), if_neg (by decide), if_pos e2, if_neg (by decide), scanStringFrom,
    if_neg (by decide), if_neg (by decide), if_pos e3, if_neg (by decide), scanStringFrom,
    if_neg (by decide), if_neg (by decide), if_pos e4, if_pos rfl]
  cases scanStringFrom 0 more <;> rfl

theorem hexValue_hexChar_isSome (k : Nat) (h : k < 16) :
    (hexValue (hexChar k)).isSome = true := by
  rw [hexValue_hexChar k h]; rfl

/-- The scanner passes over what one step of `appendString` wrote. -/
theorem scan_quoteStep (b : Nat) (rest more : GoString) :
    scanStringFrom 0 ((quoteStep b rest).1 ++ more) =
      (scanStringFrom 0 more).map fun r => ((quoteStep b rest).1 ++ r.1, r.2) := by
  unfold quoteStep
  by_cases hb : b < 128
  · rw [if_pos hb]
    by_cases hs : htmlSafe b = true
    · rw [if_pos hs]
      simp only [htmlSafe, Bool.and_eq_true, decide_eq_true_eq] at hs
      exact scan_plain_append [b] more (by
        intro c hc; rw [List.mem_singleton] at hc; subst hc; omega)
    · rw [if_neg hs]
      simp only
      unfold escapeByte
      by_cases c1 : b = 92 ∨ b = 34
      · rw [if_pos c1]
        exact scan_escape2 b more (by omega)
      rw [if_neg c1]
      by_cases c2 : b = 8
      · rw [if_pos c2]; exact scan_escape2 98 more (by decide)
      rw [if_neg c2]
      by_cases c3 : b = 12
      · rw [if_pos c3]; exact scan_escape2 102 more (by decide)
      rw [if_neg c3]
      by_cases c4 : b = 10
      · rw [if_pos c4]; exact scan_escape2 110 more (by decide)
      rw [if_neg c4]
      by_cases c5 : b = 13
      · rw [if_pos c5]; exact scan_escape2 114 more (by decide)
      rw [if_neg c5]
      by_cases c6 : b = 9
      · rw [if_pos c6]; exact scan_escape2 116 more (by decide)
      rw [if_neg c6]
      exact scan_escapeU 48 48 _ _ more (by decide) (by decide)
        (hexValue_hexChar_isSome _ (by omega)) (hexValue_hexChar_isSome _ (by omega))
  · rw [if_neg hb]
    cases hd : decodeRune (b :: rest) with
    | none =>
      exact scan_escapeU 102 102 102 100 more (by decide) (by decide) (by decide) (by decide)
    | some cs =>
      obtain ⟨c, size⟩ := cs
      obtain ⟨h1, h2, h3, h4, h5⟩ := decodeRune_spec _ c size hd
      simp only
      by_cases hc : c = 8232 ∨ c = 8233
      · rw [if_pos hc]
        exact scan_escapeU 50 48 50 _ more (by decide) (by decide) (by decide)
          (hexValue_hexChar_isSome _ (by omega))
      · rw [if_neg hc]
        apply scan_plain_append
        intro x hx
        have := (h5 b rest rfl (by omega)).2 x hx
        omega

/-- The scanner reads the output of `appendString` up to the closing quote. -/
theorem scanString_quoteBody : ∀ (fuel : Nat) (s tail : GoString),
    scanString (quoteBody fuel s ++ 34 :: tail) = some (quoteBody fuel s, tail)
  | fuel, [], tail => by
    cases fuel <;> rfl
  | 0, b :: rest, tail => rfl
  | fuel + 1, b :: rest, tail => by
    have ih := scanString_quoteBody fuel (quoteStep b rest).2 tail
    unfold scanString at ih ⊢
    rw [quoteBody, List.append_assoc, scan_quoteStep, ih]
    rfl

/-- The scanner reads plain text up to the closing quote. -/
theorem scanString_plain (text tail : GoString) (h : ∀ c ∈ text, c ≠ 34 ∧ c ≠ 92 ∧ 32 ≤ c) :
    scanString (text ++ 34 :: tail) = some (text, tail) := by
  unfold scanString
  rw [scan_plain_append text _ h, scanStringFrom, if_pos rfl, if_pos rfl]
  simp

/-! ### The marshalled cursor as input of the decoder -/

theorem hexChar_lt (k : Nat) (h : k < 16) : hexChar k < 128 := by
  unfold hexChar; split_ifs <;> omega

theorem decodeRune_bytes (s : GoString) (c size : Nat) (h : decodeRune s = some (c, size)) :
    ∀ x ∈ s.take size, x < 256 := by
  rcases decodeRune_cases s c size h with ⟨b0, rest, hs, h1, hc, hsz⟩ |
    ⟨b0, b1, rest, hs, h1, h2, h3, h4, hc, hsz⟩ |
    ⟨b0, b1, b2, rest, hs, h1, h2, h3, h4, h5, h6, hc, hsz⟩ |
    ⟨b0, b1, b2, b3, rest, hs, h1, h2, h3, h4, h5, h6, h7, h8, hc, hsz⟩
  · subst hs hsz
    intro x hx
    simp only [List.take_succ_cons, List.take_zero, List.mem_cons, List.mem_nil_iff,
      or_false] at hx
    omega
  · subst hs hsz
    intro x hx
    simp only [List.take_succ_cons, List.take_zero, List.mem_cons, List.mem_nil_iff,
      or_false] at hx
    omega
  · subst hs hsz
    intro x hx
    simp only [List.take_succ_cons, List.take_zero, List.mem_cons, List.mem_nil_iff,
      or_false] at hx
    split_ifs at h4 <;> omega
  · subst hs hsz
    intro x hx
    simp only [List.take_succ_cons, List.take_zero, List.mem_cons, List.mem_nil_iff,
      or_false] at hx
    split_ifs at h4 <;> omega

theorem escapeByte_bytes (b : Nat) (hb : b < 128) : ∀ x ∈ escapeByte b, x < 256 := by
  intro x hx
  have h1 := hexChar_lt (b / 16) (by omega)
  have h2 := hexChar_lt (b % 16) (by omega)
  unfold escapeByte at hx
  split_ifs at hx <;>
    simp only [List.mem_cons, List.mem_nil_iff, or_false] at hx <;> omega

/-- Every step of `appendString` writes bytes. -/
theorem quoteStep_bytes (b : Nat) (rest : GoString) : ∀ x ∈ (quoteStep b rest).1, x < 256 := by
  unfold quoteStep
  by_cases hb : b < 128
  · rw [if_pos hb]
    by_cases hs : htmlSafe b = true
    · rw [if_pos hs]
      intro x hx
      simp only [List.mem_singleton] at hx
      omega
    · rw [if_neg hs]
      exact escapeByte_bytes b hb
  · rw [if_neg hb]
    cases hd : decodeRune (b :: rest) with
    | none =>
      intro x hx
      simp only [List.mem_cons, List.mem_nil_iff, or_false] at hx
      omega
    | some cs =>
      obtain ⟨c, size⟩ := cs
      simp only
      by_cases hc : c = 8232 ∨ c = 8233
      · rw [if_pos hc]
        intro x hx
        have := hexChar_lt (c % 16) (by omega)
        simp only [List.mem_cons, List.mem_nil_iff, or_false] at hx
        omega
      · rw [if_neg hc]
        exact decodeRune_bytes _ c size hd

theorem quoteBody_bytes : ∀ (fuel : Nat) (s : GoString), ∀ x ∈ quoteBody fuel s, x < 256
  | fuel, [] => by
    intro x hx
    cases fuel <;> simp [quoteBody] at hx
  | 0, b :: rest => by
    intro x hx
    simp [quoteBody] at hx
  | fuel + 1, b :: rest => by
    intro x hx
    rw [quoteBody, List.mem_append] at hx
    rcases hx with hx | hx
    · exact quoteStep_bytes b rest x hx
    · exact quoteBody_bytes fuel _ x hx

theorem base64Encode_ne_nil (a : Nat) (rest : GoString) : base64Encode (a :: rest) ≠ [] := by
  match rest with
  | [] => simp [base64Encode]
  | [b] => simp [base64Encode]
  | b :: c :: more => simp [base64Encode]

/-- The parser on the text `json.Marshal` writes for a cursor: an object of two members,
the timestamp text under `c` and the quoted identifier under `i`. -/
theorem parseValue_cursor (fuel : Nat) (ts qb : GoString) (hfuel : 3 ≤ fuel)
    (hts : ∀ c ∈ ts, c ≠ 34 ∧ c ≠ 92 ∧ 32 ≤ c)
    (hqb : ∀ tail, scanString (qb ++ 34 :: tail) = some (qb, tail)) :
    parseValue fuel 0 (123 :: 34 :: 99 :: 34 :: 58 :: 34 :: (ts ++ 34 :: 44 :: 34 ::
      105 :: 34 :: 58 :: 34 :: (qb ++ [34, 125]))) =
      some (.obj [([99], .str ts), ([105], .str qb)], []) := by
  obtain ⟨k, rfl⟩ : ∃ k, fuel = k + 3 := ⟨fuel - 3, by omega⟩
  have k1 : ∀ tail, scanString (99 :: 34 :: tail) = some ([99], tail) :=
    fun tail => scanString_plain [99] tail (by decide)
  have k2 : ∀ tail, scanString (105 :: 34 :: tail) = some ([105], tail) :=
    fun tail => scanString_plain [105] tail (by decide)
  simp [parseValue, skipWs, parseMember, memberLoop, k1, k2, scanString_plain ts _ hts, hqb,
    maxNestingDepth, JVal.shape]

/-- The parser on the whole output of `json.Marshal` for a cursor. -/
theorem parseJSON_marshal (ts id : GoString) (hts : ∀ c ∈ ts, c ≠ 34 ∧ c ≠ 92 ∧ 32 ≤ c) :
    parseJSON ([123, 34, 99, 34, 58, 34] ++ ts ++ [34, 44, 34, 105, 34, 58] ++ jsonQuote id ++
      [125]) = some (.obj [([99], .str ts), ([105], .str (quoteBody id.length id))]) := by
  have hshape : [123, 34, 99, 34, 58, 34] ++ ts ++ [34, 44, 34, 105, 34, 58] ++ jsonQuote id ++
      [125] = 123 :: 34 :: 99 :: 34 :: 58 :: 34 :: (ts ++ 34 :: 44 :: 34 ::
      105 :: 34 :: 58 :: 34 :: (quoteBody id.length id ++ [34, 125])) := by
    simp [jsonQuote]
  rw [hshape]
  unfold parseJSON
  rw [show skipWs (123 :: 34 :: 99 :: 34 :: 58 :: 34 :: (ts ++ 34 :: 44 :: 34 ::
      105 :: 34 :: 58 :: 34 :: (quoteBody id.length id ++ [34, 125]))) = 123 :: 34 :: 99 :: 34 ::
      58 :: 34 :: (ts ++ 34 :: 44 :: 34 :: 105 :: 34 :: 58 :: 34 ::
      (quoteBody id.length id ++ [34, 125])) from by simp [skipWs]]
  rw [parseValue_cursor _ ts _ (by simp only [List.length_cons]; omega) hts
    (scanString_quoteBody id.length id)]
  rfl

/-- The marshalled cursor consists of bytes. -/
theorem marshal_bytes (ts id : GoString) (hts : ∀ c ∈ ts, c < 128) :
    ∀ b ∈ [123, 34, 99, 34, 58, 34] ++ ts ++ [34, 44, 34, 105, 34, 58] ++ jsonQuote id ++ [125],
      b < 256 := by
  intro b hb
  simp only [jsonQuote, List.mem_append, List.mem_cons, List.mem_nil_iff, or_false,
    or_assoc] at hb
  rcases hb with h | h | h | h | h | h | h | h | h | h | h | h | h | h | h | h | h | h
  any_goals omega
  · have := hts b h; omega
  · exact quoteBody_bytes _ _ b h

/-- Storing the two members of a marshalled cursor. -/
theorem decodeMembers_cursor (cur : Cursor) (ts qb : GoString) (t : Time) (id : GoString)
    (hparse : parseRFC3339 ts = some t) (hunq : jsonUnquote qb = some id) :
    decodeMembers cur [([99], .str ts), ([105], .str qb)] = .ok ⟨t, id⟩ := by
  have hstrict : parseStrictRFC3339 ts = some t := by
    unfold parseStrictRFC3339
    rw [hparse]
  simp only [decodeMembers, decodeMember, show jsonUnquote [99] = some [99] from rfl,
    show jsonUnquote [105] = some [105] from rfl, show cursorField [99] = some 0 from rfl,
    show cursorField [105] = some 1 from rfl, hstrict, hunq]

/-- What `EncodeCursor` returns when the timestamp can be serialised. -/
theorem encodeCursor_ok (c : Cursor) (ts : GoString) (hts : formatRFC3339 c.CreatedAt = some ts) :
    EncodeCursor c = .ok (base64Encode ([123, 34, 99, 34, 58, 34] ++ ts ++
      [34, 44, 34, 105, 34, 58] ++ jsonQuote c.ID ++ [125])) := by
  unfold EncodeCursor jsonMarshalCursor
  rw [hts]

/-- What `DecodeCursor` returns on base64url text of an object that decodes. -/
theorem decodeCursor_ok (token data : GoString) (members : List (GoString × JShape))
    (c : Cursor) (hne : token ≠ []) (hb64 : base64Decode token = some data)
    (hjson : parseJSON data = some (.obj members))
    (hdec : decodeMembers ⟨Time.zero, []⟩ members = .ok c) :
    DecodeCursor token = .ok (some c) := by
  simp only [DecodeCursor, if_neg hne, hb64, jsonUnmarshalCursor, hjson, hdec]

/-- C1 as amended: the round trip holds for the cursors that JSON can carry.  For every
cursor whose timestamp has its local year within 0..9999 and a zone offset of whole minutes
below 24 hours, and whose id is well-formed UTF-8, `EncodeCursor` succeeds and
`DecodeCursor` on its output returns, without error, the same cursor (same instant, same
offset, same id). -/
theorem cursor_roundtrip (c : Cursor)
    (hyear : 0 ≤ c.CreatedAt.year ∧ c.CreatedAt.year ≤ 9999)
    (hzone : -86400 < c.CreatedAt.offset ∧ c.CreatedAt.offset < 86400)
    (hmin : c.CreatedAt.offset % 60 = 0) (hid : validUTF8 c.ID = true) :
    ∃ token, EncodeCursor c = .ok token ∧ DecodeCursor token = .ok (some c) := by
  obtain ⟨ts, hts⟩ := formatRFC3339_isSome c.CreatedAt hyear hzone
  have hplain := formatRFC3339_plain _ ts hts
  have hparse := parseRFC3339_formatRFC3339 _ ts hts hmin
  have hunq := jsonUnquote_quoteBody c.ID hid
  have hjson := parseJSON_marshal ts c.ID
    fun x hx => ⟨(hplain x hx).1, (hplain x hx).2.1, (hplain x hx).2.2.1⟩
  have hb64 := base64_roundtrip _ (marshal_bytes ts c.ID fun x hx => (hplain x hx).2.2.2)
  have hne := base64Encode_ne_nil 123 ([34, 99, 34, 58, 34] ++ ts ++ [34, 44, 34, 105, 34, 58] ++
    jsonQuote c.ID ++ [125])
  have hdec := decodeMembers_cursor ⟨Time.zero, []⟩ ts (quoteBody c.ID.length c.ID)
    c.CreatedAt c.ID hparse hunq
  exact ⟨_, encodeCursor_ok c ts hts, decodeCursor_ok _ _ _ c hne hb64 hjson hdec⟩

/-- Counterexample to C1 as stated, in two cursors that can be serialised.  An id that is
not well-formed UTF-8 (the single byte `0xFF`) comes back as the three bytes of U+FFFD;
a timestamp whose zone offset is 30 seconds comes back 30 seconds later, as the zone is
written in hours and minutes only. -/
theorem cursor_roundtrip_counterexample :
    (EncodeCursor ⟨Time.zero, [255]⟩ =
        .ok (ascii "eyJjIjoiMDAwMS0wMS0wMVQwMDowMDowMFoiLCJpIjoiXHVmZmZkIn0=") ∧
      DecodeCursor (ascii "eyJjIjoiMDAwMS0wMS0wMVQwMDowMDowMFoiLCJpIjoiXHVmZmZkIn0=") =
        .ok (some ⟨Time.zero, [239, 191, 189]⟩)) ∧
    (Time.year ⟨0, 30⟩ = 1 ∧
      EncodeCursor ⟨⟨0, 30⟩, ascii "A"⟩ =
        .ok (ascii "eyJjIjoiMDAwMS0wMS0wMVQwMDowMDozMCswMDowMCIsImkiOiJBIn0=") ∧
      DecodeCursor (ascii "eyJjIjoiMDAwMS0wMS0wMVQwMDowMDozMCswMDowMCIsImkiOiJBIn0=") =
        .ok (some ⟨⟨30000000000, 0⟩, ascii "A"⟩)) :=
  ⟨⟨rfl, rfl⟩, rfl, rfl, rfl⟩

/-- Witness for the amended C1: a cursor at 2024-01-01T00:00:00.5+01:00 with the id
`m-é`. -/
theorem cursor_roundtrip_witness :
    ∃ token, EncodeCursor ⟨⟨63839674800500000000, 3600⟩, [109, 45, 195, 169]⟩ = .ok token ∧
      DecodeCursor token = .ok (some ⟨⟨63839674800500000000, 3600⟩, [109, 45, 195, 169]⟩) :=
  cursor_roundtrip ⟨⟨63839674800500000000, 3600⟩, [109, 45, 195, 169]⟩
    (by decide) (by decide) (by decide) (by decide)

/-! ## Rating validity -/

/-- The loop of `isValidRating` finds exactly the entries of the table. -/
theorem ratingIn_iff (r : ℚ) (table : List ℚ) : ratingIn r table = true ↔ r ∈ table := by
  induction table with
  | nil => simp [ratingIn]
  | cons v rest ih =>
    simp only [ratingIn, List.mem_cons]
    by_cases h : r = v
    · simp [h]
    · simp [h, ih]

/-- The accepted values are the halves `k/2` for `k` from 1 to 10. -/
theorem isValidRating_iff (r : ℚ) :
    isValidRating r = true ↔ ∃ k : ℤ, 1 ≤ k ∧ k ≤ 10 ∧ r = k / 2 := by
  rw [isValidRating, ratingIn_iff]
  constructor
  · intro h
    simp only [validRatings, List.mem_cons, List.mem_singleton, List.mem_nil_iff,
      or_false] at h
    rcases h with h | h | h | h | h | h | h | h | h | h
    · exact ⟨1, by norm_num, by norm_num, by rw [h]; norm_num⟩
    · exact ⟨2, by norm_num, by norm_num, by rw [h]; norm_num⟩
    · exact ⟨3, by norm_num, by norm_num, by rw [h]; norm_num⟩
    · exact ⟨4, by norm_num, by norm_num, by rw [h]; norm_num⟩
    · exact ⟨5, by norm_num, by norm_num, by rw [h]; norm_num⟩
    · exact ⟨6, by norm_num, by norm_num, by rw [h]; norm_num⟩
    · exact ⟨7, by norm_num, by norm_num, by rw [h]; norm_num⟩
    · exact ⟨8, by norm_num, by norm_num, by rw [h]; norm_num⟩
    · exact ⟨9, by norm_num, by norm_num, by rw [h]; norm_num⟩
    · exact ⟨10, by norm_num, by norm_num, by rw [h]; norm_num⟩
  · rintro ⟨k, h1, h2, rfl⟩
    interval_cases k <;> norm_num [validRatings]

/-- An invalid rating is answered 422 with no store call, whatever the store holds. -/
theorem submitRating_invalid {σ : Type} (M : StoreOps σ) (R : RatingStoreOps σ)
    (title raterID : GoString) (r : ℚ) (st : σ) (htitle : title ≠ [])
    (hr : isValidRating r = false) :
    RatingHandler.SubmitRating M R title raterID (some ⟨r⟩) st =
      ⟨422, .error "BAD_REQUEST" "rating must be in [0.5, 1.0, ..., 5.0]", st, []⟩ := by
  unfold RatingHandler.SubmitRating
  rw [if_neg htitle]
  simp only [hr, Bool.not_false, if_true]

/-- A valid rating is never answered 422. -/
theorem submitRating_valid {σ : Type} (M : StoreOps σ) (R : RatingStoreOps σ)
    (title raterID : GoString) (r : ℚ) (st : σ) (hr : isValidRating r = true) :
    (RatingHandler.SubmitRating M R title raterID (some ⟨r⟩) st).status ≠ 422 := by
  unfold RatingHandler.SubmitRating
  by_cases htitle : title = []
  · rw [if_pos htitle]; simp
  rw [if_neg htitle]
  simp only [hr, Bool.not_true, Bool.false_eq_true, if_false]
  cases M.getByTitle st title with
  | error e => simp
  | ok found =>
    cases found with
    | none => simp
    | some movie =>
      simp only
      cases R.existsRating st movie.ID raterID with
      | error e => simp
      | ok had =>
        simp only
        rcases hu : R.upsert st ⟨movie.ID, raterID, r, Time.zero⟩ with ⟨err, st1⟩
        cases err with
        | some e => simp
        | none => cases had <;> simp

/-- C11: rating validity.  `isValidRating r` holds exactly when `r = k/2` for an integer
`k` with `1 ≤ k ≤ 10`.  On a request with a title and a body that decodes to the rating
`r`, `SubmitRating` answers 422 exactly when `r` is not such a value, whatever the stores
return; 0.3, 5.5 and -1 are among the rejected values. -/
theorem rating_validity {σ : Type} (M : StoreOps σ) (R : RatingStoreOps σ)
    (title raterID : GoString) (r : ℚ) (st : σ) (htitle : title ≠ []) :
    (isValidRating r = true ↔ ∃ k : ℤ, 1 ≤ k ∧ k ≤ 10 ∧ r = k / 2) ∧
    ((RatingHandler.SubmitRating M R title raterID (some ⟨r⟩) st).status = 422 ↔
      ¬ ∃ k : ℤ, 1 ≤ k ∧ k ≤ 10 ∧ r = k / 2) ∧
    isValidRating 0.3 = false ∧ isValidRating 5.5 = false ∧ isValidRating (-1) = false := by
  refine ⟨isValidRating_iff r, ?_, ?_, ?_, ?_⟩
  · rw [← isValidRating_iff]
    constructor
    · intro h hv
      exact submitRating_valid M R title raterID r st hv h
    · intro hv
      rw [submitRating_invalid M R title raterID r st htitle (by simpa using hv)]
  · norm_num [isValidRating, ratingIn, validRatings]
  · norm_num [isValidRating, ratingIn, validRatings]
  · norm_num [isValidRating, ratingIn, validRatings]

/-- Witness for C11: the rating 0.3 for the title "Nova" against the empty database is
answered 422, and the rating 4.5 is not. -/
theorem rating_validity_witness :
    (RatingHandler.SubmitRating ratingMovieStore memRatingStore (ascii "Nova") (ascii "u1")
      (some ⟨0.3⟩) ⟨emptyDB, []⟩).status = 422 :=
  (rating_validity ratingMovieStore memRatingStore (ascii "Nova") (ascii "u1") 0.3
    ⟨emptyDB, []⟩ (by decide)).2.1.mpr (by
      rintro ⟨k, h1, h2, h⟩
      interval_cases k <;> norm_num at h)
/-! ## Rating submission -/

/-- The first submission for a movie and rater without a rating: 201, and the row is
appended to the table. -/
theorem submitRating_new (db : RatingDB) (movie : Movie) (title raterID : GoString) (v : ℚ)
    (htitle : title ≠ []) (hmovie : db.base.getByTitle title = .ok (some movie))
    (hv : isValidRating v = true)
    (hnew : ∀ r ∈ db.ratings, Rating.hasKey movie.ID raterID r = false) :
    (RatingHandler.SubmitRating ratingMovieStore memRatingStore title raterID (some ⟨v⟩)
        db).status = 201 ∧
    (RatingHandler.SubmitRating ratingMovieStore memRatingStore title raterID (some ⟨v⟩)
        db).store =
      { db with ratings := db.ratings ++ [⟨movie.ID, raterID, v, db.base.clock⟩] } := by
  have hfilter : db.ratings.filter (Rating.hasKey movie.ID raterID) = [] := by
    rw [List.filter_eq_nil_iff]
    intro r hr
    rw [hnew r hr]
    decide
  have hany : db.ratings.any (Rating.hasKey movie.ID raterID) = false := by
    rw [List.any_eq_false]
    intro r hr
    rw [hnew r hr]
    decide
  unfold RatingHandler.SubmitRating
  rw [if_neg htitle]
  simp only [hv, Bool.not_true, Bool.false_eq_true, if_false, ratingMovieStore, hmovie,
    memRatingStore, RatingDB.existsRating, hfilter, RatingDB.upsert, hany]
  simp

/-- A further submission for a movie and rater whose rating is the last row of the table:
200, and the value of that row is overwritten. -/
theorem submitRating_again (db : RatingDB) (rows : List Rating) (movie : Movie)
    (title raterID : GoString) (v0 v : ℚ) (t : Time)
    (htitle : title ≠ []) (hmovie : db.base.getByTitle title = .ok (some movie))
    (hv : isValidRating v = true)
    (hrows : db.ratings = rows ++ [⟨movie.ID, raterID, v0, t⟩])
    (hnew : ∀ r ∈ rows, Rating.hasKey movie.ID raterID r = false) :
    (RatingHandler.SubmitRating ratingMovieStore memRatingStore title raterID (some ⟨v⟩)
        db).status = 200 ∧
    (RatingHandler.SubmitRating ratingMovieStore memRatingStore title raterID (some ⟨v⟩)
        db).store =
      { db with ratings := rows ++ [⟨movie.ID, raterID, v, db.base.clock⟩] } := by
  have hkey : Rating.hasKey movie.ID raterID ⟨movie.ID, raterID, v0, t⟩ = true := by
    simp [Rating.hasKey]
  have hfilter : (rows.filter (Rating.hasKey movie.ID raterID)) = [] := by
    rw [List.filter_eq_nil_iff]
    intro r hr
    rw [hnew r hr]
    decide
  have hmap : rows.map (fun r => if Rating.hasKey movie.ID raterID r = true then
      ({ r with Value := v, UpdatedAt := db.base.clock } : Rating) else r) = rows := by
    conv_rhs => rw [← List.map_id rows]
    apply List.map_congr_left
    intro r hr
    rw [hnew r hr]
    rfl
  unfold RatingHandler.SubmitRating
  rw [if_neg htitle]
  simp only [hv, Bool.not_true, Bool.false_eq_true, if_false, ratingMovieStore, hmovie,
    memRatingStore, RatingDB.existsRating, RatingDB.upsert, hrows, List.filter_append, hfilter,
    List.any_append, List.map_append, hmap]
  simp [hkey, List.filter]

/-- C12: rating submission is an overwrite keyed by (movie, rater).  For a movie that
exists under `title`, a rater without a rating for it, and valid values `v1`, `v2`: the
first `SubmitRating` answers 201 and the second 200; afterwards the table holds exactly
one row for the pair, with value `v2`, the rows of other pairs are the rows from before,
and the other tables are unchanged. -/
theorem rating_overwrite (db : RatingDB) (movie : Movie) (title raterID : GoString)
    (v1 v2 : ℚ) (htitle : title ≠ [])
    (hmovie : db.base.getByTitle title = .ok (some movie))
    (hv1 : isValidRating v1 = true) (hv2 : isValidRating v2 = true)
    (hnew : ∀ r ∈ db.ratings, Rating.hasKey movie.ID raterID r = false) :
    (RatingHandler.SubmitRating ratingMovieStore memRatingStore title raterID (some ⟨v1⟩)
      db).status = 201 ∧
    (RatingHandler.SubmitRating ratingMovieStore memRatingStore title raterID (some ⟨v2⟩)
      (RatingHandler.SubmitRating ratingMovieStore memRatingStore title raterID (some ⟨v1⟩)
        db).store).status = 200 ∧
    (RatingHandler.SubmitRating ratingMovieStore memRatingStore title raterID (some ⟨v2⟩)
      (RatingHandler.SubmitRating ratingMovieStore memRatingStore title raterID (some ⟨v1⟩)
        db).store).store.ratings.filter (Rating.hasKey movie.ID raterID) =
      [⟨movie.ID, raterID, v2, db.base.clock⟩] ∧
    (RatingHandler.SubmitRating ratingMovieStore memRatingStore title raterID (some ⟨v2⟩)
      (RatingHandler.SubmitRating ratingMovieStore memRatingStore title raterID (some ⟨v1⟩)
        db).store).store.ratings.filter (fun r => !Rating.hasKey movie.ID raterID r) =
      db.ratings ∧
    (RatingHandler.SubmitRating ratingMovieStore memRatingStore title raterID (some ⟨v2⟩)
      (RatingHandler.SubmitRating ratingMovieStore memRatingStore title raterID (some ⟨v1⟩)
        db).store).store.base = db.base := by
  obtain ⟨s1, e1⟩ := submitRating_new db movie title raterID v1 htitle hmovie hv1 hnew
  obtain ⟨s2, e2⟩ := submitRating_again
    { db with ratings := db.ratings ++ [⟨movie.ID, raterID, v1, db.base.clock⟩] } db.ratings
    movie title raterID v1 v2 db.base.clock htitle hmovie hv2 rfl hnew
  rw [e1]
  refine ⟨s1, s2, ?_, ?_, ?_⟩
  · rw [e2]
    have hfilter : db.ratings.filter (Rating.hasKey movie.ID raterID) = [] := by
      rw [List.filter_eq_nil_iff]
      intro r hr
      rw [hnew r hr]
      decide
    simp [List.filter_append, hfilter, List.filter, Rating.hasKey]
  · rw [e2]
    have hfilter : db.ratings.filter (fun r => !Rating.hasKey movie.ID raterID r) =
        db.ratings := by
      rw [List.filter_eq_self]
      intro r hr
      rw [hnew r hr]
      rfl
    show (db.ratings ++ [_]).filter (fun r => !Rating.hasKey movie.ID raterID r) = db.ratings
    rw [List.filter_append, hfilter]
    simp [List.filter, Rating.hasKey]
  · rw [e2]

/-- Witness for C12: rater `u1` rates "Nova" 4.5 and then 2: the answers are 201 and 200. -/
theorem rating_overwrite_witness :
    (RatingHandler.SubmitRating ratingMovieStore memRatingStore (ascii "Nova") (ascii "u1")
      (some ⟨4.5⟩) novaRatingDB).status = 201 ∧
    (RatingHandler.SubmitRating ratingMovieStore memRatingStore (ascii "Nova") (ascii "u1")
      (some ⟨2⟩) (RatingHandler.SubmitRating ratingMovieStore memRatingStore (ascii "Nova")
        (ascii "u1") (some ⟨4.5⟩) novaRatingDB).store).status = 200 :=
  have h := rating_overwrite novaRatingDB novaStoredRow (ascii "Nova") (ascii "u1") 4.5 2
    (by decide) rfl (by norm_num [isValidRating, ratingIn, validRatings])
    (by norm_num [isValidRating, ratingIn, validRatings]) (by decide)
  ⟨h.1, h.2.1⟩

/-! ## Validation before storage -/

/-- The store calls of the tail of `List`: one query with the filters, then only reloads
of box-office rows. -/
theorem listWith_calls {σ : Type} (S : StoreOps σ) (filters : ListFilters) (st : σ) :
    ∃ rest, (listWith S filters st).calls = .listMovies filters :: rest ∧
      ∀ f, StoreCall.listMovies f ∉ rest := by
  unfold listWith
  cases S.listMovies st filters with
  | error e => exact ⟨[], rfl, by simp⟩
  | ok res =>
    obtain ⟨movies, next⟩ := res
    exact ⟨_, rfl, by simp⟩

/-- What `List` does, by the outcome of parsing the four checked parameters: a rejection
with 400 and no store access when one of them fails, or the tail of the handler on the
parsed values. -/
theorem list_cases {σ : Type} (S : StoreOps σ) (q : ListQuery) (st : σ) :
    ((MovieHandler.List S q st).status = 400 ∧ (MovieHandler.List S q st).calls = [] ∧
        (MovieHandler.List S q st).store = st ∧
        ((if q.year = [] then some none else (atoi q.year).map some) = none ∨
          (if q.budget = [] then some none else (atoi q.budget).map some) = none ∨
          (if q.limit = [] then some 20
            else (atoi q.limit).bind fun l => if l < 1 then none else some l) = none ∨
          ∃ e, (if q.cursor = [] then Except.ok none else DecodeCursor q.cursor) = .error e)) ∨
    ∃ year budget limit cursor,
      (if q.year = [] then some none else (atoi q.year).map some) = some year ∧
      (if q.budget = [] then some none else (atoi q.budget).map some) = some budget ∧
      (if q.limit = [] then some 20
        else (atoi q.limit).bind fun l => if l < 1 then none else some l) = some limit ∧
      (if q.cursor = [] then Except.ok none else DecodeCursor q.cursor) = .ok cursor ∧
      MovieHandler.List S q st = listWith S
        { Query := q.q, Year := year, Genre := q.genre, Distributor := q.distributor,
          Budget := budget, MPARating := q.mpaRating, Limit := limit, Cursor := cursor } st := by
  unfold MovieHandler.List
  generalize (if q.year = [] then some none else (atoi q.year).map some) = Y
  generalize (if q.budget = [] then some none else (atoi q.budget).map some) = B
  generalize (if q.limit = [] then some 20
    else (atoi q.limit).bind fun l => if l < 1 then none else some l) = L
  generalize (if q.cursor = [] then Except.ok none else DecodeCursor q.cursor) = C
  cases Y with
  | none => exact Or.inl ⟨rfl, rfl, rfl, Or.inl rfl⟩
  | some year =>
    cases B with
    | none => exact Or.inl ⟨rfl, rfl, rfl, Or.inr (Or.inl rfl)⟩
    | some budget =>
      cases L with
      | none => exact Or.inl ⟨rfl, rfl, rfl, Or.inr (Or.inr (Or.inl rfl))⟩
      | some limit =>
        cases C with
        | error e => exact Or.inl ⟨rfl, rfl, rfl, Or.inr (Or.inr (Or.inr ⟨e, rfl⟩))⟩
        | ok cursor => exact Or.inr ⟨year, budget, limit, cursor, rfl, rfl, rfl, rfl, rfl⟩

/-- The limit check of `List` passes exactly an absent limit, as 20, and a text that
`strconv.Atoi` reads as an integer of at least 1, as that integer. -/
theorem limit_parse (text : GoString) (limit : Int) :
    (if text = [] then some 20
      else (atoi text).bind fun l => if l < 1 then none else some l) = some limit ↔
    (text = [] ∧ limit = 20) ∨ (text ≠ [] ∧ atoi text = some limit ∧ 1 ≤ limit) := by
  by_cases h : text = []
  · simp [h, eq_comm]
  · rw [if_neg h]
    cases ha : atoi text with
    | none => simp [h]
    | some l =>
      show (if l < 1 then none else some l) = some limit ↔ _
      by_cases hl : l < 1
      · rw [if_pos hl]
        constructor
        · intro hx; cases hx
        · rintro (⟨h1, _⟩ | ⟨_, h2, h3⟩)
          · exact absurd h1 h
          · cases h2; omega
      · rw [if_neg hl]
        constructor
        · intro hx
          cases hx
          exact Or.inr ⟨h, rfl, by omega⟩
        · rintro (⟨h1, _⟩ | ⟨_, h2, _⟩)
          · exact absurd h1 h
          · rw [h2]

/-- The limit check of `List` fails exactly on a present text that `strconv.Atoi` does not
read as an integer of at least 1. -/
theorem limit_parse_none (text : GoString) :
    (if text = [] then some 20
      else (atoi text).bind fun l => if l < 1 then none else some l) = none ↔
    text ≠ [] ∧ ∀ l, atoi text = some l → l < 1 := by
  by_cases h : text = []
  · simp [h]
  · rw [if_neg h]
    cases ha : atoi text with
    | none => simp [h]
    | some l =>
      by_cases hl : l < 1
      · simp [h, hl]
      · simp [h, hl]

/-- C13: limit handling in the `List` handler.  Every query that reaches
`MovieStore.List` carries limit 20 when the `limit` parameter is absent or empty, and
otherwise the integer of at least 1 that the parameter text parses to.  A present `limit`
that does not parse as an integer of at least 1 is answered 400 without any store call.
When the other parameters are accepted, the store is queried, first and once, with the
filters holding exactly that limit, which the store's own default leaves as it is, and the
answer is built from what the store returns for these filters: 500 for an error, and for
rows and a cursor 200 with these rows, their box-office data reloaded, and the encoded
cursor. -/
theorem list_limit_handling {σ : Type} (S : StoreOps σ) (q : ListQuery) (st : σ) :
    (∀ f, StoreCall.listMovies f ∈ (MovieHandler.List S q st).calls →
      (q.limit = [] ∧ f.Limit = 20) ∨
        (q.limit ≠ [] ∧ atoi q.limit = some f.Limit ∧ 1 ≤ f.Limit)) ∧
    (q.limit ≠ [] → (∀ l, atoi q.limit = some l → l < 1) →
      (MovieHandler.List S q st).status = 400 ∧ (MovieHandler.List S q st).calls = [] ∧
        (MovieHandler.List S q st).store = st) ∧
    (∀ year budget cursor limit,
      (if q.year = [] then some none else (atoi q.year).map some) = some year →
      (if q.budget = [] then some none else (atoi q.budget).map some) = some budget →
      (if q.cursor = [] then Except.ok none else DecodeCursor q.cursor) = .ok cursor →
      ((q.limit = [] ∧ limit = 20) ∨ (q.limit ≠ [] ∧ atoi q.limit = some limit ∧ 1 ≤ limit)) →
      effectiveLimit limit = limit ∧
      (∃ rest, (MovieHandler.List S q st).calls =
        .listMovies ⟨q.q, year, q.genre, q.distributor, budget, q.mpaRating, limit,
          cursor⟩ :: rest ∧
        ∀ f, StoreCall.listMovies f ∉ rest) ∧
      (∀ e, S.listMovies st ⟨q.q, year, q.genre, q.distributor, budget, q.mpaRating, limit,
          cursor⟩ = .error e →
        (MovieHandler.List S q st).status = 500 ∧
        (MovieHandler.List S q st).calls = [.listMovies ⟨q.q, year, q.genre, q.distributor,
          budget, q.mpaRating, limit, cursor⟩]) ∧
      (∀ movies next, S.listMovies st ⟨q.q, year, q.genre, q.distributor, budget,
          q.mpaRating, limit, cursor⟩ = .ok (movies, next) →
        (MovieHandler.List S q st).status = 200 ∧
        (MovieHandler.List S q st).body =
          .movieList (movies.map fun m => attachBoxOffice m (S.getBoxOffice st m.ID))
            (next.map fun c =>
              match EncodeCursor c with
              | .ok encoded => encoded
              | .error _ => []) ∧
        (MovieHandler.List S q st).calls =
          .listMovies ⟨q.q, year, q.genre, q.distributor, budget, q.mpaRating, limit,
            cursor⟩ :: movies.map fun m => .getBoxOffice m.ID)) := by
  refine ⟨?_, ?_, ?_⟩
  · intro f hf
    rcases list_cases S q st with ⟨_, hc, _⟩ | ⟨year, budget, limit, cursor, _, _, hl, _, he⟩
    · rw [hc] at hf; cases hf
    · rw [he] at hf
      obtain ⟨rest, hcalls, hrest⟩ := listWith_calls S
        { Query := q.q, Year := year, Genre := q.genre, Distributor := q.distributor,
          Budget := budget, MPARating := q.mpaRating, Limit := limit, Cursor := cursor } st
      rw [hcalls, List.mem_cons] at hf
      rcases hf with hf | hf
      · injection hf with hf
        subst hf
        exact (limit_parse q.limit limit).mp hl
      · exact absurd hf (hrest f)
  · intro hne hbad
    rcases list_cases S q st with ⟨h1, h2, h3, _⟩ | ⟨year, budget, limit, cursor, _, _, hl, _, _⟩
    · exact ⟨h1, h2, h3⟩
    · have hnone := (limit_parse_none q.limit).mpr ⟨hne, hbad⟩
      rw [hnone] at hl
      cases hl
  · intro year budget cursor limit hy hb hc hl
    have hl1 := (limit_parse q.limit limit).mpr hl
    have he : MovieHandler.List S q st = listWith S
        { Query := q.q, Year := year, Genre := q.genre, Distributor := q.distributor,
          Budget := budget, MPARating := q.mpaRating, Limit := limit, Cursor := cursor }
        st := by
      unfold MovieHandler.List
      rw [hy, hb, hl1, hc]
    refine ⟨?_, ?_, ?_, ?_⟩
    · unfold effectiveLimit
      rw [if_neg]
      rcases hl with ⟨_, h⟩ | ⟨_, _, h⟩ <;> omega
    · rw [he]
      exact listWith_calls S _ st
    · intro e hres
      rw [he]
      unfold listWith
      rw [hres]
      exact ⟨rfl, rfl⟩
    · intro movies next hres
      rw [he]
      unfold listWith
      rw [hres]
      exact ⟨rfl, rfl, rfl⟩

/-- Witness for C13: against a database of three movies, `limit=2` queries the store with
limit 2 and the answer holds the first two rows in the order of the query; against the
empty database no `limit` queries the store with 20, and `limit=0` is answered 400 with
no store call. -/
theorem list_limit_handling_witness :
    ((MovieHandler.List memStore ⟨[], [], [], [], [], [], ascii "2", []⟩
        { emptyDB with movies := [sampleRow [66] 5, sampleRow [65] 5, sampleRow [67] 2] }).status =
          200 ∧
      (MovieHandler.List memStore ⟨[], [], [], [], [], [], ascii "2", []⟩
        { emptyDB with movies := [sampleRow [66] 5, sampleRow [65] 5, sampleRow [67] 2] }).body =
          .movieList [sampleRow [67] 2, sampleRow [65] 5]
            (some (ascii "eyJjIjoiMDAwMS0wMS0wMVQwMDowMDowMC4wMDAwMDAwMDVaIiwiaSI6IkEifQ==")) ∧
      (MovieHandler.List memStore ⟨[], [], [], [], [], [], ascii "2", []⟩
        { emptyDB with movies := [sampleRow [66] 5, sampleRow [65] 5, sampleRow [67] 2] }).calls =
          [.listMovies ⟨[], none, [], [], none, [], 2, none⟩, .getBoxOffice [67],
            .getBoxOffice [65]]) ∧
    (MovieHandler.List memStore ⟨[], [], [], [], [], [], [], []⟩ emptyDB).calls =
      [.listMovies ⟨[], none, [], [], none, [], 20, none⟩] ∧
    (MovieHandler.List memStore ⟨[], [], [], [], [], [], ascii "0", []⟩ emptyDB).status = 400 ∧
    (MovieHandler.List memStore ⟨[], [], [], [], [], [], ascii "0", []⟩ emptyDB).calls = [] :=
  have h0 := (list_limit_handling memStore ⟨[], [], [], [], [], [], ascii "0", []⟩ emptyDB).2.1
    (by decide) (by intro l hl; cases hl; decide)
  have h2 := ((list_limit_handling memStore ⟨[], [], [], [], [], [], ascii "2", []⟩
    { emptyDB with movies := [sampleRow [66] 5, sampleRow [65] 5, sampleRow [67] 2] }).2.2
    none none none 2 rfl rfl rfl (Or.inr ⟨by decide, rfl, by decide⟩)).2.2.2
    [sampleRow [67] 2, sampleRow [65] 5] (some ⟨⟨5, 0⟩, [65]⟩) rfl
  ⟨⟨h2.1, h2.2.1.trans rfl, h2.2.2⟩, rfl, h0.1, h0.2.1⟩

/-- The four parameter checks of `List`, read on the parameters themselves. -/
theorem list_rejected {σ : Type} (S : StoreOps σ) (q : ListQuery) (st : σ)
    (hbad : (q.year ≠ [] ∧ atoi q.year = none) ∨ (q.budget ≠ [] ∧ atoi q.budget = none) ∨
      (q.limit ≠ [] ∧ ∀ l, atoi q.limit = some l → l < 1) ∨
      (q.cursor ≠ [] ∧ ∃ e, DecodeCursor q.cursor = .error e)) :
    (MovieHandler.List S q st).status = 400 ∧ (MovieHandler.List S q st).calls = [] ∧
      (MovieHandler.List S q st).store = st := by
  rcases list_cases S q st with ⟨h1, h2, h3, _⟩ | ⟨year, budget, limit, cursor, hy, hb, hl, hc, _⟩
  · exact ⟨h1, h2, h3⟩
  · exfalso
    rcases hbad with ⟨h1, h2⟩ | ⟨h1, h2⟩ | ⟨h1, h2⟩ | ⟨h1, e, h2⟩
    · rw [if_neg h1, h2] at hy; cases hy
    · rw [if_neg h1, h2] at hb; cases hb
    · rw [(limit_parse_none q.limit).mpr ⟨h1, h2⟩] at hl; cases hl
    · rw [if_neg h1, h2] at hc; cases hc

/-- The three validation failures of `Create`: 400 and no store access. -/
theorem create_rejected {σ : Type} (S : StoreOps σ) (fetch : GoString → FetchOutcome)
    (now : Time) (movieID : GoString) (body : Option CreateRequest) (st : σ)
    (hbad : body = none ∨ ∃ req, body = some req ∧
      (req.Title = [] ∨ req.Genre = [] ∨ req.ReleaseDate = [] ∨
        parseDateOnly req.ReleaseDate = none)) :
    (MovieHandler.Create S fetch now movieID body st).status = 400 ∧
      (MovieHandler.Create S fetch now movieID body st).calls = [] ∧
      (MovieHandler.Create S fetch now movieID body st).store = st := by
  unfold MovieHandler.Create
  rcases hbad with h | ⟨req, h, hreq⟩
  · subst h
    exact ⟨rfl, rfl, rfl⟩
  · subst h
    simp only
    by_cases hempty : req.Title = [] ∨ req.Genre = [] ∨ req.ReleaseDate = []
    · rw [if_pos hempty]
      exact ⟨rfl, rfl, rfl⟩
    · rw [if_neg hempty]
      have hdate : parseDateOnly req.ReleaseDate = none := by
        rcases hreq with h | h | h | h
        · exact absurd (Or.inl h) hempty
        · exact absurd (Or.inr (Or.inl h)) hempty
        · exact absurd (Or.inr (Or.inr h)) hempty
        · exact h
      rw [hdate]
      exact ⟨rfl, rfl, rfl⟩

/-- The validation failures of `SubmitRating`: 400 or 422 and no store access. -/
theorem submitRating_rejected {σ : Type} (M : StoreOps σ) (R : RatingStoreOps σ)
    (title raterID : GoString) (body : Option SubmitRequest) (st : σ)
    (hbad : body = none ∨ ∃ req, body = some req ∧ isValidRating req.Rating = false) :
    ((RatingHandler.SubmitRating M R title raterID body st).status = 400 ∨
        (RatingHandler.SubmitRating M R title raterID body st).status = 422) ∧
      (RatingHandler.SubmitRating M R title raterID body st).calls = [] ∧
      (RatingHandler.SubmitRating M R title raterID body st).store = st := by
  unfold RatingHandler.SubmitRating
  by_cases htitle : title = []
  · rw [if_pos htitle]
    exact ⟨Or.inl rfl, rfl, rfl⟩
  · rw [if_neg htitle]
    rcases hbad with h | ⟨req, h, hreq⟩
    · subst h
      exact ⟨Or.inl rfl, rfl, rfl⟩
    · subst h
      simp [hreq]

/-- C14: validation precedes storage.  `Create` with an undecodable body, an empty title,
genre or release date, or a release date that is not in `YYYY-MM-DD` form; `List` with a
bad year, budget, limit or cursor; `SubmitRating` with an undecodable body or an invalid
rating: each is answered with a client error, the handler makes no store call and the
store is unchanged.  An invalid rating under a title is answered 422 whatever
`GetByTitle` would return, so also when the movie does not exist. -/
theorem validation_precedes_storage {σ : Type} (S : StoreOps σ) (R : RatingStoreOps σ)
    (fetch : GoString → FetchOutcome) (now : Time) (movieID : GoString) (st : σ) :
    (∀ body : Option CreateRequest,
      (body = none ∨ ∃ req, body = some req ∧
        (req.Title = [] ∨ req.Genre = [] ∨ req.ReleaseDate = [] ∨
          parseDateOnly req.ReleaseDate = none)) →
      (MovieHandler.Create S fetch now movieID body st).status = 400 ∧
        (MovieHandler.Create S fetch now movieID body st).calls = [] ∧
        (MovieHandler.Create S fetch now movieID body st).store = st) ∧
    (∀ q : ListQuery,
      ((q.year ≠ [] ∧ atoi q.year = none) ∨ (q.budget ≠ [] ∧ atoi q.budget = none) ∨
        (q.limit ≠ [] ∧ ∀ l, atoi q.limit = some l → l < 1) ∨
        (q.cursor ≠ [] ∧ ∃ e, DecodeCursor q.cursor = .error e)) →
      (MovieHandler.List S q st).status = 400 ∧ (MovieHandler.List S q st).calls = [] ∧
        (MovieHandler.List S q st).store = st) ∧
    (∀ (title raterID : GoString) (body : Option SubmitRequest),
      (body = none ∨ ∃ req, body = some req ∧ isValidRating req.Rating = false) →
      ((RatingHandler.SubmitRating S R title raterID body st).status = 400 ∨
          (RatingHandler.SubmitRating S R title raterID body st).status = 422) ∧
        (RatingHandler.SubmitRating S R title raterID body st).calls = [] ∧
        (RatingHandler.SubmitRating S R title raterID body st).store = st) ∧
    (∀ (title raterID : GoString) (r : ℚ), title ≠ [] → isValidRating r = false →
      (RatingHandler.SubmitRating S R title raterID (some ⟨r⟩) st).status = 422 ∧
        (RatingHandler.SubmitRating S R title raterID (some ⟨r⟩) st).calls = [] ∧
        (RatingHandler.SubmitRating S R title raterID (some ⟨r⟩) st).store = st) := by
  refine ⟨fun body h => create_rejected S fetch now movieID body st h,
    fun q h => list_rejected S q st h,
    fun title raterID body h => submitRating_rejected S R title raterID body st h, ?_⟩
  intro title raterID r htitle hr
  rw [submitRating_invalid S R title raterID r st htitle hr]
  exact ⟨rfl, rfl, rfl⟩

/-- Witness for C14: against the empty database, where no movie exists, the rating 5.5
for "Nova" is answered 422 with no store call, and a `Create` with the release date
`01/03/2024` is answered 400 with no store call. -/
theorem validation_precedes_storage_witness :
    ((RatingHandler.SubmitRating ratingMovieStore memRatingStore (ascii "Nova") (ascii "u1")
        (some ⟨5.5⟩) ⟨emptyDB, []⟩).status = 422 ∧
      (RatingHandler.SubmitRating ratingMovieStore memRatingStore (ascii "Nova") (ascii "u1")
        (some ⟨5.5⟩) ⟨emptyDB, []⟩).calls = [] ∧
      (RatingHandler.SubmitRating ratingMovieStore memRatingStore (ascii "Nova") (ascii "u1")
        (some ⟨5.5⟩) ⟨emptyDB, []⟩).store = ⟨emptyDB, []⟩) ∧
    ((MovieHandler.Create ratingMovieStore (fun _ => .ok none) Time.zero novaID
        (some { novaRequest with ReleaseDate := ascii "01/03/2024" }) ⟨emptyDB, []⟩).status = 400 ∧
      (MovieHandler.Create ratingMovieStore (fun _ => .ok none) Time.zero novaID
        (some { novaRequest with ReleaseDate := ascii "01/03/2024" }) ⟨emptyDB, []⟩).calls = [] ∧
      (MovieHandler.Create ratingMovieStore (fun _ => .ok none) Time.zero novaID
        (some { novaRequest with ReleaseDate := ascii "01/03/2024" }) ⟨emptyDB, []⟩).store =
          ⟨emptyDB, []⟩) :=
  have h := validation_precedes_storage ratingMovieStore memRatingStore (fun _ => .ok none)
    Time.zero novaID ⟨emptyDB, []⟩
  ⟨h.2.2.2 (ascii "Nova") (ascii "u1") 5.5 (by decide)
      (by norm_num [isValidRating, ratingIn, validRatings]),
    h.1 _ (Or.inr ⟨_, rfl, Or.inr (Or.inr (Or.inr (by decide)))⟩)⟩

/-! ## The persisted box-office row -/

/-- C15: content of the persisted box-office row.  For every successful fetch response,
`enrichBoxOffice` makes one store call, `SetBoxOffice` under the movie's identifier, and
the row it passes is keyed by that identifier, has the fetched worldwide revenue as gross
whatever its value, has the opening weekend set to the fetched value exactly when that
value is above zero and unset otherwise, has currency "USD", source
"ExampleBoxOfficeAPI" and the fetch time as report time; in the in-memory store the row
read back for the movie is that row with the database's fetch timestamp. -/
theorem boxOffice_row_content {σ : Type} (S : StoreOps σ) (now : Time) (movie : Movie)
    (boResp : Response) (st : σ) :
    ∃ row : BoxOfficeRow,
      (MovieHandler.enrichBoxOffice S (.ok (some boResp)) now movie st).2.2 =
        [StoreCall.setBoxOffice movie.ID row] ∧
      (MovieHandler.enrichBoxOffice S (.ok (some boResp)) now movie st).2.1 =
        (S.setBoxOffice st movie.ID row).2 ∧
      row.MovieID = movie.ID ∧ row.GrossUSD = boResp.Worldwide ∧
      (row.OpeningWeekendUSA = some boResp.OpeningWeekendUSA ↔ 0 < boResp.OpeningWeekendUSA) ∧
      (row.OpeningWeekendUSA = none ↔ ¬ 0 < boResp.OpeningWeekendUSA) ∧
      row.Currency = ascii "USD" ∧ row.Source = ascii "ExampleBoxOfficeAPI" ∧
      row.LastReported = now ∧
      ∀ db : MemStore, MemStore.getBoxOffice (MemStore.setBoxOffice db movie.ID row).2 movie.ID =
        .ok (some { row with FetchedAt := db.clock }) := by
  refine ⟨boxOfficeRowOf movie boResp now, rfl, rfl, ?_, ?_, ?_, ?_, ?_, ?_, ?_, ?_⟩
  · unfold boxOfficeRowOf; split_ifs <;> rfl
  · unfold boxOfficeRowOf; split_ifs <;> rfl
  · unfold boxOfficeRowOf; split_ifs with h <;> simp [h]
  · unfold boxOfficeRowOf; split_ifs with h <;> simp [h]
  · unfold boxOfficeRowOf; split_ifs <;> rfl
  · unfold boxOfficeRowOf; split_ifs <;> rfl
  · unfold boxOfficeRowOf; split_ifs <;> rfl
  · intro db
    rw [getBoxOffice_setBoxOffice]
    have hid : (boxOfficeRowOf movie boResp now).MovieID = movie.ID := by
      unfold boxOfficeRowOf; split_ifs <;> rfl
    rw [← hid]

/-! ## Absent and empty values in the precedence merge -/

/-- Counterexample to C16 as stated: with the fetched distributor "Acme", enrichment of
the movie built from a request that supplied the distributor `""` keeps `""`, while
enrichment of the movie built from the request that omitted the field gives "Acme"; the
two results differ, also in the movie that `Create` returns. -/
theorem enrich_empty_counterexample :
    (MovieHandler.enrichBoxOffice memStore (.ok (some novaResponse)) Time.zero
      (newMovie novaID { novaRequest with Distributor := some [] } Time.zero)
      emptyDB).1.Distributor = some [] ∧
    (MovieHandler.enrichBoxOffice memStore (.ok (some novaResponse)) Time.zero
      (newMovie novaID { novaRequest with Distributor := none } Time.zero)
      emptyDB).1.Distributor = some (ascii "Acme") ∧
    (MovieHandler.Create memStore (fun _ => .ok (some novaResponse)) Time.zero novaID
      (some { novaRequest with Distributor := some [] }) emptyDB).body ≠
    (MovieHandler.Create memStore (fun _ => .ok (some novaResponse)) Time.zero novaID
      (some { novaRequest with Distributor := none }) emptyDB).body := by
  refine ⟨rfl, rfl, ?_⟩
  decide

/-- C16 as amended: the empty and zero values that enrichment treats as absent are the
fetched ones, not the user's.  A user-supplied `""` distributor or MPA rating and a
user-supplied zero budget are kept, whatever was fetched; a field the user omitted takes
a fetched value that is non-empty (positive for the budget); a fetched empty string or a
fetched budget that is not positive leaves the field as the user gave it. -/
theorem enrich_absent_vs_empty {σ : Type} (S : StoreOps σ) (now : Time) (movie : Movie)
    (boResp : Response) (st : σ) :
    ((MovieHandler.enrichBoxOffice S (.ok (some boResp)) now
        { movie with Distributor := some [] } st).1.Distributor = some [] ∧
      (MovieHandler.enrichBoxOffice S (.ok (some boResp)) now
        { movie with Budget := some 0 } st).1.Budget = some 0 ∧
      (MovieHandler.enrichBoxOffice S (.ok (some boResp)) now
        { movie with MPARating := some [] } st).1.MPARating = some []) ∧
    ((boResp.Distributor ≠ [] →
        (MovieHandler.enrichBoxOffice S (.ok (some boResp)) now
          { movie with Distributor := none } st).1.Distributor = some boResp.Distributor) ∧
      (0 < boResp.Budget →
        (MovieHandler.enrichBoxOffice S (.ok (some boResp)) now
          { movie with Budget := none } st).1.Budget = some boResp.Budget) ∧
      (boResp.MPARating ≠ [] →
        (MovieHandler.enrichBoxOffice S (.ok (some boResp)) now
          { movie with MPARating := none } st).1.MPARating = some boResp.MPARating)) ∧
    ((boResp.Distributor = [] →
        (MovieHandler.enrichBoxOffice S (.ok (some boResp)) now movie st).1.Distributor =
          movie.Distributor) ∧
      (boResp.Budget ≤ 0 →
        (MovieHandler.enrichBoxOffice S (.ok (some boResp)) now movie st).1.Budget =
          movie.Budget) ∧
      (boResp.MPARating = [] →
        (MovieHandler.enrichBoxOffice S (.ok (some boResp)) now movie st).1.MPARating =
          movie.MPARating)) := by
  simp only [MovieHandler.enrichBoxOffice, mergeFetched]
  refine ⟨⟨?_, ?_, ?_⟩, ⟨?_, ?_, ?_⟩, ⟨?_, ?_, ?_⟩⟩
  · split_ifs <;> simp_all
  · split_ifs <;> simp_all
  · split_ifs <;> simp_all
  · intro h; split_ifs <;> simp_all
  · intro h; split_ifs <;> simp_all
  · intro h; split_ifs <;> simp_all
  · intro h; split_ifs <;> simp_all
  · intro h; split_ifs <;> simp_all <;> omega
  · intro h; split_ifs <;> simp_all

/-- Witness for the amended C16: with the fetched distributor "Acme", the movie of the
request that omitted the distributor is given "Acme". -/
theorem enrich_absent_vs_empty_witness :
    (MovieHandler.enrichBoxOffice memStore (.ok (some novaResponse)) Time.zero
      { newMovie novaID novaRequest Time.zero with Distributor := none }
      emptyDB).1.Distributor = some (ascii "Acme") :=
  (enrich_absent_vs_empty memStore Time.zero (newMovie novaID novaRequest Time.zero)
    novaResponse emptyDB).2.1.1 (by decide)
/-! ## The bearer-token gate -/

/-- The cut at the first separator behind a text without one. -/
theorem cutAt_append (sep : Nat) : ∀ (a rest : GoString), sep ∉ a →
    cutAt sep (a ++ sep :: rest) = some (a, rest)
  | [], rest, _ => by simp [cutAt]
  | c :: a, rest, h => by
    have hc : c ≠ sep := fun e => h (e ▸ List.mem_cons_self _ _)
    have ha : sep ∉ a := fun m => h (List.mem_cons_of_mem _ m)
    simp [cutAt, hc, cutAt_append sep a rest ha]

/-- A cut splits the text around a separator. -/
theorem cutAt_some (sep : Nat) : ∀ (s a rest : GoString), cutAt sep s = some (a, rest) →
    s = a ++ sep :: rest
  | [], a, rest, h => by simp [cutAt] at h
  | c :: s, a, rest, h => by
    unfold cutAt at h
    by_cases hc : c = sep
    · rw [if_pos hc] at h
      cases h
      rw [hc]
      rfl
    · rw [if_neg hc] at h
      cases hcut : cutAt sep s with
      | none => rw [hcut] at h; cases h
      | some p =>
        obtain ⟨a1, rest1⟩ := p
        rw [hcut] at h
        simp only [Option.map_some', Option.some.injEq, Prod.mk.injEq] at h
        obtain ⟨h1, h2⟩ := h
        subst h1 h2
        rw [cutAt_some sep s a1 rest1 hcut]
        rfl

/-- `strings.SplitN(auth, " ", 2)` on a non-empty text: the one cut at the first space, or
the text itself when it has no space. -/
theorem splitN_two (auth : GoString) (h : auth ≠ []) :
    splitN auth 32 2 =
      match cutAt 32 auth with
      | none => [auth]
      | some (a, rest) => [a, rest] := by
  have hlen : min 2 (auth.length + 1) - 1 = 1 := by
    cases auth with
    | nil => exact absurd rfl h
    | cons c s => simp only [List.length_cons]; omega
  unfold splitN
  rw [if_neg (by decide), hlen]
  unfold splitLoop
  cases cutAt 32 auth with
  | none => rfl
  | some p => rfl

/-- `BearerAuth` on a header value: the next handler is called exactly for `Bearer`, one
space and the token. -/
theorem bearerAuth_next_iff (token auth : GoString) :
    BearerAuth token (some auth) = .next ↔ auth = ascii "Bearer " ++ token := by
  unfold BearerAuth headerGet
  simp only [Option.getD_some]
  by_cases h : auth = []
  · subst h
    simp [ascii]
  · rw [if_neg h]
    simp only [splitN_two auth h]
    cases hcut : cutAt 32 auth with
    | none =>
      simp only [List.length_singleton]
      constructor
      · intro hx; simp at hx
      · intro hx
        rw [hx, show ascii "Bearer " ++ token = ascii "Bearer" ++ 32 :: token from rfl,
          cutAt_append 32 (ascii "Bearer") token (by decide)] at hcut
        cases hcut
    | some p =>
      obtain ⟨a, rest⟩ := p
      have hs := cutAt_some 32 auth a rest hcut
      simp only [List.length_cons, List.length_nil, List.get?_cons_zero, List.get?_cons_succ]
      constructor
      · intro hx
        by_cases ha : a = ascii "Bearer"
        · by_cases hr : rest = token
          · rw [hs, ha, hr]; rfl
          · simp [ha, hr] at hx
        · simp [ha] at hx
      · intro hx
        rw [hx, show ascii "Bearer " ++ token = ascii "Bearer" ++ 32 :: token from rfl,
          cutAt_append 32 (ascii "Bearer") token (by decide)] at hcut
        cases hcut
        simp

/-- Every answer of `BearerAuth` itself is a 401. -/
theorem bearerAuth_answers (token : GoString) (header : Option GoString) :
    BearerAuth token header = .next ∨
      ∃ message, BearerAuth token header = .answered 401 "UNAUTHORIZED" message := by
  unfold BearerAuth
  simp only
  split_ifs
  · exact Or.inr ⟨_, rfl⟩
  · exact Or.inr ⟨_, rfl⟩
  · exact Or.inr ⟨_, rfl⟩
  · exact Or.inl rfl

/-- C17: the bearer-token gate.  For every configured token and every `Authorization`
header, present or missing, `BearerAuth` calls the next handler exactly when the header
value is `Bearer`, one space and the token, byte for byte; in every other case it answers
401 itself and the next handler is not called. -/
theorem bearerAuth_gate (token : GoString) (header : Option GoString) :
    (BearerAuth token header = .next ↔ header = some (ascii "Bearer " ++ token)) ∧
    (header ≠ some (ascii "Bearer " ++ token) →
      ∃ message, BearerAuth token header = .answered 401 "UNAUTHORIZED" message) := by
  have hiff : BearerAuth token header = .next ↔ header = some (ascii "Bearer " ++ token) := by
    cases header with
    | none =>
      constructor
      · intro hx; simp [BearerAuth, headerGet] at hx
      · intro hx; cases hx
    | some auth =>
      rw [bearerAuth_next_iff, Option.some.injEq]
  refine ⟨hiff, fun hne => ?_⟩
  rcases bearerAuth_answers token header with h | h
  · exact absurd (hiff.mp h) hne
  · exact h

/-- Witness for C17: with the token `s3cret`, the header `bearer s3cret` (lower-case
scheme) is answered 401. -/
theorem bearerAuth_gate_witness :
    ∃ message, BearerAuth (ascii "s3cret") (some (ascii "bearer s3cret")) =
      .answered 401 "UNAUTHORIZED" message :=
  (bearerAuth_gate (ascii "s3cret") (some (ascii "bearer s3cret"))).2 (by decide)

/-! ## Tokens that `DecodeCursor` rejects -/

end Movies
